import Mathlib

/-!
# DripOS: echFS driver, path resolution, and the round-robin picker

A shallow embedding of `src/fs/filesystems/echfs.c` and of `pick_task` from
`src/proc/scheduler.c`.  Machine words are natural numbers reduced modulo
`2 ^ 64` wherever the C code computes in `uint64_t`; C strings are lists of
byte values read up to the first NUL.
-/

namespace DripOS

/-! ## Machine words, byte buffers and the block device -/

/-- Reduction of a natural number to an unsigned 64-bit machine word. -/
def u64 (n : Nat) : Nat := n % 2 ^ 64

/-- Byte-addressed content of the block device behind the device descriptor:
`dev a` is the byte stored at absolute offset `a`. -/
abbrev Device := Nat → Nat

/-- Modelled from the spec: `fd_seek(fd, pos, 0)` followed by
`fd_read(fd, buf, n)` on a device node (the descriptor layer `fs/fd.c` is
absent; section 6 states that device nodes perform byte-addressed I/O).  The
result is the destination buffer, which the callers obtain from `kcalloc`, so
every byte outside the `n` bytes read is zero. -/
def fd_read_at (dev : Device) (pos n : Nat) : Nat → Nat :=
  fun i => if i < n then dev (pos + i) % 256 else 0

/-- Little-endian load of a `uint64_t` stored at byte offset `off` of a buffer. -/
def load_u64 (buf : Nat → Nat) (off : Nat) : Nat :=
  buf off + 256 * (buf (off + 1) + 256 * (buf (off + 2) + 256 * (buf (off + 3)
    + 256 * (buf (off + 4) + 256 * (buf (off + 5) + 256 * (buf (off + 6)
    + 256 * buf (off + 7)))))))

/-- The 64-bit little-endian value stored on the device at absolute byte
address `addr`. -/
def device_u64 (dev : Device) (addr : Nat) : Nat :=
  load_u64 (fun a => dev a % 256) addr

/-- A device given by its leading bytes; everything after them is zero. -/
def device_of_bytes (l : List Nat) : Device := fun a => l.getD a 0

/-! ## echFS data model -/

/-- Modelled from the spec: the on-disk header `echfs_block0_t` (declared in
the absent `echfs.h`), with the fields the driver reads. -/
structure echfs_block0_t where
  sig : Nat → Nat
  block_count : Nat
  main_dir_blocks : Nat
  block_size : Nat

/-- Modelled from the spec: the header layout of section 6 (the struct
declaration is absent): the 8-byte magic at byte 4 of block 0, followed by the
little-endian `block_count`, `main_dir_blocks` and `block_size`. -/
def block0_of_buffer (buf : Nat → Nat) : echfs_block0_t :=
  { sig := fun k => buf (4 + k)
    block_count := load_u64 buf 12
    main_dir_blocks := load_u64 buf 20
    block_size := load_u64 buf 28 }

/-- The filesystem descriptor `echfs_filesystem_t`; every numeric field is a
`uint64_t`. -/
structure echfs_filesystem_t where
  device_name : List Nat
  blocks : Nat
  block_size : Nat
  alloc_table_addr : Nat
  alloc_table_size : Nat
  alloc_table_block : Nat
  alloc_table_blocks : Nat
  main_dir_block : Nat
  main_dir_blocks : Nat
  mountpoint_path : List Nat
deriving DecidableEq, Repr

/-- Modelled from the spec: a parsed directory entry `echfs_dir_entry_t`
(declared in the absent `echfs.h`).  `name` is the C string held in the name
field. -/
structure echfs_dir_entry_t where
  parent_id : Nat
  entry_type : Nat
  name : List Nat
  starting_block : Nat
  file_size_bytes : Nat
deriving DecidableEq, Repr

/-- Modelled from the spec: `ECHFS_END_OF_CHAIN`, the sentinel
`0xFFFFFFFFFFFFFFFF` of section 3 (the constant is defined in the absent
`echfs.h`). -/
def ECHFS_END_OF_CHAIN : Nat := 0xFFFFFFFFFFFFFFFF

/-- Modelled from the spec: the macro `BYTES_TO_BLOCKS` (absent from the
sources), the ceiling of `bytes / block_size` of section 4.4. -/
def BYTES_TO_BLOCKS (bytes block_size : Nat) : Nat :=
  (bytes + block_size - 1) / block_size

/-! ## Header detection -/

/-- Outcome of running a call or a loop of the kernel: it returns a value, it
stops in a fault (`trap`: a division by zero, a read through a null pointer),
or it is still running when the step budget is used up. -/
inductive Run (α : Type) where
  | ret (a : α)
  | trap
  | out_of_fuel
deriving DecidableEq, Repr

/-- The value a returning call leaves, and a default otherwise. -/
def ret_or {α : Type} (x : Run α) (d : α) : α :=
  match x with
  | Run.ret a => a
  | _ => d

/-- `echfs_read_block0`: read the 64-byte header, compare the signature and,
when it matches, fill the descriptor.  The result is the returned `int`
together with the descriptor after the call.  The macro `BYTES_TO_BLOCKS` is
absent from the sources; by section 4.4 it is the ceiling of
`alloc_table_size / block_size`, an integer division by the header's
`block_size`, which faults when that field is 0: the call then does not
return (`Run.trap`). -/
def echfs_read_block0 (dev : Device) (device : List Nat) (output : echfs_filesystem_t) :
    Run (Int × echfs_filesystem_t) :=
  let block0 := block0_of_buffer (fd_read_at dev 0 64)
  if block0.sig 0 = 95 ∧ block0.sig 1 = 69 ∧ block0.sig 2 = 67 ∧ block0.sig 3 = 72 ∧
      block0.sig 4 = 95 ∧ block0.sig 5 = 70 ∧ block0.sig 6 = 83 ∧ block0.sig 7 = 95 then
    let output := { output with
      device_name := device
      blocks := block0.block_count
      block_size := block0.block_size }
    let output := { output with
      alloc_table_addr := u64 (block0.block_size * 16)
      alloc_table_size := u64 (block0.block_count * 8)
      alloc_table_block := 16 }
    if output.block_size = 0 then Run.trap
    else
      let output := { output with
        alloc_table_blocks := u64 (BYTES_TO_BLOCKS output.alloc_table_size output.block_size) }
      let output := { output with
        main_dir_block := u64 (output.alloc_table_blocks + 16)
        main_dir_blocks := block0.main_dir_blocks }
      Run.ret (1, output)
  else
    Run.ret (0, output)

/-- The returned `int` and the descriptor after a returning call of
`echfs_read_block0`; a call that does not return has accepted nothing and
stands as `(0, output)`. -/
def echfs_read_block0_result (dev : Device) (device : List Nat)
    (output : echfs_filesystem_t) : Int × echfs_filesystem_t :=
  ret_or (echfs_read_block0 dev device output) (0, output)

/-! ## Block access and the allocation table -/

/-- `echfs_read_block`: the freshly allocated buffer of `block_size` bytes
after seeking to `block * block_size` (a `uint64_t` product) and reading. -/
def echfs_read_block (filesystem : echfs_filesystem_t) (dev : Device) (block : Nat) :
    Nat → Nat :=
  fd_read_at dev (u64 (block * filesystem.block_size)) filesystem.block_size

/-- The byte address `main_dir_start_byte` computed by `echfs_read_dir_entry`. -/
def main_dir_start_byte (filesystem : echfs_filesystem_t) : Nat :=
  u64 (filesystem.main_dir_block * filesystem.block_size)

/-- The seek position used by `echfs_read_dir_entry` for entry number `entry`
(`sizeof(echfs_dir_entry_t)` is 256). -/
def echfs_read_dir_entry_pos (filesystem : echfs_filesystem_t) (entry : Nat) : Nat :=
  u64 (main_dir_start_byte filesystem + u64 (entry * 256))

/-- `echfs_get_entry_for_block`: `none` stands for the division trap taken when
`block_size` is 0 (first line) or below 8 (the modulus `block_size / 8` is 0). -/
def echfs_get_entry_for_block (filesystem : echfs_filesystem_t) (dev : Device)
    (block : Nat) : Option Nat :=
  if filesystem.block_size = 0 then none
  else
    let alloc_table_block := u64 (u64 (block * 8) / filesystem.block_size + 16)
    let alloc_table_data := echfs_read_block filesystem dev alloc_table_block
    if filesystem.block_size / 8 = 0 then none
    else some (load_u64 alloc_table_data (8 * (block % (filesystem.block_size / 8))))

/-- The `while (1)` loop of `echfs_read_file`: copy the current block behind the
data gathered so far (`byte_offset` is the length of `data`; the size of the
destination allocation is not tracked), look the block up in the allocation
table, stop at `ECHFS_END_OF_CHAIN`.  `fuel` bounds the number of passes. -/
def echfs_read_file_loop (filesystem : echfs_filesystem_t) (dev : Device) :
    Nat → Nat → List Nat → Run (List Nat)
  | 0, _, _ => Run.out_of_fuel
  | fuel + 1, current_block, data =>
    let temp_data := echfs_read_block filesystem dev current_block
    let data := data ++ (List.range filesystem.block_size).map temp_data
    match echfs_get_entry_for_block filesystem dev current_block with
    | none => Run.trap
    | some next =>
      if next = ECHFS_END_OF_CHAIN then Run.ret data
      else echfs_read_file_loop filesystem dev fuel next data

/-- `echfs_read_file`: the walk starts at the entry's `starting_block` with an
empty result. -/
def echfs_read_file (filesystem : echfs_filesystem_t) (dev : Device)
    (file : echfs_dir_entry_t) (fuel : Nat) : Run (List Nat) :=
  echfs_read_file_loop filesystem dev fuel file.starting_block []

/-- The allocation-table successor of a block as `echfs_read_file` sees it. -/
def alloc_next (filesystem : echfs_filesystem_t) (dev : Device) (b : Nat) : Nat :=
  (echfs_get_entry_for_block filesystem dev b).getD 0

/-! ## Directory lookup and path resolution -/

/-- The main directory as `echfs_read_dir_entry` presents it: `dir n` is the
entry returned for entry number `n`. -/
abbrev Directory := Nat → echfs_dir_entry_t

/-- The byte a `char *` points at; an exhausted list stands for the
terminating NUL. -/
def deref (s : List Nat) : Nat := s.headD 0

/-- The C string held in a byte list: the bytes before the first NUL. -/
def cstr (s : List Nat) : List Nat := s.takeWhile (fun c => c ≠ 0)

/-- Modelled from the spec: `strcmp` of the absent `klibc/string.h`; the driver
only tests the result against 0, which holds exactly when the two C strings
agree. -/
def strcmp (a b : List Nat) : Int := if cstr a = cstr b then 0 else 1

/-- The `while (1)` loop of `echfs_find_entry_name_parent`, started at entry
number `entry_n` with a budget of `fuel` entries to read: `none` when the
budget runs out before the loop returns.  The sentinel `ECHFS_SEARCH_FAIL`
(defined in the absent `echfs.h`) is the parameter `SEARCH_FAIL`.  The
post-incremented counter makes `entry_n - 1` the number of the entry just
read. -/
def echfs_find_entry_name_parent_loop (SEARCH_FAIL : Nat) (dir : Directory)
    (name : List Nat) (parent_id : Nat) : Nat → Nat → Option Nat
  | 0, _ => none
  | fuel + 1, entry_n =>
    let entry := dir entry_n
    if entry.parent_id = parent_id ∧ strcmp name entry.name = 0 then some entry_n
    else if entry.parent_id = 0 then some SEARCH_FAIL
    else echfs_find_entry_name_parent_loop SEARCH_FAIL dir name parent_id fuel (entry_n + 1)

/-- `echfs_find_entry_name_parent`: the scan starts at entry 0. -/
def echfs_find_entry_name_parent (SEARCH_FAIL : Nat) (dir : Directory) (fuel : Nat)
    (name : List Nat) (parent_id : Nat) : Option Nat :=
  echfs_find_entry_name_parent_loop SEARCH_FAIL dir name parent_id fuel 0

/-- Error bit 0 of `echfs_path_resolve`: root entry. -/
def ERR_ROOT_ENTRY : Nat := 1 <<< 0

/-- Error bit 1 of `echfs_path_resolve`: name too long. -/
def ERR_NAME_TOO_LONG : Nat := 1 <<< 1

/-- Error bit 2 of `echfs_path_resolve`: search failed. -/
def ERR_SEARCH_FAIL : Nat := 1 <<< 2

/-- The `is_last` branch of `echfs_path_resolve`: look the final component up
and return the entry, or fail with the search bit. -/
def resolve_last (SEARCH_FAIL : Nat) (dir : Directory) (fuel : Nat)
    (current_name : List Nat) (current_parent : Nat) :
    Option (Option echfs_dir_entry_t × Nat) :=
  match echfs_find_entry_name_parent SEARCH_FAIL dir fuel current_name current_parent with
  | none => none
  | some found_elem_index =>
    if found_elem_index ≠ SEARCH_FAIL then some (some (dir found_elem_index), 0)
    else some (none, 0 ||| ERR_SEARCH_FAIL)

/-- The body of `echfs_path_resolve` from the label `next_elem` on, as one
recursion over the bytes still to be scanned.  `current_name` is the C string
in the component buffer (each pass of the `for` loop stores the byte at index
`i` and a NUL behind it, so `i` is its length; the store of the NUL at index
201 is taken to land behind the 201-byte array without disturbing the other
locals).  A `'/'` ends the `for` loop with `is_last` clear and leads to the
directory lookup and `goto next_elem`; a NUL sets `is_last`.  The result is the
returned entry (or null) with the final `*err_code`; `none` when a directory
scan exhausts `fuel`. -/
def echfs_path_resolve_loop (SEARCH_FAIL : Nat) (dir : Directory) (fuel : Nat) :
    List Nat → List Nat → Nat → Option (Option echfs_dir_entry_t × Nat)
  | [], current_name, current_parent =>
    resolve_last SEARCH_FAIL dir fuel current_name current_parent
  | c :: filename, current_name, current_parent =>
    if c = 47 then
      match echfs_find_entry_name_parent SEARCH_FAIL dir fuel current_name current_parent with
      | none => none
      | some found_elem_index =>
        if found_elem_index ≠ SEARCH_FAIL then
          let cur_entry := dir found_elem_index
          if cur_entry.entry_type ≠ 1 then some (none, 0 ||| ERR_SEARCH_FAIL)
          else echfs_path_resolve_loop SEARCH_FAIL dir fuel filename [] cur_entry.starting_block
        else some (none, 0 ||| ERR_SEARCH_FAIL)
    else if c = 0 then
      resolve_last SEARCH_FAIL dir fuel current_name current_parent
    else
      let current_name := current_name ++ [c]
      if current_name.length = 201 ∧ deref filename ≠ 0 then
        some (none, 0 ||| ERR_NAME_TOO_LONG)
      else echfs_path_resolve_loop SEARCH_FAIL dir fuel filename current_name current_parent

/-- `echfs_path_resolve`: skip one leading `'/'`, answer the remaining string
`"/"` with the root-entry bit, otherwise walk the components starting from
`ECHFS_ROOT_DIR_ID`.  The constants `ECHFS_ROOT_DIR_ID` and `ECHFS_SEARCH_FAIL`
(absent `echfs.h`) are the parameters `ROOT_DIR_ID` and `SEARCH_FAIL`. -/
def echfs_path_resolve (ROOT_DIR_ID SEARCH_FAIL : Nat) (dir : Directory) (fuel : Nat)
    (filename : List Nat) : Option (Option echfs_dir_entry_t × Nat) :=
  let filename := if deref filename = 47 then filename.tail else filename
  if strcmp filename [47] = 0 then some (none, 0 ||| ERR_ROOT_ENTRY)
  else echfs_path_resolve_loop SEARCH_FAIL dir fuel filename [] ROOT_DIR_ID

/-! ### Path components, as the specification speaks of them -/

/-- Split a slash-delimited byte string into its components; `acc` is the
component being gathered. -/
def split_slash : List Nat → List Nat → List (List Nat)
  | acc, [] => [acc]
  | acc, c :: rest =>
    if c = 47 then acc :: split_slash [] rest else split_slash (acc ++ [c]) rest

/-- The path with one leading `'/'` removed, as a C string. -/
def path_body (filename : List Nat) : List Nat :=
  cstr (if deref filename = 47 then filename.tail else filename)

/-- The components of a path: the pieces between the slashes that follow the
optional leading one. -/
def path_components (filename : List Nat) : List (List Nat) :=
  split_slash [] (path_body filename)

/-- Entry `n` of the directory matches component `c` below parent `parent`. -/
def entry_matches (dir : Directory) (parent : Nat) (c : List Nat) (n : Nat) : Prop :=
  (dir n).parent_id = parent ∧ cstr (dir n).name = c

instance (dir : Directory) (parent : Nat) (c : List Nat) (n : Nat) :
    Decidable (entry_matches dir parent c n) := by
  unfold entry_matches; infer_instance

/-- Entry `e` is reached from parent id `parent` along the components `comps`:
every component but the last is matched by a directory entry of type 1 whose
`starting_block` is the parent id for the next component, and `e` is a
directory entry that matches the last component. -/
def resolved_chain (dir : Directory) : Nat → List (List Nat) → echfs_dir_entry_t → Prop
  | _, [], _ => False
  | parent, [c], e => (∃ n, dir n = e) ∧ e.parent_id = parent ∧ cstr e.name = c
  | parent, c :: c2 :: cs, e =>
    ∃ n, entry_matches dir parent c n ∧ (dir n).entry_type = 1 ∧
      resolved_chain dir (dir n).starting_block (c2 :: cs) e

/-- The walk over the components `comps` from parent id `parent` fails in a
directory whose end marker is entry `m`: some component reached by the walk
has no matching entry among the entries `0 .. m`, or the first entry matching
a non-final component is not of type 1. -/
def walk_fails (dir : Directory) (m : Nat) : Nat → List (List Nat) → Prop
  | _, [] => False
  | parent, c :: cs =>
    (∀ n, n ≤ m → ¬ entry_matches dir parent c n) ∨
    (cs ≠ [] ∧ ∃ n, n ≤ m ∧ entry_matches dir parent c n ∧
      (∀ k, k < n → ¬ entry_matches dir parent c k) ∧
      ((dir n).entry_type ≠ 1 ∨ walk_fails dir m (dir n).starting_block cs))

/-- A directory given by its leading entries; every later entry is all zero,
hence an end marker. -/
def directory_of_list (l : List echfs_dir_entry_t) : Directory :=
  fun n => l.getD n ⟨0, 0, [], 0, 0⟩

/-! ## Threads and the picker -/

/-- Modelled from the spec: the run states of a thread (the enumeration is
declared in the absent `scheduler.h`). -/
inductive task_state_t where
  | READY
  | RUNNING
  | BLOCKED
  | ZOMBIE
deriving DecidableEq, Repr

/-- Modelled from the spec: the saved register frame `task_regs_t` (declared in
the absent `scheduler.h`), with the registers `schedule` copies. -/
structure task_regs_t where
  rax : Nat
  rbx : Nat
  rcx : Nat
  rdx : Nat
  rbp : Nat
  rdi : Nat
  rsi : Nat
  r8 : Nat
  r9 : Nat
  r10 : Nat
  r11 : Nat
  r12 : Nat
  r13 : Nat
  r14 : Nat
  r15 : Nat
  rip : Nat
  rsp : Nat
  rflags : Nat
  cs : Nat
  ss : Nat
  fs : Nat
  cr3 : Nat
deriving DecidableEq, Repr

/-- Modelled from the spec: the thread record `task_t` (declared in the absent
`scheduler.h`), with the fields `scheduler.c` uses. -/
structure task_t where
  regs : task_regs_t
  tid : Int
  parent_pid : Int
  state : task_state_t
  ring : Nat
  kernel_stack : Nat
  user_stack : Nat
  tsc_started : Nat
  tsc_stopped : Nat
  tsc_total : Nat
  name : List Nat
deriving DecidableEq, Repr

/-- Modelled from the spec: a stable-id dynarray (the absent
`klibc/dynarray.h`) as the list of its slots; a slot that is not live holds
`none`, and `array_size` is the length of the list. -/
abbrev dynarray_t (α : Type) := List (Option α)

/-- Modelled from the spec: `dynarray_getelem`, the element of a live slot and
null for every other index (section 4.1). -/
def dynarray_getelem {α : Type} (arr : dynarray_t α) (i : Int) : Option α :=
  if i < 0 then none else arr.getD i.toNat none

/-- One `for` loop of `pick_task`: visit `n` slots starting at slot `t` and
return the `tid` field of the first live task found in state `READY`. -/
def pick_task_scan (tasks : dynarray_t task_t) : Nat → Int → Option Int
  | 0, _ => none
  | n + 1, t =>
    match dynarray_getelem tasks t with
    | some task =>
      if task.state = task_state_t.READY then some task.tid
      else pick_task_scan tasks n (t + 1)
    | none => pick_task_scan tasks n (t + 1)

/-- `pick_task` on the CPU whose `current_thread` is given (`none` for a null
pointer): the first loop runs `t` from `tid + 1` up to `array_size`, the second
from 0 up to `tid`; -1 when neither finds a ready task. -/
def pick_task (tasks : dynarray_t task_t) (current_thread : Option task_t) : Int :=
  match current_thread with
  | none => -1
  | some cur =>
    match pick_task_scan tasks ((tasks.length : Int) - (cur.tid + 1)).toNat (cur.tid + 1) with
    | some tid_ret => tid_ret
    | none =>
      match pick_task_scan tasks (cur.tid + 1).toNat 0 with
      | some tid_ret => tid_ret
      | none => -1

/-- The slot numbers in the cyclic order `c + 1, ..., N - 1, 0, ..., c`. -/
def cyclic_order (c N : Nat) : List Nat :=
  List.range' (c + 1) (N - (c + 1)) ++ List.range (c + 1)

/-- Slot `t` of the thread table is live and its task is `READY`. -/
def slot_ready (tasks : dynarray_t task_t) (t : Nat) : Bool :=
  match dynarray_getelem tasks (t : Int) with
  | some task => decide (task.state = task_state_t.READY)
  | none => false

/-- A thread record with the given id and state and every other field zero. -/
def task_with (tid : Int) (state : task_state_t) : task_t :=
  { regs := ⟨0, 0, 0, 0, 0, 0, 0, 0, 0, 0, 0, 0, 0, 0, 0, 0, 0, 0, 0, 0, 0, 0⟩
    tid := tid
    parent_pid := 0
    state := state
    ring := 0
    kernel_stack := 0
    user_stack := 0
    tsc_started := 0
    tsc_stopped := 0
    tsc_total := 0
    name := [] }

/-! ## Concrete inputs -/

/-- A descriptor with the given block size and every other field zero. -/
def filesystem_with_block_size (block_size : Nat) : echfs_filesystem_t :=
  { device_name := []
    blocks := 0
    block_size := block_size
    alloc_table_addr := 0
    alloc_table_size := 0
    alloc_table_block := 0
    alloc_table_blocks := 0
    main_dir_block := 0
    main_dir_blocks := 0
    mountpoint_path := [] }

/-- The header `echfs_read_block0` parses from the first 64 bytes of a device. -/
def read_header (dev : Device) : echfs_block0_t := block0_of_buffer (fd_read_at dev 0 64)

/-- A header with a valid signature, `block_count = 2 ^ 61 - 1`,
`main_dir_blocks = 0` and `block_size = 1`. -/
def wrap_device : Device :=
  device_of_bytes [0, 0, 0, 0, 95, 69, 67, 72, 95, 70, 83, 95,
    255, 255, 255, 255, 255, 255, 255, 31,
    0, 0, 0, 0, 0, 0, 0, 0,
    1, 0, 0, 0, 0, 0, 0, 0]

/-- A header with a valid signature, `block_count = 100`, `main_dir_blocks = 3`
and `block_size = 512`. -/
def small_device : Device :=
  device_of_bytes [0, 0, 0, 0, 95, 69, 67, 72, 95, 70, 83, 95,
    100, 0, 0, 0, 0, 0, 0, 0,
    3, 0, 0, 0, 0, 0, 0, 0,
    0, 2, 0, 0, 0, 0, 0, 0]

/-- A header with a valid signature, `block_count = 100`, `main_dir_blocks = 3`
and `block_size = 0`. -/
def zero_size_device : Device :=
  device_of_bytes [0, 0, 0, 0, 95, 69, 67, 72, 95, 70, 83, 95,
    100, 0, 0, 0, 0, 0, 0, 0,
    3, 0, 0, 0, 0, 0, 0, 0,
    0, 0, 0, 0, 0, 0, 0, 0]

/-- A device of zero bytes: its signature bytes do not spell the magic. -/
def blank_device : Device := device_of_bytes []

/-- A device whose allocation table (block size 8, so the table starts at byte
128) holds the chain 0, 1, end of chain. -/
def chain_device : Device :=
  device_of_bytes (List.replicate 128 0 ++ [1, 0, 0, 0, 0, 0, 0, 0] ++ List.replicate 8 255)

/-- A directory entry for a file that starts at the given block. -/
def file_at (starting_block : Nat) : echfs_dir_entry_t :=
  { parent_id := 1, entry_type := 0, name := [], starting_block := starting_block,
    file_size_bytes := 0 }

/-- A thread table with slots 0, 1, 3 and 4 live and slot 2 free. -/
def sample_tasks : dynarray_t task_t :=
  [some (task_with 0 task_state_t.READY), some (task_with 1 task_state_t.BLOCKED), none,
    some (task_with 3 task_state_t.RUNNING), some (task_with 4 task_state_t.ZOMBIE)]

/-- The first component of a path: the bytes of the path body in front of the
first slash. -/
def first_component (filename : List Nat) : List Nat :=
  (path_body filename).takeWhile (fun c => c ≠ 47)

/-- The value `0xFFFFFFFFFFFFFFFF`, used for `ECHFS_ROOT_DIR_ID` and
`ECHFS_SEARCH_FAIL` in the concrete runs. -/
def ALL_ONES : Nat := 0xFFFFFFFFFFFFFFFF

/-- A directory with the top-level directory `a` (id 5), the file `b` inside it,
and the end marker as entry 2. -/
def sample_dir : Directory :=
  directory_of_list
    [⟨ALL_ONES, 1, [97], 5, 0⟩, ⟨5, 0, [98], 9, 12⟩]

/-- A directory with the top-level directory `a` whose id is 0, followed by an
end marker (entry 1) whose name field reads `b`. -/
def marker_dir : Directory :=
  directory_of_list
    [⟨ALL_ONES, 1, [97], 0, 0⟩, ⟨0, 0, [98], 7, 3⟩]

/-- The path `/` followed by 201 letters `a` and `/x`. -/
def long_intermediate_path : List Nat := 47 :: (List.replicate 201 97 ++ [47, 120])

/-! ## Scheduler state -/

/-- Modelled from the spec: `dynarray_add`'s choice of slot (the absent
`klibc/dynarray.h`): the number of the first slot that is not live, which is
the length of the list when every slot is live. -/
def dynarray_free_slot {α : Type} : dynarray_t α → Nat
  | [] => 0
  | none :: _ => 0
  | some _ :: rest => dynarray_free_slot rest + 1

/-- Modelled from the spec: `dynarray_add` (section 4.1), which stores a copy
of the value in a slot that is not live, growing the table by one slot when
there is none, and returns the id of that slot.  Reference counts are not
tracked: a removed slot counts as reclaimed. -/
def dynarray_add {α : Type} (arr : dynarray_t α) (v : α) : dynarray_t α × Int :=
  if dynarray_free_slot arr < arr.length then
    (arr.set (dynarray_free_slot arr) (some v), (dynarray_free_slot arr : Int))
  else (arr ++ [some v], (dynarray_free_slot arr : Int))

/-- Modelled from the spec: `dynarray_remove` (section 4.1): the slot stops
being live. -/
def dynarray_remove {α : Type} (arr : dynarray_t α) (i : Int) : dynarray_t α :=
  if i < 0 then arr else arr.set i.toNat none

/-- A store through a pointer obtained from `dynarray_getelem`: the element of
slot `i` becomes `v`. -/
def dynarray_write {α : Type} (arr : dynarray_t α) (i : Int) (v : α) : dynarray_t α :=
  if i < 0 then arr else arr.set i.toNat (some v)

/-- Modelled from the spec: the interrupt frame `int_reg_t` (declared in an
absent header), with the field order of section 9. -/
structure int_reg_t where
  r15 : Nat
  r14 : Nat
  r13 : Nat
  r12 : Nat
  r11 : Nat
  r10 : Nat
  r9 : Nat
  r8 : Nat
  rsi : Nat
  rdi : Nat
  rbp : Nat
  rdx : Nat
  rcx : Nat
  rbx : Nat
  rax : Nat
  int_no : Nat
  err : Nat
  rip : Nat
  cs : Nat
  rflags : Nat
  rsp : Nat
  ss : Nat
deriving DecidableEq, Repr

/-- Modelled from the spec: the thread-local block `thread_info_block_t`
(declared in the absent `scheduler.h`; section 3). -/
structure thread_info_block_t where
  meta_pointer : Nat
  tid : Int
  errno : Int
deriving DecidableEq, Repr

/-- Modelled from the spec: the process record `process_t` (declared in the
absent `scheduler.h`; section 3). -/
structure process_t where
  pid : Int
  name : List Nat
  cr3 : Nat
  uid : Nat
  gid : Nat
  threads : dynarray_t Int
deriving DecidableEq, Repr

/-- Modelled from the spec: the per-CPU block `cpu_locals_t` (declared in the
absent `sys/smp.h`; section 5).  `current_thread` is the number of the thread
table slot the pointer refers to, `none` for a null pointer.  The CPU's own
`cr3` (`vmm_get_pml4t` / `vmm_set_pml4t`) and FS base (MSR `0xC0000100`) are
kept in the same record as `pml4t` and `fs_base`. -/
structure cpu_locals_t where
  cpu_index : Nat
  current_thread : Option Int
  idle_tid : Int
  idle_start_tsc : Nat
  idle_end_tsc : Nat
  idle_tsc_count : Nat
  total_tsc : Nat
  thread_kernel_stack : Nat
  thread_user_stack : Nat
  pml4t : Nat
  fs_base : Nat
deriving DecidableEq, Repr

/-- The globals of `scheduler.c` together with the per-CPU blocks and the
thread-local blocks (addressed by their FS base).  `scheduler_lock` is 0 when
the spinlock is free.  `interrupt_locks` counts the calls of `interrupt_lock`
not yet matched by `interrupt_unlock` (both are absent from the sources and
modelled from the spec as a nesting counter). -/
structure kernel_t where
  tasks : dynarray_t task_t
  processes : dynarray_t process_t
  scheduler_lock : Nat
  interrupt_locks : Nat
  cpus : Nat → cpu_locals_t
  thread_info : Nat → thread_info_block_t

/-- Unsigned 64-bit subtraction. -/
def sub64 (a b : Nat) : Nat := (a % 2 ^ 64 + 2 ^ 64 - b % 2 ^ 64) % 2 ^ 64

/-- Modelled from the spec: `default_kernel_regs`.  The initializer of
`scheduler.c` is positional and the field order of `task_regs_t` is declared
in the absent `scheduler.h`; section 4.5 gives the fields the non-zero values
belong to (`ss = 0x10`, `cs = 0x8`, `rflags = 0x202`). -/
def default_kernel_regs : task_regs_t :=
  { rax := 0, rbx := 0, rcx := 0, rdx := 0, rbp := 0, rdi := 0, rsi := 0, r8 := 0, r9 := 0,
    r10 := 0, r11 := 0, r12 := 0, r13 := 0, r14 := 0, r15 := 0, rip := 0, rsp := 0,
    rflags := 0x202, cs := 0x8, ss := 0x10, fs := 0, cr3 := 0 }

/-- Modelled from the spec: `default_user_regs`, read like `default_kernel_regs`
(`ss = 0x23`, `cs = 0x1B`, `rflags = 0x202`). -/
def default_user_regs : task_regs_t :=
  { rax := 0, rbx := 0, rcx := 0, rdx := 0, rbp := 0, rdi := 0, rsi := 0, r8 := 0, r9 := 0,
    r10 := 0, r11 := 0, r12 := 0, r13 := 0, r14 := 0, r15 := 0, rip := 0, rsp := 0,
    rflags := 0x202, cs := 0x1B, ss := 0x23, fs := 0, cr3 := 0 }

/-- `create_thread`.  The two `kcalloc` results (the kernel stack block and the
thread-local block) and the global `base_kernel_cr3` are parameters.  The
result is the new task record together with the thread-local block stored at
address `regs.fs`; fields the code does not assign keep the zero of `kcalloc`
(the state field is assigned `READY`). -/
def create_thread (base_kernel_cr3 kernel_stack_block thread_info_addr : Nat)
    (name : List Nat) (main rsp ring : Nat) : task_t × thread_info_block_t :=
  let regs := if ring = 3 then default_user_regs else default_kernel_regs
  let regs := { regs with rip := main, rsp := rsp, cr3 := base_kernel_cr3, fs := thread_info_addr }
  ({ regs := regs
     tid := 0
     parent_pid := 0
     state := task_state_t.READY
     ring := ring
     kernel_stack := u64 (kernel_stack_block + 0x1000)
     user_stack := 0
     tsc_started := 0
     tsc_stopped := 0
     tsc_total := 0
     name := cstr name },
   { meta_pointer := thread_info_addr, tid := 0, errno := 0 })

/-- `add_new_child_thread`.  The call spins for ever when the scheduler lock is
held (`Run.out_of_fuel`).  The result is the state after the call, the
returned id and the caller's task record, which the call also updates. -/
def add_new_child_thread (s : kernel_t) (task : task_t) (pid : Int) :
    Run (kernel_t × Int × task_t) :=
  if s.scheduler_lock ≠ 0 then Run.out_of_fuel
  else
    let s := { s with interrupt_locks := s.interrupt_locks + 1, scheduler_lock := 1 }
    match dynarray_getelem s.processes pid with
    | none => Run.ret (s, -1, task)
    | some new_parent =>
      let new_tid := (dynarray_add s.tasks task).2
      let task_item := { task with
        tid := new_tid
        regs := { task.regs with cr3 := new_parent.cr3 }
        parent_pid := pid }
      let tasks := dynarray_write (dynarray_add s.tasks task).1 new_tid task_item
      let task := { task with tid := new_tid, parent_pid := pid }
      let threads := (dynarray_add new_parent.threads new_tid).1
      let processes := dynarray_write s.processes pid { new_parent with threads := threads }
      Run.ret ({ s with
        tasks := tasks
        processes := processes
        scheduler_lock := 0
        interrupt_locks := s.interrupt_locks - 1 }, new_tid, task)

/-- `new_thread`: `create_thread` followed by `add_new_child_thread`; the
result is the state after the call and the returned id. -/
def new_thread (s : kernel_t) (base_kernel_cr3 kernel_stack_block thread_info_addr : Nat)
    (name : List Nat) (main rsp : Nat) (pid : Int) (ring : Nat) : Run (kernel_t × Int) :=
  let created := create_thread base_kernel_cr3 kernel_stack_block thread_info_addr name main
    rsp ring
  let s := { s with
    thread_info := Function.update s.thread_info thread_info_addr created.2 }
  match add_new_child_thread s created.1 pid with
  | Run.ret (s, new_tid, _) => Run.ret (s, new_tid)
  | Run.trap => Run.trap
  | Run.out_of_fuel => Run.out_of_fuel

/-- `new_process`: insert a process record with an empty thread-id list and
store the id of its slot in it. -/
def new_process (s : kernel_t) (name : List Nat) (new_cr3 : Nat) : Run (kernel_t × Int) :=
  if s.scheduler_lock ≠ 0 then Run.out_of_fuel
  else
    let new_process : process_t :=
      { pid := 0, name := cstr name, cr3 := new_cr3, uid := 0, gid := 0, threads := [] }
    let pid := (dynarray_add s.processes new_process).2
    let processes := dynarray_write (dynarray_add s.processes new_process).1 pid
      { new_process with pid := pid }
    Run.ret ({ s with processes := processes }, pid)

/-- `kill_task`, called on CPU `cpu`.  The comparison with
`current_thread->tid` reads through the CPU's `current_thread` pointer
(`Run.trap` for a null pointer); its outcome only decides whether one more
reference is released, which has no effect here since reference counts are
not tracked. -/
def kill_task (s : kernel_t) (cpu : Nat) (tid : Int) : Run (kernel_t × Int) :=
  if s.scheduler_lock ≠ 0 then Run.out_of_fuel
  else
    match dynarray_getelem s.tasks tid with
    | some _ =>
      match (s.cpus cpu).current_thread with
      | none => Run.trap
      | some _ => Run.ret ({ s with tasks := dynarray_remove s.tasks tid }, 0)
    | none => Run.ret (s, 1)

/-- The `for` loop of `kill_process` over the slots of the thread-id list. -/
def kill_process_loop (cpu : Nat) : List (Option Int) → kernel_t → Run kernel_t
  | [], s => Run.ret s
  | none :: rest, s => kill_process_loop cpu rest s
  | some tid :: rest, s =>
    match kill_task s cpu tid with
    | Run.ret (s, _) => kill_process_loop cpu rest s
    | Run.trap => Run.trap
    | Run.out_of_fuel => Run.out_of_fuel

/-- `kill_process`, called on CPU `cpu`. -/
def kill_process (s : kernel_t) (cpu : Nat) (pid : Int) : Run (kernel_t × Int) :=
  let killed :=
    match dynarray_getelem s.processes pid with
    | some proc => kill_process_loop cpu proc.threads s
    | none => Run.ret s
  match killed with
  | Run.ret s => Run.ret ({ s with processes := dynarray_remove s.processes pid }, 0)
  | Run.trap => Run.trap
  | Run.out_of_fuel => Run.out_of_fuel

/-- `start_idle`; the argument is the value `read_tsc` returns. -/
def start_idle (locals : cpu_locals_t) (tsc : Nat) : cpu_locals_t :=
  { locals with idle_start_tsc := tsc }

/-- `end_idle`; the argument is the value `read_tsc` returns. -/
def end_idle (locals : cpu_locals_t) (tsc : Nat) : cpu_locals_t :=
  { locals with
    idle_end_tsc := tsc
    idle_tsc_count := u64 (locals.idle_tsc_count + sub64 tsc locals.idle_start_tsc) }

/-- The first block of assignments of `schedule`: the interrupt frame is copied
into the register save area of the outgoing thread. -/
def save_frame (regs : task_regs_t) (r : int_reg_t) : task_regs_t :=
  { regs with
    rax := r.rax, rbx := r.rbx, rcx := r.rcx, rdx := r.rdx, rbp := r.rbp, rdi := r.rdi,
    rsi := r.rsi, r8 := r.r8, r9 := r.r9, r10 := r.r10, r11 := r.r11, r12 := r.r12,
    r13 := r.r13, r14 := r.r14, r15 := r.r15,
    rflags := r.rflags, rip := r.rip, rsp := r.rsp, cs := r.cs, ss := r.ss }

/-- The second block of assignments of `schedule`: the register save area of
the incoming thread is copied into the interrupt frame. -/
def load_frame (r : int_reg_t) (regs : task_regs_t) : int_reg_t :=
  { r with
    rax := regs.rax, rbx := regs.rbx, rcx := regs.rcx, rdx := regs.rdx, rbp := regs.rbp,
    rdi := regs.rdi, rsi := regs.rsi, r8 := regs.r8, r9 := regs.r9, r10 := regs.r10,
    r11 := regs.r11, r12 := regs.r12, r13 := regs.r13, r14 := regs.r14, r15 := regs.r15,
    rflags := regs.rflags, rip := regs.rip, rsp := regs.rsp, cs := regs.cs, ss := regs.ss }

/-- The record `get_cpu_locals()->current_thread` points at, if any. -/
def current_task (s : kernel_t) (cpu : Nat) : Option task_t :=
  match (s.cpus cpu).current_thread with
  | none => none
  | some slot => dynarray_getelem s.tasks slot

/-- `schedule` up to the call of `pick_task`: take the scheduler lock
(`Run.out_of_fuel` when it is held: the call spins) and, when the CPU has a
current thread, save the frame, the stacks and `cr3` into its record, account
its time and turn `RUNNING` into `READY` unless it is the idle task.  A
`current_thread` that points at a slot that is not live cannot be followed
(`Run.trap`).  `tsc k` is the value of the `k`-th `read_tsc` site of
`schedule`. -/
def schedule_save (s : kernel_t) (cpu : Nat) (r : int_reg_t) (tsc : Nat → Nat) : Run kernel_t :=
  if s.scheduler_lock ≠ 0 then Run.out_of_fuel
  else
    let s := { s with scheduler_lock := 1 }
    match (s.cpus cpu).current_thread with
    | none => Run.ret s
    | some slot =>
      match dynarray_getelem s.tasks slot with
      | none => Run.trap
      | some running_task =>
        let locals := s.cpus cpu
        let locals :=
          if running_task.tid = locals.idle_tid then end_idle locals (tsc 0) else locals
        let running_task := { running_task with
          regs := { save_frame running_task.regs r with cr3 := locals.pml4t }
          kernel_stack := locals.thread_kernel_stack
          user_stack := locals.thread_user_stack
          tsc_stopped := tsc 1
          tsc_total := u64 (running_task.tsc_total + sub64 (tsc 1) running_task.tsc_started)
          state :=
            if running_task.state = task_state_t.RUNNING ∧ running_task.tid ≠ locals.idle_tid
            then task_state_t.READY else running_task.state }
        Run.ret { s with
          tasks := dynarray_write s.tasks slot running_task
          cpus := Function.update s.cpus cpu locals }

/-- The value `tid_run` that `pick_task` returns inside `schedule`. -/
def schedule_pick (s : kernel_t) (cpu : Nat) : Int :=
  pick_task s.tasks (current_task s cpu)

/-- `schedule` from the test of `tid_run` on: make the picked thread, or the
CPU's idle task when `tid_run` is -1, the current thread, mark a picked thread
`RUNNING`, load its registers into the frame, install its FS base, its stacks
and its `cr3`, start its time account and release the scheduler lock.  A null
result of `dynarray_getelem` cannot be followed (`Run.trap`). -/
def schedule_switch (s : kernel_t) (cpu : Nat) (r : int_reg_t) (tsc : Nat → Nat)
    (tid_run : Int) : Run (kernel_t × int_reg_t) :=
  let locals := s.cpus cpu
  let target := if tid_run = -1 then locals.idle_tid else tid_run
  match dynarray_getelem s.tasks target with
  | none => Run.trap
  | some running_task =>
    let running_task :=
      if tid_run ≠ -1 then { running_task with state := task_state_t.RUNNING }
      else running_task
    let r := load_frame r running_task.regs
    let thread_info := Function.update s.thread_info running_task.regs.fs
      { s.thread_info running_task.regs.fs with tid := running_task.tid }
    let locals := { locals with
      current_thread := some target
      fs_base := running_task.regs.fs
      thread_kernel_stack := running_task.kernel_stack
      thread_user_stack := running_task.user_stack
      pml4t := if locals.pml4t ≠ running_task.regs.cr3 then running_task.regs.cr3
        else locals.pml4t }
    let running_task := { running_task with tsc_started := tsc 2 }
    let locals := if tid_run = -1 then start_idle locals (tsc 3) else locals
    let locals := { locals with total_tsc := tsc 4 }
    Run.ret ({ s with
      tasks := dynarray_write s.tasks target running_task
      cpus := Function.update s.cpus cpu locals
      thread_info := thread_info
      scheduler_lock := 0 }, r)

/-- `schedule`, called on CPU `cpu` with the interrupt frame `r`: the result is
the state and the frame after the call. -/
def schedule (s : kernel_t) (cpu : Nat) (r : int_reg_t) (tsc : Nat → Nat) :
    Run (kernel_t × int_reg_t) :=
  match schedule_save s cpu r tsc with
  | Run.ret s1 => schedule_switch s1 cpu r tsc (schedule_pick s1 cpu)
  | Run.trap => Run.trap
  | Run.out_of_fuel => Run.out_of_fuel

/-- The registers of a task record that `schedule` saves and restores, in the
order rax, rbx, rcx, rdx, rbp, rdi, rsi, r8 to r15, rip, rsp, rflags, cs, ss. -/
def saved_regs (regs : task_regs_t) : List Nat :=
  [regs.rax, regs.rbx, regs.rcx, regs.rdx, regs.rbp, regs.rdi, regs.rsi, regs.r8, regs.r9,
    regs.r10, regs.r11, regs.r12, regs.r13, regs.r14, regs.r15, regs.rip, regs.rsp,
    regs.rflags, regs.cs, regs.ss]

/-- The same registers of an interrupt frame, in the same order. -/
def frame_regs (r : int_reg_t) : List Nat :=
  [r.rax, r.rbx, r.rcx, r.rdx, r.rbp, r.rdi, r.rsi, r.r8, r.r9,
    r.r10, r.r11, r.r12, r.r13, r.r14, r.r15, r.rip, r.rsp,
    r.rflags, r.cs, r.ss]

/-! ## Timer, file read and the component buffer -/

/-- The globals `timer_handler` works on: `global_ticks` of `pit.c`,
`scheduler_enabled` of `scheduler.c`, and the state `schedule_bsp` acts on. -/
structure timer_t (σ : Type) where
  global_ticks : Nat
  scheduler_enabled : Nat
  sched : σ

/-- `timer_handler`; the callee `schedule_bsp` (with the frame it is passed) is
the parameter of the same name. -/
def timer_handler {σ : Type} (schedule_bsp : σ → σ) (k : timer_t σ) : timer_t σ :=
  let global_ticks := u64 (k.global_ticks + 1)
  if global_ticks % 2 = 0 ∧ k.scheduler_enabled ≠ 0 then
    { k with global_ticks := global_ticks, sched := schedule_bsp k.sched }
  else
    { k with global_ticks := global_ticks }

/-- The call of `timer_handler` made in state `k` reaches `schedule_bsp`. -/
def timer_invokes {σ : Type} (k : timer_t σ) : Prop :=
  u64 (k.global_ticks + 1) % 2 = 0 ∧ k.scheduler_enabled ≠ 0

/-- A VFS node (`vfs_node_t` of `vfs.h`) as far as `echfs_read` looks at it:
`mountpoint` is the `unid` of the node the `mountpoint` pointer refers to,
`none` for a null pointer. -/
structure vfs_node_t where
  name : List Nat
  unid : Nat
  mountpoint : Option Nat
deriving DecidableEq, Repr

/-- The descriptor entry `fd_entry_t` of `vfs.h`. -/
structure fd_entry_t where
  node : vfs_node_t
  seek : Nat
  mode : Int
deriving DecidableEq, Repr

/-- `echfs_read`.  `echfs_mountpoints` is the content of the hashmap of the same
name (`hashmap_get_elem` yields the descriptor stored under a key, null when
there is none; `klibc/hashmap.h` is absent), `ENOENT` the constant of the
absent `klibc/errno.h`.  The result is the returned `int`, the buffer and the
thread-local `errno` after the call. -/
def echfs_read (echfs_mountpoints : Nat → Option echfs_filesystem_t) (ENOENT : Int)
    (fd : fd_entry_t) (buf : List Nat) (count : Nat) (errno : Int) :
    Run (Int × List Nat × Int) :=
  match fd.node.mountpoint with
  | none => Run.trap
  | some unid =>
    match echfs_mountpoints unid with
    | some _ => Run.ret (0, buf, errno)
    | none => Run.ret (-1, buf, -ENOENT)

/-- The walk of `echfs_path_resolve_loop`, with the list of the indices of
`current_name` it stores to: `stores` holds the indices stored to so far, a
pass of the `for` loop stores the byte at index `i` and the NUL at index
`i + 1`, and `goto next_elem` stores a NUL at index 0. -/
def echfs_path_resolve_stores_loop (SEARCH_FAIL : Nat) (dir : Directory) (fuel : Nat) :
    List Nat → List Nat → Nat → List Nat → Option (Option echfs_dir_entry_t × Nat) × List Nat
  | [], current_name, current_parent, stores =>
    (resolve_last SEARCH_FAIL dir fuel current_name current_parent, stores)
  | c :: filename, current_name, current_parent, stores =>
    if c = 47 then
      match echfs_find_entry_name_parent SEARCH_FAIL dir fuel current_name current_parent with
      | none => (none, stores)
      | some found_elem_index =>
        if found_elem_index ≠ SEARCH_FAIL then
          let cur_entry := dir found_elem_index
          if cur_entry.entry_type ≠ 1 then (some (none, 0 ||| ERR_SEARCH_FAIL), stores)
          else echfs_path_resolve_stores_loop SEARCH_FAIL dir fuel filename []
            cur_entry.starting_block (stores ++ [0])
        else (some (none, 0 ||| ERR_SEARCH_FAIL), stores)
    else if c = 0 then
      (resolve_last SEARCH_FAIL dir fuel current_name current_parent, stores)
    else
      let stores := stores ++ [current_name.length, current_name.length + 1]
      let current_name := current_name ++ [c]
      if current_name.length = 201 ∧ deref filename ≠ 0 then
        (some (none, 0 ||| ERR_NAME_TOO_LONG), stores)
      else echfs_path_resolve_stores_loop SEARCH_FAIL dir fuel filename current_name
        current_parent stores

/-- `echfs_path_resolve` with the list of the indices of `current_name` it
stores to; the walk starts with the store of a NUL at index 0. -/
def echfs_path_resolve_stores (ROOT_DIR_ID SEARCH_FAIL : Nat) (dir : Directory) (fuel : Nat)
    (filename : List Nat) : Option (Option echfs_dir_entry_t × Nat) × List Nat :=
  let filename := if deref filename = 47 then filename.tail else filename
  if strcmp filename [47] = 0 then (some (none, 0 ||| ERR_ROOT_ENTRY), [])
  else echfs_path_resolve_stores_loop SEARCH_FAIL dir fuel filename [] ROOT_DIR_ID [0]

/-- The path `/` followed by 201 letters `a`. -/
def long_last_path : List Nat := 47 :: List.replicate 201 97

/-- A process record with the given id, address space and thread-id list. -/
def process_with (pid : Int) (cr3 : Nat) (threads : dynarray_t Int) : process_t :=
  { pid := pid, name := [], cr3 := cr3, uid := 0, gid := 0, threads := threads }

/-- A per-CPU block with the given current thread and idle task and every other
field zero. -/
def cpu_with (current_thread : Option Int) (idle_tid : Int) : cpu_locals_t :=
  { cpu_index := 0, current_thread := current_thread, idle_tid := idle_tid,
    idle_start_tsc := 0, idle_end_tsc := 0, idle_tsc_count := 0, total_tsc := 0,
    thread_kernel_stack := 0, thread_user_stack := 0, pml4t := 0, fs_base := 0 }

/-- A system state with the given tables, the scheduler lock free, and the same
per-CPU block on every CPU. -/
def kernel_with (tasks : dynarray_t task_t) (processes : dynarray_t process_t)
    (locals : cpu_locals_t) : kernel_t :=
  { tasks := tasks, processes := processes, scheduler_lock := 0, interrupt_locks := 0,
    cpus := fun _ => locals, thread_info := fun _ => ⟨0, 0, 0⟩ }

/-- A state with an idle task in slot 0, current on every CPU, and the process
in slot 1 with the three ready threads of slots 1, 2 and 3. -/
def three_thread_state : kernel_t :=
  kernel_with
    [some (task_with 0 task_state_t.BLOCKED), some (task_with 1 task_state_t.READY),
      some (task_with 2 task_state_t.READY), some (task_with 3 task_state_t.READY)]
    [some (process_with 0 4096 [some 0]), some (process_with 1 8192 [some 1, some 2, some 3])]
    (cpu_with (some 0) 0)

/-- An interrupt frame whose registers hold `n`, `n + 1`, ... in field order. -/
def frame_with (n : Nat) : int_reg_t :=
  { r15 := n, r14 := n + 1, r13 := n + 2, r12 := n + 3, r11 := n + 4, r10 := n + 5,
    r9 := n + 6, r8 := n + 7, rsi := n + 8, rdi := n + 9, rbp := n + 10, rdx := n + 11,
    rcx := n + 12, rbx := n + 13, rax := n + 14, int_no := 32, err := 0, rip := n + 15,
    cs := 8, rflags := 514, rsp := n + 16, ss := 16 }

/-- The state a returning call leaves, and a default otherwise. -/
def ret_state (x : Run (kernel_t × int_reg_t)) (d : kernel_t) : kernel_t :=
  match x with
  | Run.ret p => p.1
  | _ => d

/-- The frame a returning call leaves, and a default otherwise. -/
def ret_frame (x : Run (kernel_t × int_reg_t)) (d : int_reg_t) : int_reg_t :=
  match x with
  | Run.ret p => p.2
  | _ => d

/-- One CPU whose current thread is the `RUNNING` task of slot 1, with its idle
task in slot 0 and a `READY` task in slot 2. -/
def two_thread_state : kernel_t :=
  kernel_with
    [some (task_with 0 task_state_t.BLOCKED), some (task_with 1 task_state_t.RUNNING),
      some (task_with 2 task_state_t.READY)]
    [some (process_with 0 4096 [some 0, some 1, some 2])]
    (cpu_with (some 1) 0)

/-! ## Invariants of the scheduler state -/

/-- The invariant of section 3 on the thread table: the task of a live slot
carries the slot's id. -/
def tid_invariant (tasks : dynarray_t task_t) : Prop :=
  ∀ (t : Int) (task : task_t), dynarray_getelem tasks t = some task → task.tid = t

/-- The idle task of each of the `ncpu` CPUs is live and `BLOCKED`. -/
def idle_blocked (ncpu : Nat) (s : kernel_t) : Prop :=
  ∀ c, c < ncpu → ∃ task, dynarray_getelem s.tasks (s.cpus c).idle_tid = some task ∧
    task.state = task_state_t.BLOCKED

/-- The idle tasks of the `ncpu` CPUs are pairwise distinct. -/
def idle_distinct (ncpu : Nat) (s : kernel_t) : Prop :=
  ∀ c c2, c < ncpu → c2 < ncpu → (s.cpus c).idle_tid = (s.cpus c2).idle_tid → c = c2

/-- The thread a CPU points at is live, and is `RUNNING` unless it is that
CPU's idle task. -/
def current_valid (ncpu : Nat) (s : kernel_t) : Prop :=
  ∀ c t, c < ncpu → (s.cpus c).current_thread = some t →
    ∃ task, dynarray_getelem s.tasks t = some task ∧
      (task.state = task_state_t.RUNNING ∨ t = (s.cpus c).idle_tid)

/-- Every `RUNNING` task is the current thread of some CPU. -/
def running_is_current (ncpu : Nat) (s : kernel_t) : Prop :=
  ∀ (t : Int) (task : task_t), dynarray_getelem s.tasks t = some task →
    task.state = task_state_t.RUNNING → ∃ c, c < ncpu ∧ (s.cpus c).current_thread = some t

/-- No task is the current thread of two CPUs. -/
def current_unique (ncpu : Nat) (s : kernel_t) : Prop :=
  ∀ c c2 t, c < ncpu → c2 < ncpu → (s.cpus c).current_thread = some t →
    (s.cpus c2).current_thread = some t → c = c2

/-- The state before any CPU has scheduled: a thread table that satisfies the
id invariant, no current thread on any CPU, no `RUNNING` task, and for each CPU
its own `BLOCKED` idle task. -/
def initial_state (ncpu : Nat) (s : kernel_t) : Prop :=
  tid_invariant s.tasks ∧ idle_blocked ncpu s ∧ idle_distinct ncpu s ∧
  (∀ c, c < ncpu → (s.cpus c).current_thread = none) ∧
  (∀ (t : Int) (task : task_t), dynarray_getelem s.tasks t = some task →
    task.state ≠ task_state_t.RUNNING)

/-- The states reached from a given one by calls of `schedule` on any of the
`ncpu` CPUs, each call running to its return. -/
inductive schedule_calls (ncpu : Nat) : kernel_t → kernel_t → Prop where
  | start (s : kernel_t) : schedule_calls ncpu s s
  | call (s s1 s2 : kernel_t) (cpu : Nat) (r r2 : int_reg_t) (tsc : Nat → Nat) :
      schedule_calls ncpu s s1 → cpu < ncpu →
      schedule s1 cpu r tsc = Run.ret (s2, r2) → schedule_calls ncpu s s2

/-- The states reached from a given one by calls of `schedule` on any of the
`ncpu` CPUs and by thread creations with `new_thread`, each call running to
its return. -/
inductive kernel_calls (ncpu : Nat) : kernel_t → kernel_t → Prop where
  | start (s : kernel_t) : kernel_calls ncpu s s
  | schedule (s s1 s2 : kernel_t) (cpu : Nat) (r r2 : int_reg_t) (tsc : Nat → Nat) :
      kernel_calls ncpu s s1 → cpu < ncpu →
      schedule s1 cpu r tsc = Run.ret (s2, r2) → kernel_calls ncpu s s2
  | new_thread (s s1 s2 : kernel_t) (base_kernel_cr3 kernel_stack_block thread_info_addr : Nat)
      (name : List Nat) (main rsp : Nat) (pid : Int) (ring : Nat) (tid : Int) :
      kernel_calls ncpu s s1 →
      new_thread s1 base_kernel_cr3 kernel_stack_block thread_info_addr name main rsp pid ring
        = Run.ret (s2, tid) → kernel_calls ncpu s s2

/-- The invariant the scheduler keeps: the thread-id invariant, live `BLOCKED`
and pairwise distinct idle tasks, current threads that are live and `RUNNING`
or the CPU's idle task, every `RUNNING` task current on some CPU, and no task
current on two CPUs. -/
def sched_invariant (ncpu : Nat) (s : kernel_t) : Prop :=
  tid_invariant s.tasks ∧ idle_blocked ncpu s ∧ idle_distinct ncpu s ∧
  current_valid ncpu s ∧ running_is_current ncpu s ∧ current_unique ncpu s

/-- A state of two CPUs before either has scheduled: the idle tasks of slots 0
and 1 and a `READY` task in slot 2. -/
def two_cpu_state : kernel_t :=
  { tasks := [some (task_with 0 task_state_t.BLOCKED), some (task_with 1 task_state_t.BLOCKED),
      some (task_with 2 task_state_t.READY)]
    processes := [some (process_with 0 4096 [some 0, some 1, some 2])]
    scheduler_lock := 0
    interrupt_locks := 0
    cpus := fun c => cpu_with none (c : Int)
    thread_info := fun _ => ⟨0, 0, 0⟩ }

/-- The state `two_cpu_state` after CPU 0 has called `schedule` once (its idle
task becomes current). -/
def two_cpu_first : kernel_t :=
  ret_state (schedule two_cpu_state 0 (frame_with 100) (fun _ => 0)) two_cpu_state

/-- The state `two_cpu_first` after CPU 0 has called `schedule` again (the task
of slot 2 becomes current and `RUNNING`). -/
def two_cpu_second : kernel_t :=
  ret_state (schedule two_cpu_first 0 (frame_with 200) (fun _ => 0)) two_cpu_first

/-! ## The scheduler lock across calls, and thread ids that are used again -/

/-- `add_new_thread`: insert the task and store the id of its slot in it.  The
call spins for ever when the scheduler lock is held (`Run.out_of_fuel`).  The
result is the state after the call, the returned id and the caller's task
record. -/
def add_new_thread (s : kernel_t) (task : task_t) : Run (kernel_t × Int × task_t) :=
  if s.scheduler_lock ≠ 0 then Run.out_of_fuel
  else
    let s := { s with interrupt_locks := s.interrupt_locks + 1, scheduler_lock := 1 }
    let new_tid := (dynarray_add s.tasks task).2
    let task_item := { task with tid := new_tid }
    let tasks := dynarray_write (dynarray_add s.tasks task).1 new_tid task_item
    let task := { task with tid := new_tid }
    Run.ret ({ s with
      tasks := tasks
      scheduler_lock := 0
      interrupt_locks := s.interrupt_locks - 1 }, new_tid, task)

/-- The state after the scheduler has been set up on one CPU: the idle task in
slot 0, current on the CPU, and no process. -/
def boot_state : kernel_t :=
  kernel_with [some (task_with 0 task_state_t.BLOCKED)] [] (cpu_with (some 0) 0)

/-- The state `boot_state` after `new_process("A", 4096)` and
`new_process("B", 8192)`, which return the process ids 0 and 1. -/
def two_processes : kernel_t :=
  (ret_or (new_process (ret_or (new_process boot_state [65] 4096) (boot_state, -1)).1
    [66] 8192) (boot_state, -1)).1

/-- The state `two_processes` after a thread has been attached to process 0; it
receives the thread id 1. -/
def thread_of_first : kernel_t :=
  (ret_or (add_new_child_thread two_processes (task_with 0 task_state_t.READY) 0)
    (two_processes, -1, task_with 0 task_state_t.READY)).1

/-- The state `thread_of_first` after `kill_task(1)` on CPU 0. -/
def thread_killed : kernel_t :=
  (ret_or (kill_task thread_of_first 0 1) (thread_of_first, -1)).1

/-- The state `thread_killed` after a thread has been attached to process 1; it
receives the thread id 1 again. -/
def thread_of_second : kernel_t :=
  (ret_or (add_new_child_thread thread_killed (task_with 0 task_state_t.READY) 1)
    (thread_killed, -1, task_with 0 task_state_t.READY)).1

/-- The state `thread_of_second` after `kill_process(0)` on CPU 0. -/
def first_process_killed : kernel_t :=
  (ret_or (kill_process thread_of_second 0 0) (thread_of_second, -1)).1

/-! ## Building the VFS tree of a mounted file system -/

/-- The `while (1)` loop of `echfs_get_entry_from_id`, started at entry number
`entry_n` with a budget of `fuel` entries to read: the first entry of type 1
whose `starting_block` is `id`, or the null pointer (`none`) when the end
marker comes first. -/
def echfs_get_entry_from_id_loop (dir : Directory) (id : Nat) :
    Nat → Nat → Run (Option echfs_dir_entry_t)
  | 0, _ => Run.out_of_fuel
  | fuel + 1, entry_n =>
    let entry := dir entry_n
    if entry.entry_type = 1 ∧ entry.starting_block = id then Run.ret (some entry)
    else if entry.parent_id = 0 then Run.ret none
    else echfs_get_entry_from_id_loop dir id fuel (entry_n + 1)

/-- `echfs_get_entry_from_id`: the scan starts at entry 0. -/
def echfs_get_entry_from_id (dir : Directory) (fuel : Nat) (id : Nat) :
    Run (Option echfs_dir_entry_t) :=
  echfs_get_entry_from_id_loop dir id fuel 0

/-- The first `while (1)` loop of `echfs_get_full_path`, with a budget of `fuel`
iterations: the name of the current entry is put in front of the names
gathered so far, and the walk goes on at the entry whose id is the current
entry's `parent_id` until that is `ECHFS_ROOT_DIR_ID` (the parameter
`ROOT_DIR_ID`).  When `echfs_get_entry_from_id` returns the null pointer the
next iteration reads through it (`Run.trap`). -/
def echfs_get_full_path_loop (ROOT_DIR_ID : Nat) (dir : Directory) :
    Nat → echfs_dir_entry_t → List (List Nat) → Run (List (List Nat))
  | 0, _, _ => Run.out_of_fuel
  | fuel + 1, cur_entry, path =>
    let path := cstr cur_entry.name :: path
    let id := cur_entry.parent_id
    if id = ROOT_DIR_ID then Run.ret path
    else
      match echfs_get_entry_from_id dir fuel id with
      | Run.ret (some entry) => echfs_get_full_path_loop ROOT_DIR_ID dir fuel entry path
      | Run.ret none => Run.trap
      | Run.trap => Run.trap
      | Run.out_of_fuel => Run.out_of_fuel

/-- `echfs_get_full_path`: the full path as the list of its parts, the
mountpoint first, then the names from the top-level entry down to `entry`
(the second loop joins them with `path_join` of the absent klibc). -/
def echfs_get_full_path (ROOT_DIR_ID : Nat) (dir : Directory) (fuel : Nat)
    (mountpoint : List Nat) (entry : echfs_dir_entry_t) : Run (List (List Nat)) :=
  match echfs_get_full_path_loop ROOT_DIR_ID dir fuel entry [] with
  | Run.ret path => Run.ret (cstr mountpoint :: path)
  | Run.trap => Run.trap
  | Run.out_of_fuel => Run.out_of_fuel

/-- The `while (1)` loop of `echfs_create_vfs_tree`, started at entry number
`entry_n` with a budget of `fuel` iterations.  `ECHFS_DELETED_ENTRY` (defined
in the absent `echfs.h`) is the parameter `DELETED_ENTRY`.  The result is the
list of the calls of `add_node_at_path` made, each with the number of the
entry it was made for and the full path; `vfs_new_node`, `get_path_elem` and
`add_node_at_path` are absent from the sources and taken to return.  The
`continue` of the deleted-entry branch goes back to the head of the loop with
`entry_n` as it is: the only `entry_n++` stands further down in the body, behind
the call of `add_node_at_path`. -/
def echfs_create_vfs_tree_loop (DELETED_ENTRY ROOT_DIR_ID : Nat) (dir : Directory)
    (mountpoint_path : List Nat) :
    Nat → Nat → List (Nat × List (List Nat)) → Run (List (Nat × List (List Nat)))
  | 0, _, _ => Run.out_of_fuel
  | fuel + 1, entry_n, nodes =>
    let entry := dir entry_n
    if entry.parent_id = 0 then Run.ret nodes
    else if entry.parent_id = DELETED_ENTRY then
      echfs_create_vfs_tree_loop DELETED_ENTRY ROOT_DIR_ID dir mountpoint_path fuel entry_n nodes
    else
      match echfs_get_full_path ROOT_DIR_ID dir fuel mountpoint_path entry with
      | Run.ret full_path =>
        echfs_create_vfs_tree_loop DELETED_ENTRY ROOT_DIR_ID dir mountpoint_path fuel
          (entry_n + 1) (nodes ++ [(entry_n, full_path)])
      | Run.trap => Run.trap
      | Run.out_of_fuel => Run.out_of_fuel

/-- `echfs_create_vfs_tree`: the loop starts at entry 0 with no node added. -/
def echfs_create_vfs_tree (DELETED_ENTRY ROOT_DIR_ID : Nat) (dir : Directory) (fuel : Nat)
    (mountpoint_path : List Nat) : Run (List (Nat × List (List Nat))) :=
  echfs_create_vfs_tree_loop DELETED_ENTRY ROOT_DIR_ID dir mountpoint_path fuel 0 []

/-- Modelled from the spec: the value of `ECHFS_DELETED_ENTRY` (defined in the
absent `echfs.h`), `0xFFFFFFFFFFFFFFFF` by section 3. -/
def DELETED_VALUE : Nat := 0xFFFFFFFFFFFFFFFF

/-- The value `0xFFFFFFFFFFFFFFFE`, used for `ECHFS_ROOT_DIR_ID` in the runs of
`echfs_create_vfs_tree`. -/
def ROOT_VALUE : Nat := 0xFFFFFFFFFFFFFFFE

/-- The path `/m` of a mountpoint. -/
def mount_path : List Nat := [47, 109]

/-- A directory with the top-level file `a`, a deleted entry, the top-level file
`b`, and the end marker as entry 3. -/
def deleted_dir : Directory :=
  directory_of_list
    [⟨ROOT_VALUE, 0, [97], 9, 12⟩, ⟨DELETED_VALUE, 0, [120], 10, 3⟩, ⟨ROOT_VALUE, 0, [98], 11, 5⟩]

/-- The directory `deleted_dir` without its deleted entry: the top-level
directory `a` (id 9), the file `b` inside it, and the end marker as entry 2. -/
def live_dir : Directory :=
  directory_of_list [⟨ROOT_VALUE, 1, [97], 9, 0⟩, ⟨9, 0, [98], 11, 5⟩]

/-- The signature test of `echfs_read_block0`, on the device bytes. -/
theorem sig_test_iff (dev : Device) :
    ((block0_of_buffer (fd_read_at dev 0 64)).sig 0 = 95 ∧
      (block0_of_buffer (fd_read_at dev 0 64)).sig 1 = 69 ∧
      (block0_of_buffer (fd_read_at dev 0 64)).sig 2 = 67 ∧
      (block0_of_buffer (fd_read_at dev 0 64)).sig 3 = 72 ∧
      (block0_of_buffer (fd_read_at dev 0 64)).sig 4 = 95 ∧
      (block0_of_buffer (fd_read_at dev 0 64)).sig 5 = 70 ∧
      (block0_of_buffer (fd_read_at dev 0 64)).sig 6 = 83 ∧
      (block0_of_buffer (fd_read_at dev 0 64)).sig 7 = 95) ↔
    (List.range 8).map (fun k => dev (4 + k) % 256) = [95, 69, 67, 72, 95, 70, 83, 95] := by
  have hr : (List.range 8) = [0, 1, 2, 3, 4, 5, 6, 7] := by decide
  rw [hr]
  simp [block0_of_buffer, fd_read_at]

/-- The three outcomes of `echfs_read_block0`, by the signature bytes and the
`block_size` field of the header. -/
theorem echfs_read_block0_cases (dev : Device) (device : List Nat)
    (output : echfs_filesystem_t) :
    echfs_read_block0 dev device output =
      if (List.range 8).map (fun k => dev (4 + k) % 256) = [95, 69, 67, 72, 95, 70, 83, 95] then
        if (read_header dev).block_size = 0 then Run.trap
        else Run.ret (1,
          { output with
            device_name := device
            blocks := (read_header dev).block_count
            block_size := (read_header dev).block_size
            alloc_table_addr := u64 ((read_header dev).block_size * 16)
            alloc_table_size := u64 ((read_header dev).block_count * 8)
            alloc_table_block := 16
            alloc_table_blocks :=
              u64 (BYTES_TO_BLOCKS (u64 ((read_header dev).block_count * 8))
                (read_header dev).block_size)
            main_dir_block :=
              u64 (u64 (BYTES_TO_BLOCKS (u64 ((read_header dev).block_count * 8))
                (read_header dev).block_size) + 16)
            main_dir_blocks := (read_header dev).main_dir_blocks })
      else Run.ret (0, output) := by
  unfold echfs_read_block0 read_header
  by_cases h : ((block0_of_buffer (fd_read_at dev 0 64)).sig 0 = 95 ∧
      (block0_of_buffer (fd_read_at dev 0 64)).sig 1 = 69 ∧
      (block0_of_buffer (fd_read_at dev 0 64)).sig 2 = 67 ∧
      (block0_of_buffer (fd_read_at dev 0 64)).sig 3 = 72 ∧
      (block0_of_buffer (fd_read_at dev 0 64)).sig 4 = 95 ∧
      (block0_of_buffer (fd_read_at dev 0 64)).sig 5 = 70 ∧
      (block0_of_buffer (fd_read_at dev 0 64)).sig 6 = 83 ∧
      (block0_of_buffer (fd_read_at dev 0 64)).sig 7 = 95)
  · rw [if_pos h, if_pos ((sig_test_iff dev).1 h)]
  · rw [if_neg h, if_neg (fun hs => h ((sig_test_iff dev).2 hs))]

/-- C1 (as stated, refuted): the header of `zero_size_device` carries the
signature `_ECH_FS_` and `block_size = 0`; `echfs_read_block0` faults in the
division of `BYTES_TO_BLOCKS` and returns nothing, so it does not return 1 on
a device whose signature bytes are exactly the magic. -/
theorem echfs_read_block0_zero_block_size_traps :
    (List.range 8).map (fun k => zero_size_device (4 + k) % 256)
      = [95, 69, 67, 72, 95, 70, 83, 95] ∧
    (read_header zero_size_device).block_size = 0 ∧
    echfs_read_block0 zero_size_device [] (filesystem_with_block_size 0) = Run.trap ∧
    ¬ ∃ fs, echfs_read_block0 zero_size_device [] (filesystem_with_block_size 0)
      = Run.ret (1, fs) := by
  have htrap : echfs_read_block0 zero_size_device [] (filesystem_with_block_size 0)
      = Run.trap := by decide
  refine ⟨by decide, by decide, htrap, ?_⟩
  rintro ⟨fs, hfs⟩
  rw [htrap] at hfs
  cases hfs

/-- C1 (amended): for every device content, when the eight signature bytes of
block 0 (device bytes 4 to 11) do not spell `_ECH_FS_`, `echfs_read_block0`
returns 0 and leaves the output descriptor as it was; when they do and the
header's `block_size` is not 0, it returns 1; every call that returns returns
0 or 1, and 1 exactly when the signature bytes spell the magic.  With the
magic and `block_size = 0` the call does not return. -/
theorem echfs_read_block0_signature (dev : Device) (device : List Nat)
    (output : echfs_filesystem_t) :
    ((List.range 8).map (fun k => dev (4 + k) % 256) ≠ [95, 69, 67, 72, 95, 70, 83, 95] →
      echfs_read_block0 dev device output = Run.ret (0, output)) ∧
    ((List.range 8).map (fun k => dev (4 + k) % 256) = [95, 69, 67, 72, 95, 70, 83, 95] →
      (read_header dev).block_size ≠ 0 →
      ∃ fs, echfs_read_block0 dev device output = Run.ret (1, fs)) ∧
    (∀ n fs, echfs_read_block0 dev device output = Run.ret (n, fs) →
      (n = 0 ∨ n = 1) ∧
      (n = 1 ↔
        (List.range 8).map (fun k => dev (4 + k) % 256) = [95, 69, 67, 72, 95, 70, 83, 95]) ∧
      (n ≠ 1 → fs = output)) ∧
    ((List.range 8).map (fun k => dev (4 + k) % 256) = [95, 69, 67, 72, 95, 70, 83, 95] →
      (read_header dev).block_size = 0 →
      echfs_read_block0 dev device output = Run.trap) := by
  rw [echfs_read_block0_cases]
  by_cases hs : (List.range 8).map (fun k => dev (4 + k) % 256)
      = [95, 69, 67, 72, 95, 70, 83, 95]
  · rw [if_pos hs]
    by_cases hb : (read_header dev).block_size = 0
    · rw [if_pos hb]
      refine ⟨fun h => absurd hs h, fun _ h => absurd hb h, ?_, fun _ _ => rfl⟩
      intro n fs h
      cases h
    · rw [if_neg hb]
      refine ⟨fun h => absurd hs h, fun _ _ => ⟨_, rfl⟩, ?_, fun _ h => absurd h hb⟩
      intro n fs h
      simp only [Run.ret.injEq, Prod.mk.injEq] at h
      obtain ⟨hn, _⟩ := h
      subst hn
      exact ⟨Or.inr rfl, ⟨fun _ => hs, fun _ => rfl⟩, fun hne => absurd rfl hne⟩
  · rw [if_neg hs]
    refine ⟨fun _ => rfl, fun h => absurd h hs, ?_, fun h => absurd h hs⟩
    intro n fs h
    simp only [Run.ret.injEq, Prod.mk.injEq] at h
    obtain ⟨hn, hfs⟩ := h
    subst hn
    subst hfs
    exact ⟨Or.inl rfl, ⟨fun h0 => absurd h0 (by decide), fun h1 => absurd h1 hs⟩, fun _ => rfl⟩

/-- C1 (amended), at concrete devices: the header of `small_device` carries the
magic and `block_size = 512`, and the call returns 1; the bytes of
`blank_device` are all zero, and the call returns 0 with the descriptor
untouched. -/
theorem echfs_read_block0_signature_witness :
    (∃ fs, echfs_read_block0 small_device [] (filesystem_with_block_size 0)
      = Run.ret (1, fs)) ∧
    echfs_read_block0 blank_device [] (filesystem_with_block_size 7)
      = Run.ret (0, filesystem_with_block_size 7) :=
  ⟨(echfs_read_block0_signature small_device [] (filesystem_with_block_size 0)).2.1
      (by decide) (by decide),
    (echfs_read_block0_signature blank_device [] (filesystem_with_block_size 7)).1
      (by decide)⟩

/-! ## Theorems: allocation table -/

/-- A 64-bit load from a freshly read buffer is the 64-bit value stored on the
device behind the seek position, as long as the eight bytes lie inside the
bytes read. -/
theorem load_u64_fd_read_at (dev : Device) (pos n off : Nat) (h : off + 8 ≤ n) :
    load_u64 (fd_read_at dev pos n) off = device_u64 dev (pos + off) := by
  have h0 : off < n := by omega
  have h1 : off + 1 < n := by omega
  have h2 : off + 2 < n := by omega
  have h3 : off + 3 < n := by omega
  have h4 : off + 4 < n := by omega
  have h5 : off + 5 < n := by omega
  have h6 : off + 6 < n := by omega
  have h7 : off + 7 < n := by omega
  simp only [load_u64, device_u64, fd_read_at, if_pos h0, if_pos h1, if_pos h2, if_pos h3,
    if_pos h4, if_pos h5, if_pos h6, if_pos h7, Nat.add_assoc]

/-- The block and in-block offset used by the lookup address the `b`-th packed
entry behind block 16. -/
theorem alloc_entry_address (k b : Nat) :
    (16 + b * 8 / (8 * k)) * (8 * k) + (b % (8 * k / 8)) * 8 = 16 * (8 * k) + 8 * b := by
  have h1 : b * 8 / (8 * k) = b / k := by
    rw [Nat.mul_comm b 8]; exact Nat.mul_div_mul_left b k (by decide)
  have h2 : 8 * k / 8 = k := Nat.mul_div_cancel_left k (by decide)
  rw [h1, h2]
  have h3 := Nat.div_add_mod b k
  have h4 : b / k * (8 * k) = 8 * (k * (b / k)) := by ring
  have h5 : (16 + b / k) * (8 * k) = 16 * (8 * k) + b / k * (8 * k) := by ring
  rw [h5, h4]
  have h6 : 8 * (k * (b / k)) + b % k * 8 = 8 * (k * (b / k) + b % k) := by ring
  rw [Nat.add_assoc, h6, h3]

/-- C7 (as stated, refuted): with `block_size = 8` and block id `2 ^ 61 - 1`
(so `b * 8 < 2 ^ 64`) the lookup asks for block `2 ^ 61 + 15`, whose byte
address `2 ^ 64 + 120` wraps to 120 in the 64-bit seek position: the call
returns the value stored at device byte 120, in front of the allocation table,
and not the value at absolute byte `16 * block_size + 8 * b`. -/
theorem echfs_get_entry_for_block_wraps :
    (∃ k, 0 < k ∧ (filesystem_with_block_size 8).block_size = 8 * k) ∧
    (2 ^ 61 - 1) * 8 < 2 ^ 64 ∧
    echfs_get_entry_for_block (filesystem_with_block_size 8)
      (device_of_bytes (List.replicate 120 0 ++ [1])) (2 ^ 61 - 1) = some 1 ∧
    device_u64 (device_of_bytes (List.replicate 120 0 ++ [1]))
      (16 * (filesystem_with_block_size 8).block_size + 8 * (2 ^ 61 - 1)) = 0 := by
  refine ⟨⟨1, by decide, by decide⟩, by decide, ?_, ?_⟩
  · decide
  · decide

/-- C7 (amended): for a block size that is a positive multiple of 8 and a block
id `b` with `b * 8 < 2 ^ 64`, provided the allocation entry lies below
`2 ^ 64` (`16 * block_size + 8 * b < 2 ^ 64`), `echfs_get_entry_for_block`
returns the 64-bit value stored in device block `16 + b * 8 / block_size` at
byte offset `(b mod (block_size / 8)) * 8`, and that place is absolute device
byte `16 * block_size + 8 * b`. -/
theorem echfs_get_entry_for_block_location (filesystem : echfs_filesystem_t)
    (dev : Device) (b k : Nat) (hk : 0 < k) (hbs : filesystem.block_size = 8 * k)
    (hb : b * 8 < 2 ^ 64) (hfit : 16 * filesystem.block_size + 8 * b < 2 ^ 64) :
    echfs_get_entry_for_block filesystem dev b =
      some (device_u64 dev ((16 + b * 8 / filesystem.block_size) * filesystem.block_size
        + (b % (filesystem.block_size / 8)) * 8)) ∧
    (16 + b * 8 / filesystem.block_size) * filesystem.block_size
        + (b % (filesystem.block_size / 8)) * 8 = 16 * filesystem.block_size + 8 * b := by
  have haddr := alloc_entry_address k b
  rw [hbs] at hfit ⊢
  refine ⟨?_, haddr⟩
  have hk8 : 8 * k / 8 = k := Nat.mul_div_cancel_left k (by decide)
  have hne : 8 * k ≠ 0 := by omega
  have hne8 : 8 * k / 8 ≠ 0 := by omega
  have hdiv : b * 8 / (8 * k) = b / k := by
    rw [Nat.mul_comm b 8]; exact Nat.mul_div_mul_left b k (by decide)
  have hle : b / k ≤ b := Nat.div_le_self b k
  have hmod : b % k < k := Nat.mod_lt b hk
  have hblk : (b * 8 / (8 * k) + 16) * (8 * k) ≤ 16 * (8 * k) + 8 * b := by
    have := haddr
    have hc : (b * 8 / (8 * k) + 16) = (16 + b * 8 / (8 * k)) := Nat.add_comm _ _
    rw [hc]; omega
  unfold echfs_get_entry_for_block echfs_read_block
  simp only [hbs, if_neg hne, if_neg hne8]
  have hu1 : u64 (b * 8) = b * 8 := Nat.mod_eq_of_lt hb
  have hu2 : u64 (b * 8 / (8 * k) + 16) = b * 8 / (8 * k) + 16 := by
    apply Nat.mod_eq_of_lt; rw [hdiv]; omega
  have hu3 : u64 ((b * 8 / (8 * k) + 16) * (8 * k)) = (b * 8 / (8 * k) + 16) * (8 * k) := by
    apply Nat.mod_eq_of_lt; omega
  rw [hu1, hu2, hu3, load_u64_fd_read_at dev _ _ _ (by rw [hk8]; omega)]
  congr 2
  rw [Nat.add_comm (b * 8 / (8 * k)) 16, Nat.mul_comm 8 (b % (8 * k / 8))]

/-- C7 (amended), at a concrete table: block size 8, block id 1. -/
theorem echfs_get_entry_for_block_location_witness :
    echfs_get_entry_for_block (filesystem_with_block_size 8)
        (device_of_bytes (List.replicate 136 0 ++ [7])) 1 =
      some (device_u64 (device_of_bytes (List.replicate 136 0 ++ [7]))
        ((16 + 1 * 8 / (filesystem_with_block_size 8).block_size)
            * (filesystem_with_block_size 8).block_size
          + (1 % ((filesystem_with_block_size 8).block_size / 8)) * 8)) ∧
    (16 + 1 * 8 / (filesystem_with_block_size 8).block_size)
          * (filesystem_with_block_size 8).block_size
        + (1 % ((filesystem_with_block_size 8).block_size / 8)) * 8
      = 16 * (filesystem_with_block_size 8).block_size + 8 * 1 :=
  echfs_get_entry_for_block_location (filesystem_with_block_size 8)
    (device_of_bytes (List.replicate 136 0 ++ [7])) 1 1 (by decide) (by decide)
    (by decide) (by decide)

/-! ## Theorems: descriptor layout -/

/-- The ceiling division `BYTES_TO_BLOCKS` covers the bytes and overshoots by
less than one block. -/
theorem BYTES_TO_BLOCKS_bounds (bytes block_size : Nat) (h : 0 < block_size) :
    bytes ≤ BYTES_TO_BLOCKS bytes block_size * block_size ∧
    BYTES_TO_BLOCKS bytes block_size * block_size < bytes + block_size := by
  unfold BYTES_TO_BLOCKS
  have h1 := Nat.div_add_mod (bytes + block_size - 1) block_size
  have h2 := Nat.mod_lt (bytes + block_size - 1) h
  have h3 : block_size * ((bytes + block_size - 1) / block_size)
      = (bytes + block_size - 1) / block_size * block_size := Nat.mul_comm _ _
  constructor <;> omega

/-- A call that returns 1 has passed the signature test and filled the
descriptor as the accepting branch does. -/
theorem echfs_read_block0_accept (dev : Device) (device : List Nat)
    (output : echfs_filesystem_t)
    (hacc : (echfs_read_block0_result dev device output).1 = 1) :
    (echfs_read_block0_result dev device output).2 =
      { output with
        device_name := device
        blocks := (read_header dev).block_count
        block_size := (read_header dev).block_size
        alloc_table_addr := u64 ((read_header dev).block_size * 16)
        alloc_table_size := u64 ((read_header dev).block_count * 8)
        alloc_table_block := 16
        alloc_table_blocks :=
          u64 (BYTES_TO_BLOCKS (u64 ((read_header dev).block_count * 8))
            (read_header dev).block_size)
        main_dir_block :=
          u64 (u64 (BYTES_TO_BLOCKS (u64 ((read_header dev).block_count * 8))
            (read_header dev).block_size) + 16)
        main_dir_blocks := (read_header dev).main_dir_blocks } := by
  unfold echfs_read_block0_result at hacc ⊢
  rw [echfs_read_block0_cases] at hacc ⊢
  by_cases hs : (List.range 8).map (fun k => dev (4 + k) % 256)
      = [95, 69, 67, 72, 95, 70, 83, 95]
  · rw [if_pos hs] at hacc ⊢
    by_cases hb : (read_header dev).block_size = 0
    · rw [if_pos hb] at hacc
      exact absurd hacc (show ¬ ((0 : Int) = 1) by decide)
    · rw [if_neg hb]
      rfl
  · rw [if_neg hs] at hacc
    exact absurd hacc (show ¬ ((0 : Int) = 1) by decide)

/-- C8 (as stated, refuted): with a valid signature, `block_size = 1` and
`block_count = 2 ^ 61 - 1` (so `block_count * 8 < 2 ^ 64`) the allocation table
spans `2 ^ 64 - 8` blocks, the sum `alloc_table_blocks + 16` wraps, and the
descriptor gets `main_dir_block = 8`, which puts the main directory in front
of the end of the allocation table. -/
theorem echfs_read_block0_main_dir_wraps :
    (echfs_read_block0_result wrap_device [] (filesystem_with_block_size 0)).1 = 1 ∧
    0 < (read_header wrap_device).block_size ∧
    (read_header wrap_device).block_count * 8 < 2 ^ 64 ∧
    (echfs_read_block0_result wrap_device []
      (filesystem_with_block_size 0)).2.alloc_table_blocks = 2 ^ 64 - 8 ∧
    (echfs_read_block0_result wrap_device []
      (filesystem_with_block_size 0)).2.main_dir_block = 8 ∧
    (echfs_read_block0_result wrap_device []
      (filesystem_with_block_size 0)).2.main_dir_block ≠
      16 + (echfs_read_block0_result wrap_device []
        (filesystem_with_block_size 0)).2.alloc_table_blocks ∧
    (echfs_read_block0_result wrap_device []
      (filesystem_with_block_size 0)).2.main_dir_block *
      (echfs_read_block0_result wrap_device []
        (filesystem_with_block_size 0)).2.block_size <
      16 * (read_header wrap_device).block_size + (read_header wrap_device).block_count * 8 ∧
    main_dir_start_byte (echfs_read_block0_result wrap_device []
      (filesystem_with_block_size 0)).2 <
      16 * (read_header wrap_device).block_size + (read_header wrap_device).block_count * 8 := by
  decide

/-- C8 (amended): for every accepted header with `block_size > 0` and
`block_count * 8 < 2 ^ 64` whose main directory block number fits 64 bits
(`16 + ceil(block_count * 8 / block_size) < 2 ^ 64`), the descriptor gets
`alloc_table_block = 16`, `alloc_table_blocks` equal to the ceiling of
`block_count * 8 / block_size`, `main_dir_block = 16 + alloc_table_blocks`
and the header's `main_dir_blocks`, so that the first byte of the main
directory, `main_dir_block * block_size`, is at or after the end of the
allocation table; that product is the byte address `echfs_read_dir_entry`
computes whenever it is below `2 ^ 64`. -/
theorem echfs_read_block0_layout (dev : Device) (device : List Nat)
    (output : echfs_filesystem_t)
    (hacc : (echfs_read_block0_result dev device output).1 = 1)
    (hbs : 0 < (read_header dev).block_size)
    (hbc : (read_header dev).block_count * 8 < 2 ^ 64)
    (hfit : 16 + BYTES_TO_BLOCKS ((read_header dev).block_count * 8)
      (read_header dev).block_size < 2 ^ 64) :
    (echfs_read_block0_result dev device output).2.alloc_table_block = 16 ∧
    (echfs_read_block0_result dev device output).2.alloc_table_blocks =
      BYTES_TO_BLOCKS ((read_header dev).block_count * 8) (read_header dev).block_size ∧
    (read_header dev).block_count * 8 ≤
      (echfs_read_block0_result dev device output).2.alloc_table_blocks *
        (read_header dev).block_size ∧
    (echfs_read_block0_result dev device output).2.alloc_table_blocks *
        (read_header dev).block_size <
      (read_header dev).block_count * 8 + (read_header dev).block_size ∧
    (echfs_read_block0_result dev device output).2.main_dir_block =
      16 + (echfs_read_block0_result dev device output).2.alloc_table_blocks ∧
    (echfs_read_block0_result dev device output).2.main_dir_blocks =
      (read_header dev).main_dir_blocks ∧
    16 * (read_header dev).block_size + (read_header dev).block_count * 8 ≤
      (echfs_read_block0_result dev device output).2.main_dir_block *
        (echfs_read_block0_result dev device output).2.block_size ∧
    ((echfs_read_block0_result dev device output).2.main_dir_block *
        (echfs_read_block0_result dev device output).2.block_size < 2 ^ 64 →
      main_dir_start_byte (echfs_read_block0_result dev device output).2 =
        (echfs_read_block0_result dev device output).2.main_dir_block *
          (echfs_read_block0_result dev device output).2.block_size) := by
  rw [echfs_read_block0_accept dev device output hacc]
  obtain ⟨hlo, hhi⟩ := BYTES_TO_BLOCKS_bounds ((read_header dev).block_count * 8)
    (read_header dev).block_size hbs
  generalize hq : BYTES_TO_BLOCKS ((read_header dev).block_count * 8)
    (read_header dev).block_size = q at hfit hlo hhi
  generalize (read_header dev).block_size = bs at hbs hlo hhi hq
  generalize (read_header dev).block_count = bc at hbc hlo hhi hq
  have hu1 : u64 (bc * 8) = bc * 8 := Nat.mod_eq_of_lt hbc
  have hu2 : u64 q = q := Nat.mod_eq_of_lt (by omega)
  have hu3 : u64 (q + 16) = q + 16 := Nat.mod_eq_of_lt (by omega)
  have hexp : (q + 16) * bs = q * bs + 16 * bs := by ring
  simp only [main_dir_start_byte, hu1, hq, hu2, hu3]
  refine ⟨trivial, trivial, hlo, hhi, by omega, trivial, by omega, ?_⟩
  intro hlt
  exact Nat.mod_eq_of_lt hlt

/-- C8 (amended), at a concrete header: 100 blocks of 512 bytes. -/
theorem echfs_read_block0_layout_witness :
    (echfs_read_block0_result small_device []
      (filesystem_with_block_size 0)).2.alloc_table_blocks = 2 ∧
    (echfs_read_block0_result small_device []
      (filesystem_with_block_size 0)).2.main_dir_block = 18 ∧
    16 * (read_header small_device).block_size + (read_header small_device).block_count * 8 ≤
      (echfs_read_block0_result small_device []
        (filesystem_with_block_size 0)).2.main_dir_block *
      (echfs_read_block0_result small_device []
        (filesystem_with_block_size 0)).2.block_size := by
  have h := echfs_read_block0_layout small_device [] (filesystem_with_block_size 0)
    (by decide) (by decide) (by decide) (by decide)
  refine ⟨?_, ?_, h.2.2.2.2.2.2.1⟩
  · rw [h.2.1]; decide
  · rw [h.2.2.2.2.1, h.2.1]; decide

/-! ## Theorems: the allocation-chain walk -/

/-- With a block size of at least 8 the table lookup does not trap. -/
theorem echfs_get_entry_for_block_eq_some (filesystem : echfs_filesystem_t) (dev : Device)
    (b : Nat) (hbs : 8 ≤ filesystem.block_size) :
    echfs_get_entry_for_block filesystem dev b = some (alloc_next filesystem dev b) := by
  have h0 : filesystem.block_size ≠ 0 := by omega
  have h8 : filesystem.block_size / 8 ≠ 0 := by
    have := Nat.div_pos hbs (by decide : 0 < 8); omega
  simp [alloc_next, echfs_get_entry_for_block, h0, h8]

/-- One pass of the loop when the chain goes on. -/
theorem echfs_read_file_loop_step (filesystem : echfs_filesystem_t) (dev : Device)
    (fuel b : Nat) (data : List Nat) (hbs : 8 ≤ filesystem.block_size)
    (hne : alloc_next filesystem dev b ≠ ECHFS_END_OF_CHAIN) :
    echfs_read_file_loop filesystem dev (fuel + 1) b data =
      echfs_read_file_loop filesystem dev fuel (alloc_next filesystem dev b)
        (data ++ (List.range filesystem.block_size).map
          (echfs_read_block filesystem dev b)) := by
  rw [echfs_read_file_loop]
  simp only [echfs_get_entry_for_block_eq_some filesystem dev b hbs, if_neg hne]

/-- One pass of the loop when the chain ends. -/
theorem echfs_read_file_loop_last (filesystem : echfs_filesystem_t) (dev : Device)
    (fuel b : Nat) (data : List Nat) (hbs : 8 ≤ filesystem.block_size)
    (hend : alloc_next filesystem dev b = ECHFS_END_OF_CHAIN) :
    echfs_read_file_loop filesystem dev (fuel + 1) b data =
      Run.ret (data ++ (List.range filesystem.block_size).map
          (echfs_read_block filesystem dev b)) := by
  rw [echfs_read_file_loop]
  simp only [echfs_get_entry_for_block_eq_some filesystem dev b hbs, if_pos hend]

/-- The loop returns once the chain has reached the end marker: `k + 1`
lookups suffice when the `(k + 1)`-st is the first to yield it. -/
theorem echfs_read_file_loop_returns (filesystem : echfs_filesystem_t) (dev : Device)
    (hbs : 8 ≤ filesystem.block_size) :
    ∀ (k fuel b : Nat) (data : List Nat),
      (alloc_next filesystem dev)^[k + 1] b = ECHFS_END_OF_CHAIN →
      (∀ j, j < k → (alloc_next filesystem dev)^[j + 1] b ≠ ECHFS_END_OF_CHAIN) →
      k + 1 ≤ fuel →
      ∃ out, echfs_read_file_loop filesystem dev fuel b data = Run.ret out ∧
        out.length = data.length + (k + 1) * filesystem.block_size := by
  intro k
  induction k with
  | zero =>
    intro fuel b data hend _ hfuel
    obtain ⟨f, rfl⟩ : ∃ f, fuel = f + 1 := ⟨fuel - 1, by omega⟩
    refine ⟨_, echfs_read_file_loop_last filesystem dev f b data hbs (by simpa using hend), ?_⟩
    simp
  | succ k ih =>
    intro fuel b data hend hmin hfuel
    obtain ⟨f, rfl⟩ : ∃ f, fuel = f + 1 := ⟨fuel - 1, by omega⟩
    have hne : alloc_next filesystem dev b ≠ ECHFS_END_OF_CHAIN := by
      simpa using hmin 0 (by omega)
    rw [echfs_read_file_loop_step filesystem dev f b data hbs hne]
    have hend2 : (alloc_next filesystem dev)^[k + 1] (alloc_next filesystem dev b)
        = ECHFS_END_OF_CHAIN := by
      rw [← Function.iterate_succ_apply]; exact hend
    have hmin2 : ∀ j, j < k →
        (alloc_next filesystem dev)^[j + 1] (alloc_next filesystem dev b)
          ≠ ECHFS_END_OF_CHAIN := by
      intro j hj
      rw [← Function.iterate_succ_apply]; exact hmin (j + 1) (by omega)
    obtain ⟨out, hout, hlen⟩ := ih f (alloc_next filesystem dev b) _ hend2 hmin2 (by omega)
    refine ⟨out, hout, ?_⟩
    rw [hlen]; simp; ring

/-- The loop is still running after `fuel` passes when none of the first `fuel`
lookups yields the end marker. -/
theorem echfs_read_file_loop_runs (filesystem : echfs_filesystem_t) (dev : Device)
    (hbs : 8 ≤ filesystem.block_size) :
    ∀ (fuel b : Nat) (data : List Nat),
      (∀ j, j < fuel → (alloc_next filesystem dev)^[j + 1] b ≠ ECHFS_END_OF_CHAIN) →
      echfs_read_file_loop filesystem dev fuel b data = Run.out_of_fuel := by
  intro fuel
  induction fuel with
  | zero => intro b data _; rfl
  | succ f ih =>
    intro b data hmin
    have hne : alloc_next filesystem dev b ≠ ECHFS_END_OF_CHAIN := by
      simpa using hmin 0 (by omega)
    rw [echfs_read_file_loop_step filesystem dev f b data hbs hne]
    apply ih
    intro j hj
    rw [← Function.iterate_succ_apply]; exact hmin (j + 1) (by omega)

/-- The blocks visited before the end marker are pairwise distinct, so a chain
that stays below `n` block ids is at most `n` blocks long. -/
theorem chain_length_le (next : Nat → Nat) (stop s k n : Nat)
    (hend : next^[k + 1] s = stop)
    (hmin : ∀ j, j < k → next^[j + 1] s ≠ stop)
    (hlt : ∀ j, j ≤ k → next^[j] s < n) : k + 1 ≤ n := by
  have hinj : Set.InjOn (fun j => next^[j] s) (Finset.range (k + 1) : Set Nat) := by
    have key : ∀ i j, i < j → j ≤ k → next^[i] s ≠ next^[j] s := by
      intro i j hij hjk heq
      apply hmin (i + (k - j)) (by omega)
      have e1 : i + (k - j) + 1 = (k - j + 1) + i := by omega
      have e2 : k + 1 = (k - j + 1) + j := by omega
      rw [e1, Function.iterate_add_apply, heq, ← Function.iterate_add_apply, ← e2]
      exact hend
    intro i hi j hj heq
    simp only [Finset.coe_range, Set.mem_Iio] at hi hj
    rcases Nat.lt_trichotomy i j with h | h | h
    · exact absurd heq (key i j h (by omega))
    · exact h
    · exact absurd heq.symm (key j i h (by omega))
  have hmaps : ∀ j ∈ Finset.range (k + 1), (fun j => next^[j] s) j ∈ Finset.range n := by
    intro j hj
    simp only [Finset.mem_range] at hj ⊢
    exact hlt j (by omega)
  have := Finset.card_le_card_of_injOn (fun j => next^[j] s) hmaps hinj
  simpa using this

/-- C9 (as stated, refuted): on a table whose entry for block 0 is 0 (a chain
that cycles through block 0) the walk started at block 0 never returns and
never rejects anything: whatever the step budget, the loop is still running
when the budget is used up. -/
theorem echfs_read_file_cycle_never_returns :
    ¬ ∃ fuel, echfs_read_file (filesystem_with_block_size 8) (device_of_bytes [])
      (file_at 0) fuel ≠ Run.out_of_fuel := by
  rintro ⟨fuel, h⟩
  apply h
  have hbs : 8 ≤ (filesystem_with_block_size 8).block_size := by decide
  have hnext : ∀ b, alloc_next (filesystem_with_block_size 8) (device_of_bytes []) b = 0 := by
    intro b
    simp [alloc_next, echfs_get_entry_for_block, filesystem_with_block_size,
      echfs_read_block, fd_read_at, load_u64, device_of_bytes]
  have hiter : ∀ j, (alloc_next (filesystem_with_block_size 8) (device_of_bytes []))^[j + 1] 0
      = 0 := by
    intro j
    induction j with
    | zero => simpa using hnext 0
    | succ j ih => rw [Function.iterate_succ_apply', ih]; exact hnext 0
  apply echfs_read_file_loop_runs _ _ hbs
  intro j _
  show (alloc_next (filesystem_with_block_size 8) (device_of_bytes []))^[j + 1] 0 ≠ _
  rw [hiter j]; decide

/-- C9 (amended): with a block size of at least 8 (so that table lookups do not
trap) the walk of `echfs_read_file` returns exactly when the chain from
`starting_block` reaches `ECHFS_END_OF_CHAIN`.  When lookup number `k + 1` is
the first to yield it, the walk returns after exactly `k + 1` passes, having
copied `k + 1` blocks, and `k + 1` is at most `block_count` whenever the
visited block ids are all below `block_count`.  No chain is rejected. -/
theorem echfs_read_file_terminates_iff_chain_ends (filesystem : echfs_filesystem_t)
    (dev : Device) (file : echfs_dir_entry_t) (hbs : 8 ≤ filesystem.block_size) :
    ((∃ fuel data, echfs_read_file filesystem dev file fuel = Run.ret data) ↔
      ∃ k, (alloc_next filesystem dev)^[k + 1] file.starting_block = ECHFS_END_OF_CHAIN) ∧
    (∀ fuel, echfs_read_file filesystem dev file fuel ≠ Run.trap) ∧
    ∀ k, (alloc_next filesystem dev)^[k + 1] file.starting_block = ECHFS_END_OF_CHAIN →
      (∀ j, j < k →
        (alloc_next filesystem dev)^[j + 1] file.starting_block ≠ ECHFS_END_OF_CHAIN) →
      (∀ fuel, k + 1 ≤ fuel → ∃ data,
        echfs_read_file filesystem dev file fuel = Run.ret data ∧
        data.length = (k + 1) * filesystem.block_size) ∧
      (∀ fuel, fuel ≤ k → echfs_read_file filesystem dev file fuel = Run.out_of_fuel) ∧
      ((∀ j, j ≤ k → (alloc_next filesystem dev)^[j] file.starting_block < filesystem.blocks) →
        k + 1 ≤ filesystem.blocks) := by
  classical
  have hfirst : ∀ k, (alloc_next filesystem dev)^[k + 1] file.starting_block
        = ECHFS_END_OF_CHAIN →
      (∀ j, j < k →
        (alloc_next filesystem dev)^[j + 1] file.starting_block ≠ ECHFS_END_OF_CHAIN) →
      ∀ fuel, k + 1 ≤ fuel → ∃ data,
        echfs_read_file filesystem dev file fuel = Run.ret data ∧
        data.length = (k + 1) * filesystem.block_size := by
    intro k hend hmin fuel hfuel
    obtain ⟨out, hout, hlen⟩ := echfs_read_file_loop_returns filesystem dev hbs k fuel
      file.starting_block [] hend hmin hfuel
    exact ⟨out, hout, by simpa using hlen⟩
  refine ⟨⟨?_, ?_⟩, ?_, ?_⟩
  · rintro ⟨fuel, data, hret⟩
    by_contra hno
    push_neg at hno
    have := echfs_read_file_loop_runs filesystem dev hbs fuel file.starting_block []
      (fun j _ => hno j)
    unfold echfs_read_file at hret
    rw [this] at hret
    cases hret
  · intro hex
    have hend := Nat.find_spec hex
    have hmin : ∀ j, j < Nat.find hex →
        (alloc_next filesystem dev)^[j + 1] file.starting_block ≠ ECHFS_END_OF_CHAIN :=
      fun j hj => Nat.find_min hex hj
    obtain ⟨data, hd, _⟩ := hfirst _ hend hmin (Nat.find hex + 1) (Nat.le_refl _)
    exact ⟨_, data, hd⟩
  · intro fuel
    by_cases hex : ∃ k, k < fuel ∧
        (alloc_next filesystem dev)^[k + 1] file.starting_block = ECHFS_END_OF_CHAIN
    · have hend := (Nat.find_spec hex).2
      have hlt := (Nat.find_spec hex).1
      have hmin : ∀ j, j < Nat.find hex →
          (alloc_next filesystem dev)^[j + 1] file.starting_block ≠ ECHFS_END_OF_CHAIN := by
        intro j hj heq
        exact Nat.find_min hex hj ⟨by omega, heq⟩
      obtain ⟨data, hd, _⟩ := hfirst _ hend hmin fuel (by omega)
      rw [hd]; intro hc; cases hc
    · push_neg at hex
      have := echfs_read_file_loop_runs filesystem dev hbs fuel file.starting_block []
        (fun j hj => hex j hj)
      unfold echfs_read_file
      rw [this]; intro hc; cases hc
  · intro k hend hmin
    refine ⟨hfirst k hend hmin, ?_, ?_⟩
    · intro fuel hfuel
      exact echfs_read_file_loop_runs filesystem dev hbs fuel file.starting_block []
        (fun j hj => hmin j (by omega))
    · intro hlt
      exact chain_length_le _ _ _ k _ hend hmin hlt

/-- C9 (amended), at a concrete table: the chain 0, 1, end of chain with a
block size of 8 bytes. -/
theorem echfs_read_file_terminates_iff_chain_ends_witness :
    8 ≤ (filesystem_with_block_size 8).block_size ∧
    ∃ data, echfs_read_file (filesystem_with_block_size 8) chain_device (file_at 0) 2
      = Run.ret data ∧ data.length = 16 := by
  refine ⟨by decide, ?_⟩
  have h := (echfs_read_file_terminates_iff_chain_ends (filesystem_with_block_size 8)
    chain_device (file_at 0) (by decide)).2.2 1 (by decide) (by decide)
  exact h.1 2 (Nat.le_refl _)

/-! ## Theorems: the round-robin picker -/

/-- Under the invariant `tasks[t].tid == t`, one `for` loop of `pick_task` finds
the first ready slot among the `n` slots from `s` on. -/
theorem pick_task_scan_eq_find (tasks : dynarray_t task_t)
    (hinv : ∀ (t : Int) (task : task_t), dynarray_getelem tasks t = some task → task.tid = t) :
    ∀ (n s : Nat), pick_task_scan tasks n (s : Int) =
      Option.map Int.ofNat ((List.range' s n).find? (slot_ready tasks)) := by
  intro n
  induction n with
  | zero => intro s; rfl
  | succ n ih =>
    intro s
    have hs : ((s : Int) + 1) = ((s + 1 : Nat) : Int) := by push_cast; rfl
    rw [pick_task_scan, List.range'_succ, List.find?_cons]
    cases hget : dynarray_getelem tasks (s : Int) with
    | none =>
      simp only [slot_ready, hget]
      rw [hs, ih]
    | some task =>
      by_cases hready : task.state = task_state_t.READY
      · simp only [slot_ready, hget, hready, if_true, decide_True, Option.map_some']
        rw [hinv _ _ hget]
        rfl
      · simp only [slot_ready, hget, hready, if_false, decide_False]
        rw [hs, ih]

/-- With a current thread of id `c` inside the table, `pick_task` returns the
first ready slot in cyclic order, or -1. -/
theorem pick_task_eq_find (tasks : dynarray_t task_t) (cur : task_t) (c : Nat)
    (hinv : ∀ (t : Int) (task : task_t), dynarray_getelem tasks t = some task → task.tid = t)
    (hc : cur.tid = (c : Int)) :
    pick_task tasks (some cur) =
      match (cyclic_order c tasks.length).find? (slot_ready tasks) with
      | some t => (t : Int)
      | none => -1 := by
  have h1 : ((tasks.length : Int) - (cur.tid + 1)).toNat = tasks.length - (c + 1) := by
    rw [hc]; omega
  have h2 : (cur.tid + 1) = ((c + 1 : Nat) : Int) := by rw [hc]; push_cast; rfl
  have h3 : (cur.tid + 1).toNat = c + 1 := by rw [hc]; omega
  have h0 : (0 : Int) = ((0 : Nat) : Int) := rfl
  unfold pick_task
  simp only [h1, h3]
  rw [h2, pick_task_scan_eq_find tasks hinv, h0, pick_task_scan_eq_find tasks hinv]
  unfold cyclic_order
  rw [List.find?_append, List.range_eq_range']
  cases List.find? (slot_ready tasks) (List.range' (c + 1) (tasks.length - (c + 1))) with
  | some t => rfl
  | none =>
    cases List.find? (slot_ready tasks) (List.range' 0 (c + 1)) with
    | some t => rfl
    | none => rfl

/-- The cyclic order starting behind slot `c` visits exactly the slots of the
table. -/
theorem mem_cyclic_order (c N t : Nat) (hc : c < N) : t ∈ cyclic_order c N ↔ t < N := by
  unfold cyclic_order
  simp only [List.mem_append, List.mem_range'_1, List.mem_range]
  omega

/-- A ready slot holds a live task in state `READY`, and conversely. -/
theorem slot_ready_iff (tasks : dynarray_t task_t) (t : Nat) :
    slot_ready tasks t = true ↔
      ∃ task, dynarray_getelem tasks (t : Int) = some task ∧
        task.state = task_state_t.READY := by
  unfold slot_ready
  cases dynarray_getelem tasks (t : Int) with
  | none => simp
  | some task => simp

/-- A live slot has a non-negative index below the table size. -/
theorem dynarray_getelem_live {α : Type} (arr : dynarray_t α) (i : Int) (a : α)
    (h : dynarray_getelem arr i = some a) : 0 ≤ i ∧ i.toNat < arr.length := by
  unfold dynarray_getelem at h
  by_cases hi : i < 0
  · rw [if_pos hi] at h; cases h
  · rw [if_neg hi] at h
    refine ⟨by omega, ?_⟩
    by_contra hlen
    rw [List.getD_eq_default _ _ (by omega)] at h
    cases h

/-- C10: in a thread table in which every live slot `t` holds a task with
`tid == t`, on a CPU whose current thread has `tid` `c` below the table size,
`pick_task` returns the first slot in the cyclic order `c + 1, ..., N - 1, 0,
..., c` whose task is live and `READY`; it returns -1 exactly when no live task
is `READY`; and every slot it returns holds a `READY` task, so a task in
another state is never returned. -/
theorem pick_task_round_robin (tasks : dynarray_t task_t) (cur : task_t) (c : Nat)
    (hinv : ∀ (t : Int) (task : task_t), dynarray_getelem tasks t = some task → task.tid = t)
    (hc : cur.tid = (c : Int)) (hcN : c < tasks.length) :
    (pick_task tasks (some cur) =
      match (cyclic_order c tasks.length).find? (slot_ready tasks) with
      | some t => (t : Int)
      | none => -1) ∧
    (pick_task tasks (some cur) = -1 ↔
      ∀ (t : Int) (task : task_t), dynarray_getelem tasks t = some task →
        task.state ≠ task_state_t.READY) ∧
    (pick_task tasks (some cur) ≠ -1 →
      ∃ task, dynarray_getelem tasks (pick_task tasks (some cur)) = some task ∧
        task.state = task_state_t.READY) := by
  have hfind := pick_task_eq_find tasks cur c hinv hc
  refine ⟨hfind, ?_, ?_⟩
  · rw [hfind]
    cases hf : (cyclic_order c tasks.length).find? (slot_ready tasks) with
    | some t =>
      have hready := List.find?_some hf
      obtain ⟨task, hget, hst⟩ := (slot_ready_iff tasks t).1 hready
      constructor
      · intro h
        have h2 : (t : Int) = -1 := h
        omega
      · intro h; exact absurd hst (h _ _ hget)
    | none =>
      simp only [true_iff]
      intro t task hget hst
      obtain ⟨h0, hlt⟩ := dynarray_getelem_live tasks t task hget
      have hmem : t.toNat ∈ cyclic_order c tasks.length :=
        (mem_cyclic_order c tasks.length t.toNat hcN).2 hlt
      have hnot := List.find?_eq_none.1 hf _ hmem
      apply hnot
      rw [slot_ready_iff]
      refine ⟨task, ?_, hst⟩
      rw [Int.toNat_of_nonneg h0]; exact hget
  · rw [hfind]
    cases hf : (cyclic_order c tasks.length).find? (slot_ready tasks) with
    | some t =>
      intro _
      exact (slot_ready_iff tasks t).1 (List.find?_some hf)
    | none => intro h; exact absurd rfl h

/-- C10, at a concrete table: with the thread of slot 3 current, slot 4 is a
zombie and the scan wraps around to the ready task in slot 0. -/
theorem pick_task_round_robin_witness :
    pick_task sample_tasks (some (task_with 3 task_state_t.RUNNING)) = 0 ∧
    ∃ task, dynarray_getelem sample_tasks
        (pick_task sample_tasks (some (task_with 3 task_state_t.RUNNING))) = some task ∧
      task.state = task_state_t.READY := by
  have hinv : ∀ (t : Int) (task : task_t),
      dynarray_getelem sample_tasks t = some task → task.tid = t := by
    intro t task h
    obtain ⟨h0, hlt⟩ := dynarray_getelem_live sample_tasks t task h
    obtain ⟨n, rfl⟩ := Int.eq_ofNat_of_zero_le h0
    have hn : n < 5 := by simpa [sample_tasks] using hlt
    interval_cases n <;> simp [dynarray_getelem, sample_tasks] at h <;> subst h <;> rfl
  have h := pick_task_round_robin sample_tasks (task_with 3 task_state_t.RUNNING) 3 hinv rfl
    (by decide)
  have hval : pick_task sample_tasks (some (task_with 3 task_state_t.RUNNING)) = 0 := by
    rw [h.1]; decide
  exact ⟨hval, h.2.2 (by rw [hval]; decide)⟩

/-! ## Theorems: directory scan -/

/-- The zero test on `strcmp` compares the two C strings. -/
theorem strcmp_eq_zero_iff (a b : List Nat) : strcmp a b = 0 ↔ cstr a = cstr b := by
  unfold strcmp
  by_cases h : cstr a = cstr b
  · simp [h]
  · simp [h]

/-- A byte list without NUL is its own C string. -/
theorem cstr_eq_self (l : List Nat) (h : ∀ c ∈ l, c ≠ 0) : cstr l = l := by
  unfold cstr
  rw [List.takeWhile_eq_self_iff]
  intro c hc
  simpa using h c hc

/-- The match test of the directory scan, in terms of `entry_matches`. -/
theorem scan_test_iff (dir : Directory) (name : List Nat) (parent_id n : Nat) :
    ((dir n).parent_id = parent_id ∧ strcmp name (dir n).name = 0) ↔
      entry_matches dir parent_id (cstr name) n := by
  unfold entry_matches
  rw [strcmp_eq_zero_iff]
  constructor
  · rintro ⟨h1, h2⟩; exact ⟨h1, h2.symm⟩
  · rintro ⟨h1, h2⟩; exact ⟨h1, h2.symm⟩

/-- The scan returns the first matching entry when no end marker precedes it. -/
theorem find_loop_first_hit (SEARCH_FAIL : Nat) (dir : Directory) (name : List Nat)
    (parent_id j : Nat) (hhit : entry_matches dir parent_id (cstr name) j) :
    ∀ (fuel n : Nat), n ≤ j →
      (∀ i, n ≤ i → i < j →
        ¬ entry_matches dir parent_id (cstr name) i ∧ (dir i).parent_id ≠ 0) →
      j - n < fuel →
      echfs_find_entry_name_parent_loop SEARCH_FAIL dir name parent_id fuel n = some j := by
  intro fuel
  induction fuel with
  | zero => intro n _ _ h; omega
  | succ f ih =>
    intro n hn hbefore hfuel
    rw [echfs_find_entry_name_parent_loop]
    by_cases hnj : n = j
    · subst hnj
      simp only [if_pos ((scan_test_iff dir name parent_id n).2 hhit)]
    · have hlt : n < j := by omega
      obtain ⟨hno, hnz⟩ := hbefore n (Nat.le_refl _) hlt
      have hno2 : ¬ ((dir n).parent_id = parent_id ∧ strcmp name (dir n).name = 0) :=
        fun h => hno ((scan_test_iff dir name parent_id n).1 h)
      simp only [if_neg hno2, if_neg hnz]
      exact ih (n + 1) (by omega) (fun i hi hij => hbefore i (by omega) hij) (by omega)

/-- The scan fails at the end marker when nothing up to it matches. -/
theorem find_loop_miss (SEARCH_FAIL : Nat) (dir : Directory) (name : List Nat)
    (parent_id j : Nat) (hend : (dir j).parent_id = 0)
    (hnohit : ¬ entry_matches dir parent_id (cstr name) j) :
    ∀ (fuel n : Nat), n ≤ j →
      (∀ i, n ≤ i → i < j →
        ¬ entry_matches dir parent_id (cstr name) i ∧ (dir i).parent_id ≠ 0) →
      j - n < fuel →
      echfs_find_entry_name_parent_loop SEARCH_FAIL dir name parent_id fuel n
        = some SEARCH_FAIL := by
  intro fuel
  induction fuel with
  | zero => intro n _ _ h; omega
  | succ f ih =>
    intro n hn hbefore hfuel
    rw [echfs_find_entry_name_parent_loop]
    by_cases hnj : n = j
    · subst hnj
      have hno2 : ¬ ((dir n).parent_id = parent_id ∧ strcmp name (dir n).name = 0) :=
        fun h => hnohit ((scan_test_iff dir name parent_id n).1 h)
      simp only [if_neg hno2, if_pos hend]
    · have hlt : n < j := by omega
      obtain ⟨hno, hnz⟩ := hbefore n (Nat.le_refl _) hlt
      have hno2 : ¬ ((dir n).parent_id = parent_id ∧ strcmp name (dir n).name = 0) :=
        fun h => hno ((scan_test_iff dir name parent_id n).1 h)
      simp only [if_neg hno2, if_neg hnz]
      exact ih (n + 1) (by omega) (fun i hi hij => hbefore i (by omega) hij) (by omega)

/-- An index returned by the scan, other than the failure sentinel, is that of
a matching entry. -/
theorem find_loop_sound (SEARCH_FAIL : Nat) (dir : Directory) (name : List Nat)
    (parent_id : Nat) :
    ∀ (fuel n r : Nat),
      echfs_find_entry_name_parent_loop SEARCH_FAIL dir name parent_id fuel n = some r →
      r ≠ SEARCH_FAIL → entry_matches dir parent_id (cstr name) r := by
  intro fuel
  induction fuel with
  | zero => intro n r h; simp [echfs_find_entry_name_parent_loop] at h
  | succ f ih =>
    intro n r h hr
    rw [echfs_find_entry_name_parent_loop] at h
    by_cases hhit : (dir n).parent_id = parent_id ∧ strcmp name (dir n).name = 0
    · simp only [if_pos hhit, Option.some.injEq] at h
      subst h
      exact (scan_test_iff dir name parent_id n).1 hhit
    · simp only [if_neg hhit] at h
      by_cases hz : (dir n).parent_id = 0
      · simp only [if_pos hz, Option.some.injEq] at h
        exact absurd h.symm hr
      · simp only [if_neg hz] at h
        exact ih (n + 1) r h hr

/-- In a directory with an end marker at entry `m` the scan returns, and with
the same answer for every budget above `m`. -/
theorem find_loop_total (SEARCH_FAIL : Nat) (dir : Directory) (name : List Nat)
    (parent_id m : Nat) (hm : (dir m).parent_id = 0) :
    ∀ (d n : Nat), m - n = d → n ≤ m →
      ∃ r, ∀ fuel, d < fuel →
        echfs_find_entry_name_parent_loop SEARCH_FAIL dir name parent_id fuel n = some r := by
  intro d
  induction d with
  | zero =>
    intro n hd hn
    have hnm : n = m := by omega
    subst hnm
    by_cases hhit : (dir n).parent_id = parent_id ∧ strcmp name (dir n).name = 0
    · refine ⟨n, fun fuel hf => ?_⟩
      obtain ⟨f, rfl⟩ : ∃ f, fuel = f + 1 := ⟨fuel - 1, by omega⟩
      rw [echfs_find_entry_name_parent_loop]
      simp only [if_pos hhit]
    · refine ⟨SEARCH_FAIL, fun fuel hf => ?_⟩
      obtain ⟨f, rfl⟩ : ∃ f, fuel = f + 1 := ⟨fuel - 1, by omega⟩
      rw [echfs_find_entry_name_parent_loop]
      simp only [if_neg hhit, if_pos hm]
  | succ d ih =>
    intro n hd hn
    by_cases hhit : (dir n).parent_id = parent_id ∧ strcmp name (dir n).name = 0
    · refine ⟨n, fun fuel hf => ?_⟩
      obtain ⟨f, rfl⟩ : ∃ f, fuel = f + 1 := ⟨fuel - 1, by omega⟩
      rw [echfs_find_entry_name_parent_loop]
      simp only [if_pos hhit]
    · by_cases hz : (dir n).parent_id = 0
      · refine ⟨SEARCH_FAIL, fun fuel hf => ?_⟩
        obtain ⟨f, rfl⟩ : ∃ f, fuel = f + 1 := ⟨fuel - 1, by omega⟩
        rw [echfs_find_entry_name_parent_loop]
        simp only [if_neg hhit, if_pos hz]
      · obtain ⟨r, hr⟩ := ih (n + 1) (by omega) (by omega)
        refine ⟨r, fun fuel hf => ?_⟩
        obtain ⟨f, rfl⟩ : ∃ f, fuel = f + 1 := ⟨fuel - 1, by omega⟩
        rw [echfs_find_entry_name_parent_loop]
        simp only [if_neg hhit, if_neg hz]
        exact hr f (by omega)

/-- The lookup from entry 0 returns in a directory with an end marker. -/
theorem find_total (SEARCH_FAIL : Nat) (dir : Directory) (name : List Nat)
    (parent_id m : Nat) (hm : (dir m).parent_id = 0) :
    ∃ r, ∀ fuel, m < fuel →
      echfs_find_entry_name_parent SEARCH_FAIL dir fuel name parent_id = some r := by
  obtain ⟨r, hr⟩ := find_loop_total SEARCH_FAIL dir name parent_id m hm m 0 rfl (Nat.zero_le _)
  exact ⟨r, fun fuel hf => hr fuel hf⟩

/-- The value of the search-failure error code. -/
theorem err_search_fail : 0 ||| ERR_SEARCH_FAIL = 4 := by decide

/-- The value of the search-failure bit. -/
theorem ERR_SEARCH_FAIL_eq : ERR_SEARCH_FAIL = 4 := by decide

/-- The value of the name-too-long error code. -/
theorem err_name_too_long : 0 ||| ERR_NAME_TOO_LONG = 2 := by decide

/-- The value of the root-entry error code. -/
theorem err_root_entry : 0 ||| ERR_ROOT_ENTRY = 1 := by decide

/-! ## Theorems: path resolution -/

/-- The C string of an empty byte list is empty. -/
theorem cstr_nil : cstr [] = [] := rfl

/-- A NUL byte ends the C string. -/
theorem cstr_cons_zero (l : List Nat) : cstr (0 :: l) = [] := by
  simp [cstr]

/-- A byte other than NUL belongs to the C string. -/
theorem cstr_cons_ne (c : Nat) (l : List Nat) (h : c ≠ 0) : cstr (c :: l) = c :: cstr l := by
  simp [cstr, h]

/-- A slash closes the component being gathered. -/
theorem split_slash_slash (acc rest : List Nat) :
    split_slash acc (47 :: rest) = acc :: split_slash [] rest := by
  rw [split_slash]; simp

/-- Any other byte extends the component being gathered. -/
theorem split_slash_other (acc rest : List Nat) (c : Nat) (h : c ≠ 47) :
    split_slash acc (c :: rest) = split_slash (acc ++ [c]) rest := by
  rw [split_slash]; simp [h]

/-- Gathering components with `split_slash` is splitting at the slashes, with
the gathered bytes in front of the first piece. -/
theorem split_slash_eq_modifyHead (l : List Nat) :
    ∀ acc, split_slash acc l =
      (l.splitOnP (fun c => c == 47)).modifyHead (fun h => acc ++ h) := by
  induction l with
  | nil => intro acc; simp [split_slash, List.modifyHead]
  | cons x l ih =>
    intro acc
    rw [split_slash, List.splitOnP_cons]
    by_cases hx : x = 47
    · subst hx
      have h0 := ih []
      simp only [List.nil_append] at h0
      have hid : List.modifyHead (fun h => h) (List.splitOnP (fun c => c == 47) l)
          = List.splitOnP (fun c => c == 47) l := by
        cases List.splitOnP (fun c => c == 47) l <;> rfl
      rw [hid] at h0
      simp [List.modifyHead, h0]
    · have hb : (x == 47) = false := by simpa using hx
      simp only [hx, if_false, hb, Bool.false_eq_true]
      rw [ih (acc ++ [x]), List.modifyHead_modifyHead]
      congr 1
      funext h
      simp

/-- The components of a path are the pieces of its body between the slashes. -/
theorem path_components_eq_splitOn (filename : List Nat) :
    path_components filename = (path_body filename).splitOn 47 := by
  unfold path_components
  rw [split_slash_eq_modifyHead]
  simp only [List.nil_append]
  show List.modifyHead (fun h => h) (List.splitOnP (fun c => c == 47) (path_body filename)) = _
  unfold List.splitOn
  cases List.splitOnP (fun c => c == 47) (path_body filename) <;> rfl

/-- The first component produced extends the component being gathered. -/
theorem split_slash_head (l : List Nat) :
    ∀ acc, ∃ c cs, split_slash acc l = c :: cs ∧ acc.length ≤ c.length := by
  induction l with
  | nil => intro acc; exact ⟨acc, [], rfl, Nat.le_refl _⟩
  | cons x l ih =>
    intro acc
    by_cases hx : x = 47
    · subst hx
      exact ⟨acc, split_slash [] l, split_slash_slash acc l, Nat.le_refl _⟩
    · obtain ⟨c, cs, hc, hlen⟩ := ih (acc ++ [x])
      refine ⟨c, cs, by rw [split_slash_other acc l x hx, hc], ?_⟩
      simp at hlen; omega

/-- The final lookup returns only a directory entry below the current parent
whose name is the component looked up, and then with a clear error code. -/
theorem resolve_last_sound (SEARCH_FAIL : Nat) (dir : Directory) (fuel : Nat)
    (name : List Nat) (parent : Nat) (e : echfs_dir_entry_t) (err : Nat)
    (hname : ∀ c ∈ name, c ≠ 0)
    (h : resolve_last SEARCH_FAIL dir fuel name parent = some (some e, err)) :
    err = 0 ∧ (∃ n, dir n = e) ∧ e.parent_id = parent ∧ cstr e.name = name := by
  unfold resolve_last at h
  cases hfind : echfs_find_entry_name_parent SEARCH_FAIL dir fuel name parent with
  | none => rw [hfind] at h; cases h
  | some found =>
    rw [hfind] at h
    by_cases hsf : found = SEARCH_FAIL
    · simp [hsf] at h
    · simp only [ne_eq, hsf, not_false_eq_true, if_true, Option.some.injEq, Prod.mk.injEq] at h
      obtain ⟨he, herr⟩ := h
      have hm := find_loop_sound SEARCH_FAIL dir name parent fuel 0 found hfind hsf
      rw [cstr_eq_self name hname] at hm
      subst he
      exact ⟨herr.symm, ⟨found, rfl⟩, hm.1, hm.2⟩

/-- A non-null result of the component walk carries a clear error code and is
reached from the current parent along the remaining components. -/
theorem resolve_loop_sound (SEARCH_FAIL : Nat) (dir : Directory) (fuel : Nat)
    (e : echfs_dir_entry_t) (err : Nat) :
    ∀ (filename name : List Nat) (parent : Nat), (∀ c ∈ name, c ≠ 0) →
      echfs_path_resolve_loop SEARCH_FAIL dir fuel filename name parent = some (some e, err) →
      err = 0 ∧ resolved_chain dir parent (split_slash name (cstr filename)) e := by
  intro filename
  induction filename with
  | nil =>
    intro name parent hname h
    rw [echfs_path_resolve_loop] at h
    obtain ⟨h1, h2, h3, h4⟩ := resolve_last_sound SEARCH_FAIL dir fuel name parent e err hname h
    exact ⟨h1, h2, h3, h4⟩
  | cons c rest ih =>
    intro name parent hname h
    rw [echfs_path_resolve_loop] at h
    by_cases hc : c = 47
    · subst hc
      simp only [if_true] at h
      rw [cstr_cons_ne 47 rest (by decide), split_slash_slash]
      cases hfind : echfs_find_entry_name_parent SEARCH_FAIL dir fuel name parent with
      | none => rw [hfind] at h; cases h
      | some found =>
        rw [hfind] at h
        by_cases hsf : found = SEARCH_FAIL
        · simp [hsf] at h
        · simp only [ne_eq, hsf, not_false_eq_true, if_true] at h
          by_cases hty : (dir found).entry_type = 1
          · simp only [hty, not_true_eq_false, if_false] at h
            obtain ⟨herr, hchain⟩ := ih [] (dir found).starting_block (by simp) h
            refine ⟨herr, ?_⟩
            have hm := find_loop_sound SEARCH_FAIL dir name parent fuel 0 found hfind hsf
            rw [cstr_eq_self name hname] at hm
            obtain ⟨c2, cs, hsplit, _⟩ := split_slash_head (cstr rest) []
            rw [hsplit] at hchain ⊢
            exact ⟨found, hm, hty, hchain⟩
          · simp [hty] at h
    · simp only [hc, if_false] at h
      by_cases hz : c = 0
      · subst hz
        simp only [if_true] at h
        rw [cstr_cons_zero]
        obtain ⟨h1, h2, h3, h4⟩ :=
          resolve_last_sound SEARCH_FAIL dir fuel name parent e err hname h
        exact ⟨h1, h2, h3, h4⟩
      · simp only [hz, if_false] at h
        rw [cstr_cons_ne c rest hz, split_slash_other name (cstr rest) c hc]
        by_cases hlong : (name ++ [c]).length = 201 ∧ deref rest ≠ 0
        · rw [if_pos hlong] at h; simp at h
        · rw [if_neg hlong] at h
          apply ih (name ++ [c]) parent _ h
          intro x hx
          rcases List.mem_append.1 hx with hx | hx
          · exact hname x hx
          · simp at hx; subst hx; exact hz

/-- The entry at the end of a chain carries the name of the last component. -/
theorem resolved_chain_last (dir : Directory) (e : echfs_dir_entry_t) :
    ∀ (comps : List (List Nat)) (parent : Nat), resolved_chain dir parent comps e →
      comps.getLast? = some (cstr e.name) := by
  intro comps
  induction comps with
  | nil => intro parent h; exact absurd h (by simp [resolved_chain])
  | cons c cs ih =>
    intro parent h
    cases cs with
    | nil =>
      simp only [resolved_chain] at h
      simp [h.2.2]
    | cons c2 cs2 =>
      simp only [resolved_chain] at h
      obtain ⟨n, _, _, hrest⟩ := h
      have := ih (dir n).starting_block hrest
      rw [List.getLast?_cons_cons]; exact this

/-- In a directory with an end marker at entry `m` the final lookup returns,
with one answer for every budget above `m`. -/
theorem resolve_last_total (SEARCH_FAIL : Nat) (dir : Directory) (m : Nat)
    (hm : (dir m).parent_id = 0) (name : List Nat) (parent : Nat) :
    ∃ r, ∀ fuel, m < fuel → resolve_last SEARCH_FAIL dir fuel name parent = some r := by
  obtain ⟨found, hfound⟩ := find_total SEARCH_FAIL dir name parent m hm
  by_cases hsf : found = SEARCH_FAIL
  · refine ⟨(none, 0 ||| ERR_SEARCH_FAIL), fun fuel hf => ?_⟩
    unfold resolve_last
    rw [hfound fuel hf]
    simp [hsf]
  · refine ⟨(some (dir found), 0), fun fuel hf => ?_⟩
    unfold resolve_last
    rw [hfound fuel hf]
    simp [hsf]

/-- In a directory with an end marker at entry `m` the component walk returns,
with one answer for every budget above `m`. -/
theorem resolve_loop_total (SEARCH_FAIL : Nat) (dir : Directory) (m : Nat)
    (hm : (dir m).parent_id = 0) :
    ∀ (filename name : List Nat) (parent : Nat),
      ∃ r, ∀ fuel, m < fuel →
        echfs_path_resolve_loop SEARCH_FAIL dir fuel filename name parent = some r := by
  intro filename
  induction filename with
  | nil =>
    intro name parent
    obtain ⟨r, hr⟩ := resolve_last_total SEARCH_FAIL dir m hm name parent
    exact ⟨r, fun fuel hf => by rw [echfs_path_resolve_loop]; exact hr fuel hf⟩
  | cons c rest ih =>
    intro name parent
    by_cases hc : c = 47
    · subst hc
      obtain ⟨found, hfound⟩ := find_total SEARCH_FAIL dir name parent m hm
      by_cases hsf : found = SEARCH_FAIL
      · refine ⟨(none, 0 ||| ERR_SEARCH_FAIL), fun fuel hf => ?_⟩
        rw [echfs_path_resolve_loop]
        simp [hfound fuel hf, hsf]
      · by_cases hty : (dir found).entry_type = 1
        · obtain ⟨r, hr⟩ := ih [] (dir found).starting_block
          refine ⟨r, fun fuel hf => ?_⟩
          rw [echfs_path_resolve_loop]
          simp [hfound fuel hf, hsf, hty, hr fuel hf]
        · refine ⟨(none, 0 ||| ERR_SEARCH_FAIL), fun fuel hf => ?_⟩
          rw [echfs_path_resolve_loop]
          simp [hfound fuel hf, hsf, hty]
    · by_cases hz : c = 0
      · subst hz
        obtain ⟨r, hr⟩ := resolve_last_total SEARCH_FAIL dir m hm name parent
        refine ⟨r, fun fuel hf => ?_⟩
        rw [echfs_path_resolve_loop]
        simp [hr fuel hf]
      · by_cases hlong : (name ++ [c]).length = 201 ∧ deref rest ≠ 0
        · refine ⟨(none, 0 ||| ERR_NAME_TOO_LONG), fun fuel hf => ?_⟩
          rw [echfs_path_resolve_loop]
          simp only [hc, hz, if_false, if_pos hlong]
        · obtain ⟨r, hr⟩ := ih (name ++ [c]) parent
          refine ⟨r, fun fuel hf => ?_⟩
          rw [echfs_path_resolve_loop]
          simp only [hc, hz, if_false, if_neg hlong]
          exact hr fuel hf

/-- C2: in a directory with an end marker `echfs_path_resolve` returns, and
whenever it returns a non-null entry the error code is 0, the entry's name is
the last path component, every earlier component was matched by a directory
entry of type 1, and the entry's `parent_id` is the `starting_block` of the
entry matched for the preceding component (`ROOT_DIR_ID` for a single
component). -/
theorem echfs_path_resolve_sound (ROOT_DIR_ID SEARCH_FAIL : Nat) (dir : Directory)
    (m fuel : Nat) (filename : List Nat) (e : echfs_dir_entry_t) (err : Nat)
    (hm : (dir m).parent_id = 0)
    (hres : echfs_path_resolve ROOT_DIR_ID SEARCH_FAIL dir fuel filename = some (some e, err)) :
    (∃ r, ∀ fuel2, m < fuel2 →
      echfs_path_resolve ROOT_DIR_ID SEARCH_FAIL dir fuel2 filename = some r) ∧
    err = 0 ∧
    (path_components filename).getLast? = some (cstr e.name) ∧
    resolved_chain dir ROOT_DIR_ID (path_components filename) e := by
  constructor
  · unfold echfs_path_resolve
    by_cases hroot : strcmp (if deref filename = 47 then filename.tail else filename) [47] = 0
    · exact ⟨(none, 0 ||| ERR_ROOT_ENTRY), fun fuel2 _ => by simp only [if_pos hroot]⟩
    · obtain ⟨r, hr⟩ := resolve_loop_total SEARCH_FAIL dir m hm
        (if deref filename = 47 then filename.tail else filename) [] ROOT_DIR_ID
      exact ⟨r, fun fuel2 hf => by simp only [if_neg hroot]; exact hr fuel2 hf⟩
  · unfold echfs_path_resolve at hres
    by_cases hroot : strcmp (if deref filename = 47 then filename.tail else filename) [47] = 0
    · simp only [if_pos hroot] at hres
      simp at hres
    · simp only [if_neg hroot] at hres
      obtain ⟨herr, hchain⟩ := resolve_loop_sound SEARCH_FAIL dir fuel e err _ [] ROOT_DIR_ID
        (by simp) hres
      have hchain2 : resolved_chain dir ROOT_DIR_ID (path_components filename) e := hchain
      exact ⟨herr, resolved_chain_last dir e _ _ hchain2, hchain2⟩

/-- C2, at a concrete directory: `/a/b` resolves to the file `b` inside the
directory `a`. -/
theorem echfs_path_resolve_sound_witness :
    (sample_dir 2).parent_id = 0 ∧
    echfs_path_resolve ALL_ONES ALL_ONES sample_dir 3 [47, 97, 47, 98]
      = some (some ⟨5, 0, [98], 9, 12⟩, 0) ∧
    resolved_chain sample_dir ALL_ONES (path_components [47, 97, 47, 98])
      ⟨5, 0, [98], 9, 12⟩ :=
  ⟨by decide, by decide,
    (echfs_path_resolve_sound ALL_ONES ALL_ONES sample_dir 2 3 [47, 97, 47, 98]
      ⟨5, 0, [98], 9, 12⟩ 0 (by decide) (by decide)).2.2.2⟩

/-- A component that reaches 201 bytes with a further byte behind it stops the
walk with the name-too-long bit, before any lookup for it. -/
theorem resolve_loop_too_long (SEARCH_FAIL : Nat) (dir : Directory) (fuel : Nat)
    (rest : List Nat) (parent : Nat) (hrest : deref rest ≠ 0) :
    ∀ (comp name : List Nat), (∀ c ∈ comp, c ≠ 47 ∧ c ≠ 0) → comp ≠ [] →
      name.length + comp.length = 201 →
      echfs_path_resolve_loop SEARCH_FAIL dir fuel (comp ++ rest) name parent
        = some (none, 2) := by
  intro comp
  induction comp with
  | nil => intro name _ h; exact absurd rfl h
  | cons c comp ih =>
    intro name hnorm _ hlen
    obtain ⟨hc47, hc0⟩ := hnorm c (List.mem_cons_self _ _)
    rw [List.cons_append, echfs_path_resolve_loop]
    simp only [hc47, hc0, if_false]
    by_cases hcomp : comp = []
    · subst hcomp
      have hl : (name ++ [c]).length = 201 := by simp at hlen ⊢; omega
      have hcond : (name ++ [c]).length = 201 ∧ deref ([] ++ rest) ≠ 0 := ⟨hl, by simpa using hrest⟩
      rw [if_pos hcond, err_name_too_long]
    · have hpos : 0 < comp.length := List.length_pos.2 hcomp
      have hl : ¬ ((name ++ [c]).length = 201 ∧ deref (comp ++ rest) ≠ 0) := by
        simp at hlen ⊢; intro h; omega
      rw [if_neg hl]
      apply ih (name ++ [c]) (fun x hx => hnorm x (List.mem_cons_of_mem _ hx)) hcomp
      simp at hlen ⊢; omega

/-- A first component of more than `n` bytes means the string starts with `n`
bytes that are neither slash nor NUL, followed by one more such byte. -/
theorem long_first_component :
    ∀ (n : Nat) (l : List Nat), n < ((cstr l).takeWhile (fun c => c ≠ 47)).length →
      ∃ pre rest, l = pre ++ rest ∧ pre.length = n ∧ (∀ c ∈ pre, c ≠ 47 ∧ c ≠ 0) ∧
        deref rest ≠ 0 ∧ deref rest ≠ 47 := by
  intro n
  induction n with
  | zero =>
    intro l h
    cases l with
    | nil => simp [cstr] at h
    | cons x l =>
      by_cases hx0 : x = 0
      · subst hx0; simp [cstr] at h
      · by_cases hx47 : x = 47
        · subst hx47; simp [cstr] at h
        · exact ⟨[], x :: l, rfl, rfl, by simp, by simpa [deref] using hx0,
            by simpa [deref] using hx47⟩
  | succ n ih =>
    intro l h
    cases l with
    | nil => simp [cstr] at h
    | cons x l =>
      by_cases hx0 : x = 0
      · subst hx0; simp [cstr] at h
      · by_cases hx47 : x = 47
        · subst hx47; simp [cstr] at h
        · rw [cstr_cons_ne x l hx0, List.takeWhile_cons_of_pos (by simpa using hx47)] at h
          obtain ⟨pre, rest, hl, hlen, hnorm, h0, h47⟩ := ih l (by simpa using h)
          refine ⟨x :: pre, rest, by rw [hl]; rfl, by simp [hlen], ?_, h0, h47⟩
          intro c hc
          rcases List.mem_cons.1 hc with hc | hc
          · subst hc; exact ⟨hx47, hx0⟩
          · exact hnorm c hc

/-- C4: for every path whose first component is longer than 201 bytes,
`echfs_path_resolve` returns null with error code 2, the name-too-long bit
alone.  The result is the same for every directory and every lookup budget,
the empty budget included: no directory lookup takes part in it. -/
theorem echfs_path_resolve_name_too_long (ROOT_DIR_ID SEARCH_FAIL : Nat) (dir : Directory)
    (fuel : Nat) (filename : List Nat) (hlong : 201 < (first_component filename).length) :
    echfs_path_resolve ROOT_DIR_ID SEARCH_FAIL dir fuel filename = some (none, 2) ∧
    echfs_path_resolve ROOT_DIR_ID SEARCH_FAIL dir 0 filename = some (none, 2) := by
  have key : ∀ f, echfs_path_resolve ROOT_DIR_ID SEARCH_FAIL dir f filename
      = some (none, 2) := by
    intro f
    unfold first_component path_body at hlong
    unfold echfs_path_resolve
    generalize (if deref filename = 47 then filename.tail else filename) = body at hlong ⊢
    obtain ⟨pre, rest, hl, hlen, hnorm, h0, _⟩ := long_first_component 201 body hlong
    subst hl
    simp only []
    have hpre : pre ≠ [] := by
      intro h; rw [h] at hlen; simp at hlen
    obtain ⟨p0, pre2, rfl⟩ := List.exists_cons_of_ne_nil hpre
    obtain ⟨hp47, hp0⟩ := hnorm p0 (List.mem_cons_self _ _)
    have hroot : ¬ strcmp (p0 :: pre2 ++ rest) [47] = 0 := by
      rw [strcmp_eq_zero_iff, List.cons_append, cstr_cons_ne _ _ hp0,
        cstr_cons_ne 47 [] (by decide), cstr_nil]
      intro h
      exact hp47 (List.cons.inj h).1
    rw [if_neg hroot]
    exact resolve_loop_too_long SEARCH_FAIL dir f rest ROOT_DIR_ID h0 (p0 :: pre2) []
      hnorm hpre (by simp at hlen ⊢; omega)
  exact ⟨key fuel, key 0⟩

set_option maxRecDepth 8000 in
/-- C4, at a concrete path: a first component of 205 letters. -/
theorem echfs_path_resolve_name_too_long_witness :
    201 < (first_component (47 :: List.replicate 205 97)).length ∧
    echfs_path_resolve ALL_ONES ALL_ONES sample_dir 0 (47 :: List.replicate 205 97)
      = some (none, 2) :=
  ⟨by decide,
    (echfs_path_resolve_name_too_long ALL_ONES ALL_ONES sample_dir 0
      (47 :: List.replicate 205 97) (by decide)).2⟩

set_option maxRecDepth 8000 in
/-- C3 (the code at the failing input): on the path `/` followed by 201 letters
and `/x`, whose components are 201 bytes and 1 byte long, `echfs_path_resolve`
returns null with the name-too-long bit, whatever the directory holds. -/
theorem echfs_path_resolve_rejects_201_intermediate (ROOT_DIR_ID SEARCH_FAIL : Nat)
    (dir : Directory) (fuel : Nat) :
    path_components long_intermediate_path = [List.replicate 201 97, [120]] ∧
    echfs_path_resolve ROOT_DIR_ID SEARCH_FAIL dir fuel long_intermediate_path
      = some (none, 2) := by
  constructor
  · decide
  · unfold echfs_path_resolve long_intermediate_path
    have hd : deref (47 :: (List.replicate 201 97 ++ [47, 120])) = 47 := rfl
    simp only [hd, if_true, List.tail_cons]
    have hroot : ¬ strcmp (List.replicate 201 97 ++ [47, 120]) [47] = 0 := by decide
    rw [if_neg hroot]
    exact resolve_loop_too_long SEARCH_FAIL dir fuel [47, 120] ROOT_DIR_ID (by decide)
      (List.replicate 201 97) []
      (fun c hc => by rw [List.eq_of_mem_replicate hc]; decide) (by simp) (by simp)

/-- C5 (the code at the failing input): on the literal path `/` the leading
slash is skipped first, so the comparison with `"/"` sees the empty string and
fails; the call looks up the empty name below the root and ends with error
code 0 or 4, never with the root-entry bit.  On a directory that holds only
the end marker it returns null with the search-failure bit.  The root-entry
bit is what the path `//` gets. -/
theorem echfs_path_resolve_slash_misses_root_bit (ROOT_DIR_ID SEARCH_FAIL : Nat)
    (dir : Directory) (fuel : Nat) :
    echfs_path_resolve ROOT_DIR_ID SEARCH_FAIL dir fuel [47]
      = resolve_last SEARCH_FAIL dir fuel [] ROOT_DIR_ID ∧
    (∀ r, echfs_path_resolve ROOT_DIR_ID SEARCH_FAIL dir fuel [47] = some r →
      r.2 = 0 ∨ r.2 = 4) ∧
    echfs_path_resolve ALL_ONES ALL_ONES (directory_of_list []) 1 [47] = some (none, 4) ∧
    echfs_path_resolve ROOT_DIR_ID SEARCH_FAIL dir fuel [47, 47] = some (none, 1) := by
  have h1 : echfs_path_resolve ROOT_DIR_ID SEARCH_FAIL dir fuel [47]
      = resolve_last SEARCH_FAIL dir fuel [] ROOT_DIR_ID := by
    unfold echfs_path_resolve
    have hd : deref [47] = 47 := rfl
    have hroot : ¬ strcmp [] [47] = 0 := by decide
    simp only [hd, if_true, List.tail_cons, if_neg hroot]
    rw [echfs_path_resolve_loop]
  refine ⟨h1, ?_, by decide, ?_⟩
  · intro r hr
    rw [h1] at hr
    unfold resolve_last at hr
    cases hfind : echfs_find_entry_name_parent SEARCH_FAIL dir fuel [] ROOT_DIR_ID with
    | none => rw [hfind] at hr; cases hr
    | some found =>
      rw [hfind] at hr
      by_cases hsf : found = SEARCH_FAIL
      · simp [hsf] at hr
        right; rw [← hr]; exact err_search_fail
      · simp [hsf] at hr
        left; rw [← hr]
  · unfold echfs_path_resolve
    have hd : deref [47, 47] = 47 := rfl
    have hroot : strcmp [47] [47] = 0 := by decide
    simp only [hd, if_true, List.tail_cons, if_pos hroot, err_root_entry]

/-- With the end marker as entry `m` and nothing matching up to it, the lookup
fails. -/
theorem find_fails_of_no_match (SEARCH_FAIL : Nat) (dir : Directory) (m fuel : Nat)
    (hm : (dir m).parent_id = 0) (hfirst : ∀ k, k < m → (dir k).parent_id ≠ 0)
    (hfuel : m < fuel) (name : List Nat) (parent : Nat) (hname : ∀ c ∈ name, c ≠ 0)
    (hno : ∀ n, n ≤ m → ¬ entry_matches dir parent name n) :
    echfs_find_entry_name_parent SEARCH_FAIL dir fuel name parent = some SEARCH_FAIL := by
  unfold echfs_find_entry_name_parent
  apply find_loop_miss SEARCH_FAIL dir name parent m hm
    (by rw [cstr_eq_self name hname]; exact hno m (Nat.le_refl _)) fuel 0 (Nat.zero_le _)
  · intro i _ hi
    rw [cstr_eq_self name hname]
    exact ⟨hno i (by omega), hfirst i hi⟩
  · omega

/-- With the end marker as entry `m`, the lookup returns the first matching
entry among the entries `0 .. m`. -/
theorem find_hits_first_match (SEARCH_FAIL : Nat) (dir : Directory) (m fuel : Nat)
    (hfirst : ∀ k, k < m → (dir k).parent_id ≠ 0)
    (hfuel : m < fuel) (name : List Nat) (parent : Nat) (hname : ∀ c ∈ name, c ≠ 0)
    (n : Nat) (hn : n ≤ m) (hhit : entry_matches dir parent name n)
    (hmin : ∀ k, k < n → ¬ entry_matches dir parent name k) :
    echfs_find_entry_name_parent SEARCH_FAIL dir fuel name parent = some n := by
  unfold echfs_find_entry_name_parent
  apply find_loop_first_hit SEARCH_FAIL dir name parent n
    (by rw [cstr_eq_self name hname]; exact hhit) fuel 0 (Nat.zero_le _)
  · intro i _ hi
    rw [cstr_eq_self name hname]
    exact ⟨hmin i hi, hfirst i (by omega)⟩
  · omega

/-- The final lookup fails with the search bit when the walk over the single
remaining component fails. -/
theorem resolve_last_fails (SEARCH_FAIL : Nat) (dir : Directory) (m fuel : Nat)
    (hm : (dir m).parent_id = 0) (hfirst : ∀ k, k < m → (dir k).parent_id ≠ 0)
    (hfuel : m < fuel) (name : List Nat) (parent : Nat) (hname : ∀ c ∈ name, c ≠ 0)
    (hfail : walk_fails dir m parent [name]) :
    resolve_last SEARCH_FAIL dir fuel name parent = some (none, 4) := by
  have hno : ∀ n, n ≤ m → ¬ entry_matches dir parent name n := by
    simp only [walk_fails] at hfail
    rcases hfail with h | h
    · exact h
    · exact absurd rfl h.1
  unfold resolve_last
  rw [find_fails_of_no_match SEARCH_FAIL dir m fuel hm hfirst hfuel name parent hname hno]
  simp [ERR_SEARCH_FAIL_eq]

/-- The component walk ends with null and the search bit when the walk over
the remaining components fails and no component reaches 201 bytes. -/
theorem resolve_loop_fails (SEARCH_FAIL : Nat) (dir : Directory) (m fuel : Nat)
    (hm : (dir m).parent_id = 0) (hfirst : ∀ k, k < m → (dir k).parent_id ≠ 0)
    (hfuel : m < fuel) :
    ∀ (filename name : List Nat) (parent : Nat), (∀ c ∈ name, c ≠ 0) →
      (∀ c ∈ split_slash name (cstr filename), c.length < 201) →
      walk_fails dir m parent (split_slash name (cstr filename)) →
      echfs_path_resolve_loop SEARCH_FAIL dir fuel filename name parent = some (none, 4) := by
  intro filename
  induction filename with
  | nil =>
    intro name parent hname _ hfail
    rw [echfs_path_resolve_loop]
    exact resolve_last_fails SEARCH_FAIL dir m fuel hm hfirst hfuel name parent hname hfail
  | cons c rest ih =>
    intro name parent hname hshort hfail
    rw [echfs_path_resolve_loop]
    by_cases hc : c = 47
    · subst hc
      simp only [if_true]
      rw [cstr_cons_ne 47 rest (by decide), split_slash_slash] at hfail hshort
      simp only [walk_fails] at hfail
      rcases hfail with hno | ⟨_, n, hn, hhit, hmin, hrest⟩
      · rw [find_fails_of_no_match SEARCH_FAIL dir m fuel hm hfirst hfuel name parent hname hno]
        simp [ERR_SEARCH_FAIL_eq]
      · rw [find_hits_first_match SEARCH_FAIL dir m fuel hfirst hfuel name parent hname n hn
          hhit hmin]
        by_cases hsf : n = SEARCH_FAIL
        · simp [hsf, ERR_SEARCH_FAIL_eq]
        · by_cases hty : (dir n).entry_type = 1
          · simp only [ne_eq, hsf, not_false_eq_true, if_true, hty, not_true_eq_false, if_false]
            apply ih [] (dir n).starting_block (by simp)
            · intro x hx; exact hshort x (List.mem_cons_of_mem _ hx)
            · rcases hrest with h | h
              · exact absurd hty h
              · exact h
          · simp [hsf, hty, ERR_SEARCH_FAIL_eq]
    · simp only [hc, if_false]
      by_cases hz : c = 0
      · subst hz
        simp only [if_true]
        rw [cstr_cons_zero] at hfail
        exact resolve_last_fails SEARCH_FAIL dir m fuel hm hfirst hfuel name parent hname hfail
      · simp only [hz, if_false]
        rw [cstr_cons_ne c rest hz, split_slash_other name (cstr rest) c hc] at hfail hshort
        have hlen : (name ++ [c]).length < 201 := by
          obtain ⟨c1, cs, hsplit, hle⟩ := split_slash_head (cstr rest) (name ++ [c])
          have := hshort c1 (by rw [hsplit]; exact List.mem_cons_self _ _)
          omega
        have hlong : ¬ ((name ++ [c]).length = 201 ∧ deref rest ≠ 0) := by
          intro h; omega
        rw [if_neg hlong]
        apply ih (name ++ [c]) parent _ hshort hfail
        intro x hx
        rcases List.mem_append.1 hx with hx | hx
        · exact hname x hx
        · simp at hx; subst hx; exact hz

/-- C6 (as stated, refuted).  First, the path `//` has two empty components,
the directory holding only the end marker has no entry for them, and the call
ends with the root-entry bit, not the search bit.  Second, in a directory
whose end marker (entry 1) carries parent id 0 and the name `b`, the path
`/a/b` reaches parent id 0 through the directory `a`; no entry before the end
marker matches `b`, yet the scan tests the end marker itself before it stops
and the call returns that entry with error code 0. -/
theorem echfs_path_resolve_search_fail_refuted :
    ((directory_of_list [] 0).parent_id = 0 ∧
      path_components [47, 47] = [[], []] ∧
      (∀ n, n ≤ 0 → ¬ entry_matches (directory_of_list []) ALL_ONES [] n) ∧
      echfs_path_resolve ALL_ONES ALL_ONES (directory_of_list []) 1 [47, 47]
        = some (none, 1)) ∧
    ((marker_dir 1).parent_id = 0 ∧ (marker_dir 0).parent_id ≠ 0 ∧
      path_components [47, 97, 47, 98] = [[97], [98]] ∧
      entry_matches marker_dir ALL_ONES [97] 0 ∧
      (marker_dir 0).entry_type = 1 ∧ (marker_dir 0).starting_block = 0 ∧
      (∀ n, n < 1 → ¬ entry_matches marker_dir 0 [98] n) ∧
      echfs_path_resolve ALL_ONES ALL_ONES marker_dir 2 [47, 97, 47, 98]
        = some (some (marker_dir 1), 0)) := by
  decide

/-- C6 (amended): for every path other than the root paths (a path body that
is empty or `/`) whose components are all shorter than 201 bytes, in a
directory whose end marker is entry `m`: if the walk fails, that is, some
component reached has no matching entry among the entries up to and including
the end marker, or the first entry matching a non-final component is not of
type 1, then `echfs_path_resolve` returns null and the error code is 4, the
search bit alone. -/
theorem echfs_path_resolve_search_fail (ROOT_DIR_ID SEARCH_FAIL : Nat) (dir : Directory)
    (m fuel : Nat) (filename : List Nat)
    (hm : (dir m).parent_id = 0) (hfirst : ∀ k, k < m → (dir k).parent_id ≠ 0)
    (hfuel : m < fuel)
    (hnotroot : path_body filename ≠ [] ∧ path_body filename ≠ [47])
    (hshort : ∀ c ∈ path_components filename, c.length < 201)
    (hfail : walk_fails dir m ROOT_DIR_ID (path_components filename)) :
    echfs_path_resolve ROOT_DIR_ID SEARCH_FAIL dir fuel filename = some (none, 4) := by
  unfold echfs_path_resolve
  have hroot : ¬ strcmp (if deref filename = 47 then filename.tail else filename) [47] = 0 := by
    rw [strcmp_eq_zero_iff]
    intro h
    apply hnotroot.2
    unfold path_body
    rw [h]; decide
  simp only [if_neg hroot]
  exact resolve_loop_fails SEARCH_FAIL dir m fuel hm hfirst hfuel _ [] ROOT_DIR_ID (by simp)
    hshort hfail

/-- C6 (amended), at a concrete directory: `/a/c` fails on the missing file
`c`, and `/a/b/c` fails because `b` is a file. -/
theorem echfs_path_resolve_search_fail_witness :
    echfs_path_resolve ALL_ONES ALL_ONES sample_dir 3 [47, 97, 47, 99] = some (none, 4) ∧
    echfs_path_resolve ALL_ONES ALL_ONES sample_dir 3 [47, 97, 47, 98, 47, 99]
      = some (none, 4) := by
  constructor
  · apply echfs_path_resolve_search_fail ALL_ONES ALL_ONES sample_dir 2 3 [47, 97, 47, 99]
    · decide
    · decide
    · decide
    · decide
    · decide
    · have hc : path_components [47, 97, 47, 99] = [[97], [99]] := by decide
      rw [hc]
      simp only [walk_fails]
      right
      refine ⟨by simp, 0, by decide, by decide, by decide, ?_⟩
      right; left
      decide
  · apply echfs_path_resolve_search_fail ALL_ONES ALL_ONES sample_dir 2 3
      [47, 97, 47, 98, 47, 99]
    · decide
    · decide
    · decide
    · decide
    · decide
    · have hc : path_components [47, 97, 47, 98, 47, 99] = [[97], [98], [99]] := by decide
      rw [hc]
      simp only [walk_fails]
      right
      refine ⟨by simp, 0, by decide, by decide, by decide, ?_⟩
      right; right
      refine ⟨by simp, 1, by decide, by decide, by decide, ?_⟩
      left
      decide

/-! ## Theorems: the lookup by name and parent -/

/-- C19: in a directory whose end marker (the first entry with `parent_id == 0`)
is entry `e`, `echfs_find_entry_name_parent` returns with a budget of `e + 1`
entries to read, and with the same value for every larger budget.  The value
is the smallest `n <= e` such that entry `n` has the given parent id and
name, or `ECHFS_SEARCH_FAIL` when no entry up to `e` has; an index beyond the
end marker is never returned. -/
theorem echfs_find_entry_name_parent_first_match (SEARCH_FAIL : Nat) (dir : Directory)
    (e : Nat) (name : List Nat) (parent_id : Nat)
    (hend : (dir e).parent_id = 0) (hfirst : ∀ k, k < e → (dir k).parent_id ≠ 0) :
    ∃ r, echfs_find_entry_name_parent SEARCH_FAIL dir (e + 1) name parent_id = some r ∧
      (∀ fuel, e < fuel →
        echfs_find_entry_name_parent SEARCH_FAIL dir fuel name parent_id = some r) ∧
      ((r ≤ e ∧ entry_matches dir parent_id (cstr name) r ∧
          ∀ k, k < r → ¬ entry_matches dir parent_id (cstr name) k) ∨
        (r = SEARCH_FAIL ∧ ∀ n, n ≤ e → ¬ entry_matches dir parent_id (cstr name) n)) := by
  by_cases hex : ∃ n, n ≤ e ∧ entry_matches dir parent_id (cstr name) n
  · have hspec := Nat.find_spec hex
    have hmin : ∀ k, k < Nat.find hex → ¬ entry_matches dir parent_id (cstr name) k := by
      intro k hk hm
      exact Nat.find_min hex hk ⟨by omega, hm⟩
    have hrun : ∀ fuel, e < fuel →
        echfs_find_entry_name_parent SEARCH_FAIL dir fuel name parent_id
          = some (Nat.find hex) := by
      intro fuel hf
      unfold echfs_find_entry_name_parent
      apply find_loop_first_hit SEARCH_FAIL dir name parent_id (Nat.find hex) hspec.2 fuel 0
        (Nat.zero_le _)
      · intro i _ hi
        exact ⟨hmin i hi, hfirst i (by omega)⟩
      · omega
    exact ⟨Nat.find hex, hrun (e + 1) (by omega), hrun, Or.inl ⟨hspec.1, hspec.2, hmin⟩⟩
  · have hno : ∀ n, n ≤ e → ¬ entry_matches dir parent_id (cstr name) n :=
      fun n hn hm => hex ⟨n, hn, hm⟩
    have hrun : ∀ fuel, e < fuel →
        echfs_find_entry_name_parent SEARCH_FAIL dir fuel name parent_id
          = some SEARCH_FAIL := by
      intro fuel hf
      unfold echfs_find_entry_name_parent
      apply find_loop_miss SEARCH_FAIL dir name parent_id e hend (hno e (Nat.le_refl _)) fuel 0
        (Nat.zero_le _)
      · intro i _ hi
        exact ⟨hno i (by omega), hfirst i hi⟩
      · omega
    exact ⟨SEARCH_FAIL, hrun (e + 1) (by omega), hrun, Or.inr ⟨rfl, hno⟩⟩

/-- C19, at a concrete directory: the file `b` below the directory with id 5
is entry 1, found within the three entries up to the end marker. -/
theorem echfs_find_entry_name_parent_first_match_witness :
    (sample_dir 2).parent_id = 0 ∧ (∀ k, k < 2 → (sample_dir k).parent_id ≠ 0) ∧
    echfs_find_entry_name_parent ALL_ONES sample_dir 3 [98] 5 = some 1 ∧
    ∃ r, echfs_find_entry_name_parent ALL_ONES sample_dir (2 + 1) [98] 5 = some r ∧
      (∀ fuel, 2 < fuel →
        echfs_find_entry_name_parent ALL_ONES sample_dir fuel [98] 5 = some r) ∧
      ((r ≤ 2 ∧ entry_matches sample_dir 5 (cstr [98]) r ∧
          ∀ k, k < r → ¬ entry_matches sample_dir 5 (cstr [98]) k) ∨
        (r = ALL_ONES ∧ ∀ n, n ≤ 2 → ¬ entry_matches sample_dir 5 (cstr [98]) n)) :=
  ⟨by decide, by decide, by decide,
    echfs_find_entry_name_parent_first_match ALL_ONES sample_dir 2 [98] 5 (by decide)
      (by decide)⟩

/-! ## Theorems: stores to the component buffer -/

/-- The walk with the store list returns what the walk returns. -/
theorem echfs_path_resolve_stores_loop_fst (SEARCH_FAIL : Nat) (dir : Directory) (fuel : Nat) :
    ∀ (filename name : List Nat) (parent : Nat) (stores : List Nat),
      (echfs_path_resolve_stores_loop SEARCH_FAIL dir fuel filename name parent stores).1 =
        echfs_path_resolve_loop SEARCH_FAIL dir fuel filename name parent := by
  intro filename
  induction filename with
  | nil => intro name parent stores; rfl
  | cons c rest ih =>
    intro name parent stores
    rw [echfs_path_resolve_stores_loop, echfs_path_resolve_loop]
    by_cases hc : c = 47
    · simp only [hc, if_true]
      cases echfs_find_entry_name_parent SEARCH_FAIL dir fuel name parent with
      | none => rfl
      | some found =>
        simp only []
        by_cases hsf : found = SEARCH_FAIL
        · simp [hsf]
        · by_cases hty : (dir found).entry_type = 1
          · simp [hsf, hty, ih]
          · simp [hsf, hty]
    · by_cases hz : c = 0
      · simp [hc, hz]
      · by_cases hlong : (name ++ [c]).length = 201 ∧ deref rest ≠ 0
        · simp only [hc, hz, if_false, if_pos hlong]
        · simp only [hc, hz, if_false, if_neg hlong]
          exact ih _ _ _

/-- `echfs_path_resolve_stores` returns what `echfs_path_resolve` returns. -/
theorem echfs_path_resolve_stores_fst (ROOT_DIR_ID SEARCH_FAIL : Nat) (dir : Directory)
    (fuel : Nat) (filename : List Nat) :
    (echfs_path_resolve_stores ROOT_DIR_ID SEARCH_FAIL dir fuel filename).1 =
      echfs_path_resolve ROOT_DIR_ID SEARCH_FAIL dir fuel filename := by
  unfold echfs_path_resolve_stores echfs_path_resolve
  by_cases hroot : strcmp (if deref filename = 47 then filename.tail else filename) [47] = 0
  · simp only [if_pos hroot]
  · simp only [if_neg hroot]
    exact echfs_path_resolve_stores_loop_fst _ _ _ _ _ _ _

/-- Stores made so far stay in the list. -/
theorem echfs_path_resolve_stores_loop_mono (SEARCH_FAIL : Nat) (dir : Directory)
    (fuel : Nat) (x : Nat) :
    ∀ (filename name : List Nat) (parent : Nat) (stores : List Nat), x ∈ stores →
      x ∈ (echfs_path_resolve_stores_loop SEARCH_FAIL dir fuel filename name parent stores).2 := by
  intro filename
  induction filename with
  | nil => intro name parent stores hx; exact hx
  | cons c rest ih =>
    intro name parent stores hx
    rw [echfs_path_resolve_stores_loop]
    by_cases hc : c = 47
    · simp only [hc, if_true]
      cases echfs_find_entry_name_parent SEARCH_FAIL dir fuel name parent with
      | none => exact hx
      | some found =>
        simp only []
        by_cases hsf : found = SEARCH_FAIL
        · simpa [hsf] using hx
        · by_cases hty : (dir found).entry_type = 1
          · simp only [ne_eq, hsf, not_false_eq_true, if_true, hty, not_true_eq_false, if_false]
            exact ih _ _ _ (List.mem_append_left _ hx)
          · simpa [hsf, hty] using hx
    · by_cases hz : c = 0
      · simpa [hc, hz] using hx
      · by_cases hlong : (name ++ [c]).length = 201 ∧ deref rest ≠ 0
        · simp only [hc, hz, if_false, if_pos hlong]
          exact List.mem_append_left _ hx
        · simp only [hc, hz, if_false, if_neg hlong]
          exact ih _ _ _ (List.mem_append_left _ hx)

/-- A component that reaches 201 bytes makes the walk store at index 201. -/
theorem echfs_path_resolve_stores_loop_201 (SEARCH_FAIL : Nat) (dir : Directory) (fuel : Nat)
    (rest : List Nat) (parent : Nat) :
    ∀ (comp name stores : List Nat), (∀ c ∈ comp, c ≠ 47 ∧ c ≠ 0) → comp ≠ [] →
      name.length + comp.length = 201 →
      201 ∈ (echfs_path_resolve_stores_loop SEARCH_FAIL dir fuel (comp ++ rest) name parent
        stores).2 := by
  intro comp
  induction comp with
  | nil => intro name stores _ h; exact absurd rfl h
  | cons c comp ih =>
    intro name stores hnorm _ hlen
    obtain ⟨hc47, hc0⟩ := hnorm c (List.mem_cons_self _ _)
    rw [List.cons_append, echfs_path_resolve_stores_loop]
    simp only [hc47, hc0, if_false]
    by_cases hcomp : comp = []
    · subst hcomp
      have hl : name.length + 1 = 201 := by simpa using hlen
      have hmem : 201 ∈ stores ++ [name.length, name.length + 1] := by
        rw [hl]; simp
      by_cases hlong : (name ++ [c]).length = 201 ∧ deref ([] ++ rest) ≠ 0
      · rw [if_pos hlong]; exact hmem
      · rw [if_neg hlong]
        exact echfs_path_resolve_stores_loop_mono _ _ _ _ _ _ _ _ hmem
    · have hpos : 0 < comp.length := List.length_pos.2 hcomp
      have hl : ¬ ((name ++ [c]).length = 201 ∧ deref (comp ++ rest) ≠ 0) := by
        simp at hlen ⊢; intro h; omega
      rw [if_neg hl]
      apply ih (name ++ [c]) _ (fun x hx => hnorm x (List.mem_cons_of_mem _ hx)) hcomp
      simp at hlen ⊢; omega

set_option maxRecDepth 8000 in
/-- C20 (the code at the failing input): on the path `/` followed by 201
letters, whose only component is exactly 201 bytes long, `echfs_path_resolve`
stores to index 201 of `current_name`, one past the last valid index 200,
whatever the directory holds; the same happens for every path whose first
component is longer than 201 bytes. -/
theorem echfs_path_resolve_stores_past_buffer (ROOT_DIR_ID SEARCH_FAIL : Nat)
    (dir : Directory) (fuel : Nat) :
    path_components long_last_path = [List.replicate 201 97] ∧
    201 ∈ (echfs_path_resolve_stores ROOT_DIR_ID SEARCH_FAIL dir fuel long_last_path).2 ∧
    ∀ filename, 201 < (first_component filename).length →
      201 ∈ (echfs_path_resolve_stores ROOT_DIR_ID SEARCH_FAIL dir fuel filename).2 := by
  refine ⟨by decide, ?_, ?_⟩
  · unfold echfs_path_resolve_stores long_last_path
    have hd : deref (47 :: List.replicate 201 97) = 47 := rfl
    simp only [hd, if_true, List.tail_cons]
    have hroot : ¬ strcmp (List.replicate 201 97) [47] = 0 := by decide
    rw [if_neg hroot]
    have := echfs_path_resolve_stores_loop_201 SEARCH_FAIL dir fuel [] ROOT_DIR_ID
      (List.replicate 201 97) [] [0]
      (fun c hc => by rw [List.eq_of_mem_replicate hc]; decide) (by simp) (by simp)
    simpa using this
  · intro filename hlong
    unfold first_component path_body at hlong
    unfold echfs_path_resolve_stores
    generalize (if deref filename = 47 then filename.tail else filename) = body at hlong ⊢
    obtain ⟨pre, rest, hl, hlen, hnorm, h0, _⟩ := long_first_component 201 body hlong
    subst hl
    have hpre : pre ≠ [] := by
      intro h; rw [h] at hlen; simp at hlen
    obtain ⟨p0, pre2, rfl⟩ := List.exists_cons_of_ne_nil hpre
    obtain ⟨hp47, hp0⟩ := hnorm p0 (List.mem_cons_self _ _)
    have hroot : ¬ strcmp (p0 :: pre2 ++ rest) [47] = 0 := by
      rw [strcmp_eq_zero_iff, List.cons_append, cstr_cons_ne _ _ hp0,
        cstr_cons_ne 47 [] (by decide), cstr_nil]
      intro h
      exact hp47 (List.cons.inj h).1
    simp only [if_neg hroot]
    exact echfs_path_resolve_stores_loop_201 SEARCH_FAIL dir fuel rest ROOT_DIR_ID
      (p0 :: pre2) [] [0] hnorm hpre (by simp at hlen ⊢; omega)

/-! ## Theorems: the timer tick -/

/-- Two ticks in a row with scheduling enabled reach `schedule_bsp` once. -/
theorem timer_handler_two_ticks (g en count : Nat) (hen : en ≠ 0) :
    ∃ g2, timer_handler Nat.succ (timer_handler Nat.succ ⟨g, en, count⟩) =
      ⟨g2, en, count + 1⟩ := by
  by_cases hpar : u64 (g + 1) % 2 = 0
  · have h2 : ¬ (u64 (u64 (g + 1) + 1) % 2 = 0) := by
      unfold u64 at hpar ⊢; omega
    refine ⟨u64 (u64 (g + 1) + 1), ?_⟩
    simp only [timer_handler, hpar, hen, ne_eq, not_false_eq_true, and_self, if_true, h2,
      false_and, if_false, Nat.succ_eq_add_one]
  · have h2 : u64 (u64 (g + 1) + 1) % 2 = 0 := by
      unfold u64 at hpar ⊢; omega
    refine ⟨u64 (u64 (g + 1) + 1), ?_⟩
    simp only [timer_handler, hpar, hen, ne_eq, not_false_eq_true, false_and, if_false, h2,
      and_self, if_true, Nat.succ_eq_add_one]

/-- Over `2 * n` ticks in a row with scheduling enabled `schedule_bsp` is
reached `n` times. -/
theorem timer_handler_even_ticks (en : Nat) (hen : en ≠ 0) :
    ∀ (n g count : Nat),
      ((timer_handler Nat.succ)^[2 * n] ⟨g, en, count⟩).sched = count + n ∧
      ((timer_handler Nat.succ)^[2 * n] ⟨g, en, count⟩).scheduler_enabled = en := by
  intro n
  induction n with
  | zero => intro g count; exact ⟨rfl, rfl⟩
  | succ n ih =>
    intro g count
    have e : 2 * (n + 1) = (2 * n + 1) + 1 := by ring
    rw [e, Function.iterate_succ_apply, Function.iterate_succ_apply]
    obtain ⟨g2, hg2⟩ := timer_handler_two_ticks g en count hen
    rw [hg2]
    obtain ⟨h1, h2⟩ := ih g2 (count + 1)
    exact ⟨by rw [h1]; ring, h2⟩

/-- C17: every call of `timer_handler` increases the tick counter by exactly 1
modulo `2 ^ 64` and leaves `scheduler_enabled` alone, whether or not scheduling
is enabled; it calls `schedule_bsp` exactly when `scheduler_enabled` is
non-zero and the incremented counter is even (otherwise the state
`schedule_bsp` acts on is untouched); two calls in a row never both reach
`schedule_bsp`; and over `2 * n` calls in a row with scheduling enabled
`schedule_bsp` is reached exactly `n` times. -/
theorem timer_handler_every_second_tick {σ : Type} (schedule_bsp : σ → σ) (k : timer_t σ) :
    (timer_handler schedule_bsp k).global_ticks = (k.global_ticks + 1) % 2 ^ 64 ∧
    (timer_handler schedule_bsp k).scheduler_enabled = k.scheduler_enabled ∧
    (timer_invokes k ↔
      (k.scheduler_enabled ≠ 0 ∧ (timer_handler schedule_bsp k).global_ticks % 2 = 0)) ∧
    (timer_invokes k → (timer_handler schedule_bsp k).sched = schedule_bsp k.sched) ∧
    (¬ timer_invokes k → (timer_handler schedule_bsp k).sched = k.sched) ∧
    ¬ (timer_invokes k ∧ timer_invokes (timer_handler schedule_bsp k)) ∧
    (k.scheduler_enabled ≠ 0 → ∀ (n count : Nat),
      ((timer_handler Nat.succ)^[2 * n]
        ⟨k.global_ticks, k.scheduler_enabled, count⟩).sched = count + n) := by
  have hticks : (timer_handler schedule_bsp k).global_ticks = (k.global_ticks + 1) % 2 ^ 64 := by
    unfold timer_handler
    by_cases h : u64 (k.global_ticks + 1) % 2 = 0 ∧ k.scheduler_enabled ≠ 0
    · simp only [if_pos h]; rfl
    · simp only [if_neg h]; rfl
  have hen : (timer_handler schedule_bsp k).scheduler_enabled = k.scheduler_enabled := by
    unfold timer_handler
    by_cases h : u64 (k.global_ticks + 1) % 2 = 0 ∧ k.scheduler_enabled ≠ 0
    · simp only [if_pos h]
    · simp only [if_neg h]
  refine ⟨hticks, hen, ?_, ?_, ?_, ?_, ?_⟩
  · rw [hticks]
    unfold timer_invokes u64
    constructor
    · rintro ⟨h1, h2⟩; exact ⟨h2, h1⟩
    · rintro ⟨h1, h2⟩; exact ⟨h2, h1⟩
  · intro h
    unfold timer_invokes at h
    unfold timer_handler
    simp only [if_pos h]
  · intro h
    unfold timer_invokes at h
    unfold timer_handler
    simp only [if_neg h]
  · rintro ⟨⟨h1, _⟩, ⟨h2, _⟩⟩
    rw [hticks] at h2
    unfold u64 at h1 h2
    omega
  · intro hne n count
    exact (timer_handler_even_ticks k.scheduler_enabled hne n k.global_ticks count).1

/-- C17, at a concrete counter: starting from tick 5 with scheduling enabled,
six ticks reach `schedule_bsp` three times. -/
theorem timer_handler_every_second_tick_witness :
    ((timer_handler Nat.succ)^[2 * 3] ⟨5, 1, 0⟩).sched = 0 + 3 :=
  (timer_handler_every_second_tick Nat.succ ⟨5, 1, 0⟩).2.2.2.2.2.2 (by decide) 3 0

/-! ## Theorems: file read -/

/-- C18 (the code at the failing input): beneath a registered mountpoint
`echfs_read` returns 0 and leaves the buffer and `errno` as they were, for
every seek offset, count and buffer; it does so for a descriptor of the
15-byte file `hello.txt` at offset 0 read with a count of 100 (the claim
expects 15 and the file's bytes) and for a read of 15 bytes that ends exactly
at the end of that file (the claim expects 15). -/
theorem echfs_read_returns_zero (filesystem : echfs_filesystem_t) (ENOENT : Int)
    (node_name : List Nat) (unid mountpoint_unid seek : Nat) (mode : Int)
    (buf : List Nat) (count : Nat) (errno : Int) :
    echfs_read (fun k => if k = mountpoint_unid then some filesystem else none) ENOENT
        ⟨⟨node_name, unid, some mountpoint_unid⟩, seek, mode⟩ buf count errno
      = Run.ret (0, buf, errno) ∧
    echfs_read (fun k => if k = 1 then some (filesystem_with_block_size 512) else none) 2
        ⟨⟨[104, 101, 108, 108, 111, 46, 116, 120, 116], 2, some 1⟩, 0, 0⟩
        (List.replicate 100 0) 100 0
      = Run.ret (0, List.replicate 100 0, 0) ∧
    echfs_read (fun k => if k = 1 then some (filesystem_with_block_size 512) else none) 2
        ⟨⟨[104, 101, 108, 108, 111, 46, 116, 120, 116], 2, some 1⟩, 0, 0⟩
        (List.replicate 15 0) 15 0
      = Run.ret (0, List.replicate 15 0, 0) := by
  refine ⟨?_, ?_, ?_⟩ <;> simp [echfs_read]

/-! ## Theorems: thread creation -/

/-- C15: for every ring value `create_thread` returns a task with `rip` the
entry point, `rsp` as given, `rflags = 0x202`, `cr3 = base_kernel_cr3`, the
given ring and state `READY`; the selectors are `cs = 0x1B`, `ss = 0x23` for
ring 3 and `cs = 0x08`, `ss = 0x10` for every other ring, ring 0 included; and
the `meta_pointer` of its thread-local block is the block's own address
`regs.fs`. -/
theorem create_thread_frame (base_kernel_cr3 kernel_stack_block thread_info_addr : Nat)
    (name : List Nat) (main rsp ring : Nat) :
    (create_thread base_kernel_cr3 kernel_stack_block thread_info_addr name main rsp
      ring).1.regs.rip = main ∧
    (create_thread base_kernel_cr3 kernel_stack_block thread_info_addr name main rsp
      ring).1.regs.rsp = rsp ∧
    (create_thread base_kernel_cr3 kernel_stack_block thread_info_addr name main rsp
      ring).1.regs.rflags = 0x202 ∧
    (create_thread base_kernel_cr3 kernel_stack_block thread_info_addr name main rsp
      ring).1.regs.cr3 = base_kernel_cr3 ∧
    (create_thread base_kernel_cr3 kernel_stack_block thread_info_addr name main rsp
      ring).1.ring = ring ∧
    (create_thread base_kernel_cr3 kernel_stack_block thread_info_addr name main rsp
      ring).1.state = task_state_t.READY ∧
    (ring = 3 →
      (create_thread base_kernel_cr3 kernel_stack_block thread_info_addr name main rsp
        ring).1.regs.cs = 0x1B ∧
      (create_thread base_kernel_cr3 kernel_stack_block thread_info_addr name main rsp
        ring).1.regs.ss = 0x23) ∧
    (ring ≠ 3 →
      (create_thread base_kernel_cr3 kernel_stack_block thread_info_addr name main rsp
        ring).1.regs.cs = 0x08 ∧
      (create_thread base_kernel_cr3 kernel_stack_block thread_info_addr name main rsp
        ring).1.regs.ss = 0x10) ∧
    (create_thread base_kernel_cr3 kernel_stack_block thread_info_addr name main rsp
      ring).2.meta_pointer =
      (create_thread base_kernel_cr3 kernel_stack_block thread_info_addr name main rsp
        ring).1.regs.fs := by
  by_cases h3 : ring = 3
  · simp [create_thread, h3, default_user_regs]
  · simp [create_thread, h3, default_kernel_regs]

/-- C15, at concrete arguments: a ring-0 thread and a ring-3 thread. -/
theorem create_thread_frame_witness :
    ((create_thread 4096 8192 12288 [105] 77 88 0).1.regs.cs = 0x08 ∧
      (create_thread 4096 8192 12288 [105] 77 88 0).1.regs.ss = 0x10) ∧
    ((create_thread 4096 8192 12288 [105] 77 88 3).1.regs.cs = 0x1B ∧
      (create_thread 4096 8192 12288 [105] 77 88 3).1.regs.ss = 0x23) :=
  ⟨(create_thread_frame 4096 8192 12288 [105] 77 88 0).2.2.2.2.2.2.2.1 (by decide),
    (create_thread_frame 4096 8192 12288 [105] 77 88 3).2.2.2.2.2.2.1 rfl⟩

/-! ## Theorems: the dynarray model -/

/-- Reading a list of slots after one slot has been set. -/
theorem getD_set_slot {α : Type} (l : List (Option α)) (i j : Nat) (a : Option α) :
    (l.set i a).getD j none = if i = j ∧ i < l.length then a else l.getD j none := by
  simp only [List.getD_eq_getElem?_getD, List.getElem?_set]
  by_cases h : i = j
  · subst h
    by_cases hl : i < l.length
    · simp [hl]
    · simp [hl, List.getElem?_eq_none (Nat.le_of_not_lt hl)]
  · simp [h]

/-- Reading a table after a store through a slot pointer. -/
theorem dynarray_getelem_write {α : Type} (arr : dynarray_t α) (i j : Int) (v : α) :
    dynarray_getelem (dynarray_write arr i v) j =
      if j = i ∧ 0 ≤ i ∧ i.toNat < arr.length then some v else dynarray_getelem arr j := by
  unfold dynarray_getelem dynarray_write
  by_cases hi : i < 0
  · have hne : ¬ (j = i ∧ 0 ≤ i ∧ i.toNat < arr.length) := by omega
    simp only [if_pos hi, if_neg hne]
  · simp only [if_neg hi]
    by_cases hj : j < 0
    · have hne : ¬ (j = i ∧ 0 ≤ i ∧ i.toNat < arr.length) := by omega
      simp only [if_pos hj, if_neg hne]
    · simp only [if_neg hj, getD_set_slot]
      by_cases hc : i.toNat = j.toNat ∧ i.toNat < arr.length
      · have hc2 : j = i ∧ 0 ≤ i ∧ i.toNat < arr.length := by omega
        simp only [if_pos hc, if_pos hc2]
      · have hc2 : ¬ (j = i ∧ 0 ≤ i ∧ i.toNat < arr.length) := by omega
        simp only [if_neg hc, if_neg hc2, if_neg hj]

/-- Reading a table after a store through a pointer to a live slot. -/
theorem dynarray_getelem_write_live {α : Type} (arr : dynarray_t α) (i j : Int) (a v : α)
    (h : dynarray_getelem arr i = some a) :
    dynarray_getelem (dynarray_write arr i v) j =
      if j = i then some v else dynarray_getelem arr j := by
  obtain ⟨h0, hlt⟩ := dynarray_getelem_live arr i a h
  rw [dynarray_getelem_write]
  by_cases hj : j = i
  · simp [hj, h0, hlt]
  · simp [hj]

/-- Reading a table after the removal of a slot. -/
theorem dynarray_getelem_remove {α : Type} (arr : dynarray_t α) (i j : Int) :
    dynarray_getelem (dynarray_remove arr i) j =
      if j = i then none else dynarray_getelem arr j := by
  unfold dynarray_getelem dynarray_remove
  by_cases hi : i < 0
  · simp only [if_pos hi]
    by_cases hj : j = i
    · subst hj; simp [hi]
    · simp [hj]
  · simp only [if_neg hi]
    by_cases hj : j < 0
    · have hne : j ≠ i := by omega
      simp [hj, hne]
    · simp only [if_neg hj, getD_set_slot]
      by_cases hji : j = i
      · subst hji
        by_cases hl : j.toNat < arr.length
        · simp [hl]
        · simp [hl, List.getElem?_eq_none (Nat.le_of_not_lt hl)]
      · have hne : ¬ (i.toNat = j.toNat ∧ i.toNat < arr.length) := by omega
        simp only [if_neg hne, if_neg hji]

/-- The slot chosen for an insertion lies inside the table or right behind it. -/
theorem dynarray_free_slot_le {α : Type} (arr : dynarray_t α) :
    dynarray_free_slot arr ≤ arr.length := by
  induction arr with
  | nil => simp [dynarray_free_slot]
  | cons x rest ih =>
    cases x with
    | none => simp [dynarray_free_slot]
    | some a => simp [dynarray_free_slot]; exact ih

/-- The slot chosen for an insertion is not live. -/
theorem dynarray_free_slot_free {α : Type} (arr : dynarray_t α) :
    arr.getD (dynarray_free_slot arr) none = none := by
  induction arr with
  | nil => simp [dynarray_free_slot]
  | cons x rest ih =>
    cases x with
    | none => simp [dynarray_free_slot]
    | some a => simpa [dynarray_free_slot] using ih

/-- The id returned by an insertion is the chosen slot. -/
theorem dynarray_add_snd {α : Type} (arr : dynarray_t α) (v : α) :
    (dynarray_add arr v).2 = (dynarray_free_slot arr : Int) := by
  unfold dynarray_add
  by_cases h : dynarray_free_slot arr < arr.length
  · simp only [if_pos h]
  · simp only [if_neg h]

/-- The slot an insertion uses was not live before. -/
theorem dynarray_add_slot_free {α : Type} (arr : dynarray_t α) (v : α) :
    dynarray_getelem arr (dynarray_add arr v).2 = none := by
  rw [dynarray_add_snd]
  unfold dynarray_getelem
  have h : ¬ ((dynarray_free_slot arr : Int) < 0) := by omega
  simp only [if_neg h, Int.toNat_ofNat]
  exact dynarray_free_slot_free arr

/-- Reading a table after an insertion: the new slot holds the value and every
other slot is as before. -/
theorem dynarray_getelem_add {α : Type} (arr : dynarray_t α) (v : α) (j : Int) :
    dynarray_getelem (dynarray_add arr v).1 j =
      if j = (dynarray_add arr v).2 then some v else dynarray_getelem arr j := by
  rw [dynarray_add_snd]
  have hle := dynarray_free_slot_le arr
  unfold dynarray_add dynarray_getelem
  by_cases hj : j < 0
  · have hne : j ≠ (dynarray_free_slot arr : Int) := by omega
    simp [hj, hne]
  · simp only [if_neg hj]
    by_cases hlt : dynarray_free_slot arr < arr.length
    · simp only [if_pos hlt, getD_set_slot]
      by_cases hji : j = (dynarray_free_slot arr : Int)
      · have hc : dynarray_free_slot arr = j.toNat ∧ dynarray_free_slot arr < arr.length := by
          omega
        simp only [if_pos hc, if_pos hji]
      · have hc : ¬ (dynarray_free_slot arr = j.toNat ∧ dynarray_free_slot arr < arr.length) := by
          omega
        simp only [if_neg hc, if_neg hji]
    · simp only [if_neg hlt]
      have hlen : dynarray_free_slot arr = arr.length := by omega
      by_cases hji : j = (dynarray_free_slot arr : Int)
      · have hjn : j.toNat = arr.length := by omega
        simp only [if_pos hji, List.getD_eq_getElem?_getD, hjn]
        simp
      · simp only [if_neg hji, List.getD_eq_getElem?_getD]
        by_cases hjl : j.toNat < arr.length
        · rw [List.getElem?_append_left hjl]
        · have hgt : arr.length < j.toNat := by omega
          rw [List.getElem?_eq_none (by simp; omega),
            List.getElem?_eq_none (by omega)]

/-- The ids returned by insertions are not negative. -/
theorem dynarray_add_snd_nonneg {α : Type} (arr : dynarray_t α) (v : α) :
    0 ≤ (dynarray_add arr v).2 := by
  rw [dynarray_add_snd]; omega

/-! ## Theorems: attaching a thread to its process -/

/-- When every slot is live the slot chosen for an insertion is the one right
behind the table. -/
theorem dynarray_free_slot_full {α : Type} (arr : dynarray_t α)
    (h : ∀ x ∈ arr, x ≠ none) : dynarray_free_slot arr = arr.length := by
  induction arr with
  | nil => rfl
  | cons x rest ih =>
    cases x with
    | none => exact absurd rfl (h none (List.mem_cons_self _ _))
    | some a =>
      simp only [dynarray_free_slot, List.length_cons]
      rw [ih (fun y hy => h y (List.mem_cons_of_mem _ hy))]

/-- An insertion into a table without free slots appends the value. -/
theorem dynarray_add_full {α : Type} (arr : dynarray_t α) (v : α)
    (h : ∀ x ∈ arr, x ≠ none) : (dynarray_add arr v).1 = arr ++ [some v] := by
  unfold dynarray_add
  rw [dynarray_free_slot_full arr h]
  simp

/-- The successful path of `add_new_child_thread`, by the tables it leaves. -/
theorem add_new_child_thread_eq (s : kernel_t) (task : task_t) (pid : Int)
    (parent : process_t) (hlock : s.scheduler_lock = 0)
    (hparent : dynarray_getelem s.processes pid = some parent) :
    ∃ s2 task2,
      add_new_child_thread s task pid = Run.ret (s2, (dynarray_add s.tasks task).2, task2) ∧
      s2.tasks = dynarray_write (dynarray_add s.tasks task).1 (dynarray_add s.tasks task).2
        { task with
          tid := (dynarray_add s.tasks task).2
          regs := { task.regs with cr3 := parent.cr3 }
          parent_pid := pid } ∧
      s2.processes = dynarray_write s.processes pid { parent with
        threads := (dynarray_add parent.threads (dynarray_add s.tasks task).2).1 } ∧
      s2.scheduler_lock = 0 ∧ s2.interrupt_locks = s.interrupt_locks ∧ s2.cpus = s.cpus := by
  have hl : ¬ (s.scheduler_lock ≠ 0) := by simp [hlock]
  unfold add_new_child_thread
  simp only [if_neg hl, hparent]
  exact ⟨_, _, rfl, rfl, rfl, rfl, by simp, rfl⟩

/-- C14: for every live parent process `pid`, called with the scheduler lock
free, `add_new_child_thread(task, pid)` returns an id `tid` of a slot that was
not live; afterwards that slot is live and holds `task` with `tid` set to the
slot's id, `parent_pid` set to `pid` and `regs.cr3` set to the parent's `cr3`,
every other field as in `task`; every other slot of the thread table reads as
before, so the invariant `tasks[t].tid == t` is preserved; and `tid` has been
added to the parent's thread-id list, behind its entries when that list has no
free slot (nothing in `scheduler.c` removes from it), with the other entries
untouched. -/
theorem add_new_child_thread_inserts (s : kernel_t) (task : task_t) (pid : Int)
    (parent : process_t) (hlock : s.scheduler_lock = 0)
    (hparent : dynarray_getelem s.processes pid = some parent) :
    ∃ s2 tid task2,
      add_new_child_thread s task pid = Run.ret (s2, tid, task2) ∧
      dynarray_getelem s.tasks tid = none ∧
      dynarray_getelem s2.tasks tid = some { task with
        tid := tid
        regs := { task.regs with cr3 := parent.cr3 }
        parent_pid := pid } ∧
      (∀ j, j ≠ tid → dynarray_getelem s2.tasks j = dynarray_getelem s.tasks j) ∧
      ((∀ (t : Int) (tk : task_t), dynarray_getelem s.tasks t = some tk → tk.tid = t) →
        ∀ (t : Int) (tk : task_t), dynarray_getelem s2.tasks t = some tk → tk.tid = t) ∧
      dynarray_getelem s2.processes pid = some { parent with
        threads := (dynarray_add parent.threads tid).1 } ∧
      dynarray_getelem (dynarray_add parent.threads tid).1 (dynarray_add parent.threads tid).2
        = some tid ∧
      (∀ j, j ≠ (dynarray_add parent.threads tid).2 →
        dynarray_getelem (dynarray_add parent.threads tid).1 j
          = dynarray_getelem parent.threads j) ∧
      ((∀ x ∈ parent.threads, x ≠ none) →
        (dynarray_add parent.threads tid).1 = parent.threads ++ [some tid]) := by
  obtain ⟨s2, task2, hrun, htasks, hprocs, _, _, _⟩ :=
    add_new_child_thread_eq s task pid parent hlock hparent
  have hread : ∀ j, dynarray_getelem s2.tasks j =
      if j = (dynarray_add s.tasks task).2 then some { task with
          tid := (dynarray_add s.tasks task).2
          regs := { task.regs with cr3 := parent.cr3 }
          parent_pid := pid }
      else dynarray_getelem s.tasks j := by
    intro j
    have hlive : dynarray_getelem (dynarray_add s.tasks task).1 (dynarray_add s.tasks task).2
        = some task := by
      rw [dynarray_getelem_add]; simp
    rw [htasks, dynarray_getelem_write_live _ _ _ _ _ hlive, dynarray_getelem_add]
    by_cases hj : j = (dynarray_add s.tasks task).2
    · simp [hj]
    · simp [hj]
  refine ⟨s2, (dynarray_add s.tasks task).2, task2, hrun, dynarray_add_slot_free s.tasks task,
    ?_, ?_, ?_, ?_, ?_, ?_, ?_⟩
  · rw [hread]; simp
  · intro j hj
    rw [hread]; simp [hj]
  · intro hinv t tk ht
    rw [hread] at ht
    by_cases hj : t = (dynarray_add s.tasks task).2
    · rw [if_pos hj] at ht
      cases ht
      exact hj.symm
    · rw [if_neg hj] at ht
      exact hinv t tk ht
  · rw [hprocs, dynarray_getelem_write_live _ _ _ _ _ hparent]
    simp
  · rw [dynarray_getelem_add]; simp
  · intro j hj
    rw [dynarray_getelem_add]; simp [hj]
  · intro hfull
    exact dynarray_add_full _ _ hfull

/-- C14, at a concrete state: a second thread for process 0, whose first
thread sits in slot 0. -/
theorem add_new_child_thread_inserts_witness :
    ∃ s2 tid task2,
      add_new_child_thread
        (kernel_with [some (task_with 0 task_state_t.BLOCKED)]
          [some (process_with 0 4096 [some 0])] (cpu_with none 0))
        (task_with 0 task_state_t.READY) 0 = Run.ret (s2, tid, task2) ∧
      tid = 1 ∧
      dynarray_getelem s2.tasks 1 = some { task_with 0 task_state_t.READY with
        tid := 1
        regs := { (task_with 0 task_state_t.READY).regs with cr3 := 4096 }
        parent_pid := 0 } ∧
      dynarray_getelem s2.processes 0 = some (process_with 0 4096 [some 0, some 1]) := by
  obtain ⟨s2, tid, task2, hrun, _, hslot, _, _, hproc, _, _, happ⟩ :=
    add_new_child_thread_inserts
      (kernel_with [some (task_with 0 task_state_t.BLOCKED)]
        [some (process_with 0 4096 [some 0])] (cpu_with none 0))
      (task_with 0 task_state_t.READY) 0 (process_with 0 4096 [some 0]) rfl (by decide)
  have htid : tid = 1 := by
    have h := hrun
    simp [add_new_child_thread, kernel_with, dynarray_getelem, process_with,
      dynarray_add, dynarray_free_slot] at h
    exact h.2.1.symm
  subst htid
  refine ⟨s2, 1, task2, hrun, rfl, hslot, ?_⟩
  rw [hproc, happ (by decide)]
  rfl

/-! ## Theorems: killing a process -/

/-- `kill_task` with the lock free on a CPU that has a current thread: the
call returns, the slot is not live afterwards, and nothing else changes. -/
theorem kill_task_removes (s : kernel_t) (cpu : Nat) (tid : Int)
    (hlock : s.scheduler_lock = 0) (hcur : (s.cpus cpu).current_thread ≠ none) :
    ∃ s2 ret, kill_task s cpu tid = Run.ret (s2, ret) ∧
      (∀ j, dynarray_getelem s2.tasks j = if j = tid then none else dynarray_getelem s.tasks j) ∧
      s2.processes = s.processes ∧ s2.scheduler_lock = 0 ∧ s2.cpus = s.cpus := by
  have hl : ¬ (s.scheduler_lock ≠ 0) := by simp [hlock]
  unfold kill_task
  simp only [if_neg hl]
  cases htask : dynarray_getelem s.tasks tid with
  | none =>
    refine ⟨s, 1, rfl, ?_, rfl, hlock, rfl⟩
    intro j
    by_cases hj : j = tid
    · simp [hj, htask]
    · simp [hj]
  | some task =>
    cases hc : (s.cpus cpu).current_thread with
    | none => exact absurd hc hcur
    | some slot =>
      refine ⟨_, 0, rfl, ?_, rfl, hlock, rfl⟩
      intro j
      exact dynarray_getelem_remove s.tasks tid j

/-- The loop of `kill_process` returns with every listed thread slot not live
and every other slot as before. -/
theorem kill_process_loop_removes (cpu : Nat) :
    ∀ (threads : List (Option Int)) (s : kernel_t),
      s.scheduler_lock = 0 → (s.cpus cpu).current_thread ≠ none →
      ∃ s2, kill_process_loop cpu threads s = Run.ret s2 ∧
        (∀ j, some j ∈ threads → dynarray_getelem s2.tasks j = none) ∧
        (∀ j, some j ∉ threads → dynarray_getelem s2.tasks j = dynarray_getelem s.tasks j) ∧
        s2.processes = s.processes ∧ s2.scheduler_lock = 0 ∧ s2.cpus = s.cpus := by
  intro threads
  induction threads with
  | nil =>
    intro s hlock _
    exact ⟨s, rfl, by simp, by simp, rfl, hlock, rfl⟩
  | cons x rest ih =>
    intro s hlock hcur
    cases x with
    | none =>
      obtain ⟨s2, hrun, hin, hout, hp, hl, hc⟩ := ih s hlock hcur
      refine ⟨s2, by rw [kill_process_loop]; exact hrun, ?_, ?_, hp, hl, hc⟩
      · intro j hj
        rcases List.mem_cons.1 hj with h | h
        · cases h
        · exact hin j h
      · intro j hj
        exact hout j (fun h => hj (List.mem_cons_of_mem _ h))
    | some tid =>
      obtain ⟨s1, ret, hkill, hread, hp1, hl1, hc1⟩ := kill_task_removes s cpu tid hlock hcur
      obtain ⟨s2, hrun, hin, hout, hp, hl, hc⟩ := ih s1 hl1 (by rw [hc1]; exact hcur)
      refine ⟨s2, by rw [kill_process_loop, hkill]; exact hrun, ?_, ?_, by rw [hp, hp1], hl,
        by rw [hc, hc1]⟩
      · intro j hj
        by_cases hrest : some j ∈ rest
        · exact hin j hrest
        · rw [hout j hrest, hread]
          have hjt : j = tid := by
            rcases List.mem_cons.1 hj with h | h
            · exact (Option.some.inj h)
            · exact absurd h hrest
          simp [hjt]
      · intro j hj
        have hjt : j ≠ tid := fun h => hj (by rw [h]; exact List.mem_cons_self _ _)
        have hrest : some j ∉ rest := fun h => hj (List.mem_cons_of_mem _ h)
        rw [hout j hrest, hread]
        simp [hjt]

/-- Where the calling CPU has a current thread: for every live process `pid`,
called with the scheduler lock free, `kill_process(pid)` returns 0, and
afterwards none of the thread slots named in the process's thread-id list is
live and the process slot `pid` is not live; thread slots the list does not
name are as before. -/
theorem kill_process_removes (s : kernel_t) (cpu : Nat) (pid : Int) (proc : process_t)
    (hlock : s.scheduler_lock = 0) (hcur : (s.cpus cpu).current_thread ≠ none)
    (hproc : dynarray_getelem s.processes pid = some proc) :
    ∃ s2, kill_process s cpu pid = Run.ret (s2, 0) ∧
      (∀ tid, some tid ∈ proc.threads → dynarray_getelem s2.tasks tid = none) ∧
      dynarray_getelem s2.processes pid = none ∧
      (∀ tid, some tid ∉ proc.threads →
        dynarray_getelem s2.tasks tid = dynarray_getelem s.tasks tid) := by
  obtain ⟨s1, hrun, hin, hout, hp, _, _⟩ :=
    kill_process_loop_removes cpu proc.threads s hlock hcur
  refine ⟨{ s1 with processes := dynarray_remove s1.processes pid }, ?_, hin, ?_, hout⟩
  · unfold kill_process
    simp only [hproc, hrun]
  · show dynarray_getelem (dynarray_remove s1.processes pid) pid = none
    rw [dynarray_getelem_remove]; simp

/-- The same at a concrete state, `three_thread_state`: a process with the
three threads of slots 1, 2 and 3, none of them running, killed from a CPU
whose current thread is the idle task. -/
theorem kill_process_removes_witness :
    ∃ s2, kill_process three_thread_state 0 1 = Run.ret (s2, 0) ∧
      dynarray_getelem s2.tasks 1 = none ∧ dynarray_getelem s2.tasks 2 = none ∧
      dynarray_getelem s2.tasks 3 = none ∧ dynarray_getelem s2.processes 1 = none ∧
      dynarray_getelem s2.tasks 0 = some (task_with 0 task_state_t.BLOCKED) := by
  obtain ⟨s2, hrun, hin, hp, hout⟩ :=
    kill_process_removes three_thread_state 0 1 (process_with 1 8192 [some 1, some 2, some 3])
      rfl (by decide) (by decide)
  refine ⟨s2, hrun, hin 1 (by decide), hin 2 (by decide), hin 3 (by decide), hp, ?_⟩
  rw [hout 0 (by decide)]
  decide

/-! ## Theorems: one call of `schedule` -/

/-- Saving a frame and reading the saved registers back gives the frame's
registers. -/
theorem saved_regs_save_frame (regs : task_regs_t) (r : int_reg_t) (cr3 : Nat) :
    saved_regs { save_frame regs r with cr3 := cr3 } = frame_regs r := rfl

/-- Loading a register save area into a frame gives the saved registers. -/
theorem frame_regs_load_frame (r : int_reg_t) (regs : task_regs_t) :
    frame_regs (load_frame r regs) = saved_regs regs := rfl

/-- What the first half of `schedule` leaves behind when it returns: the lock
was free; the `current_thread` and `idle_tid` of every CPU are as before; and
the record of the calling CPU's current thread, if there is one, holds the
frame's registers and has gone from `RUNNING` to `READY` unless it is the
CPU's idle task, with every other slot untouched. -/
theorem schedule_save_ret (s : kernel_t) (cpu : Nat) (r : int_reg_t) (tsc : Nat → Nat)
    (s1 : kernel_t) (h : schedule_save s cpu r tsc = Run.ret s1) :
    s.scheduler_lock = 0 ∧
    (∀ c, (s1.cpus c).current_thread = (s.cpus c).current_thread ∧
      (s1.cpus c).idle_tid = (s.cpus c).idle_tid) ∧
    ((s.cpus cpu).current_thread = none → s1.tasks = s.tasks) ∧
    (∀ slot, (s.cpus cpu).current_thread = some slot →
      ∃ T T1, dynarray_getelem s.tasks slot = some T ∧
        dynarray_getelem s1.tasks slot = some T1 ∧ T1.tid = T.tid ∧
        T1.state = (if T.state = task_state_t.RUNNING ∧ T.tid ≠ (s.cpus cpu).idle_tid
          then task_state_t.READY else T.state) ∧
        saved_regs T1.regs = frame_regs r ∧
        ∀ j, j ≠ slot → dynarray_getelem s1.tasks j = dynarray_getelem s.tasks j) := by
  unfold schedule_save at h
  by_cases hl : s.scheduler_lock ≠ 0
  · rw [if_pos hl] at h; cases h
  · rw [if_neg hl] at h
    have hlock : s.scheduler_lock = 0 := by simpa using hl
    refine ⟨hlock, ?_⟩
    simp only [] at h
    rcases hcur : (s.cpus cpu).current_thread with _ | slot
    · rw [hcur] at h
      simp only [Run.ret.injEq] at h
      subst h
      exact ⟨fun c => ⟨rfl, rfl⟩, fun _ => rfl, fun slot hs => by cases hs⟩
    · rw [hcur] at h
      simp only [] at h
      rcases hT : dynarray_getelem s.tasks slot with _ | T
      · rw [hT] at h; cases h
      · rw [hT] at h
        simp only [Run.ret.injEq] at h
        have hidle : (if T.tid = (s.cpus cpu).idle_tid then end_idle (s.cpus cpu) (tsc 0)
            else s.cpus cpu).idle_tid = (s.cpus cpu).idle_tid := by
          by_cases hid : T.tid = (s.cpus cpu).idle_tid
          · simp only [if_pos hid, end_idle]
          · simp only [if_neg hid]
        have hcurr : (if T.tid = (s.cpus cpu).idle_tid then end_idle (s.cpus cpu) (tsc 0)
            else s.cpus cpu).current_thread = (s.cpus cpu).current_thread := by
          by_cases hid : T.tid = (s.cpus cpu).idle_tid
          · simp only [if_pos hid, end_idle]
          · simp only [if_neg hid]
        have htasks : ∀ j, dynarray_getelem s1.tasks j =
            if j = slot then some { T with
              regs := { save_frame T.regs r with
                cr3 := (if T.tid = (s.cpus cpu).idle_tid then end_idle (s.cpus cpu) (tsc 0)
                  else s.cpus cpu).pml4t }
              kernel_stack := (if T.tid = (s.cpus cpu).idle_tid
                then end_idle (s.cpus cpu) (tsc 0) else s.cpus cpu).thread_kernel_stack
              user_stack := (if T.tid = (s.cpus cpu).idle_tid
                then end_idle (s.cpus cpu) (tsc 0) else s.cpus cpu).thread_user_stack
              tsc_stopped := tsc 1
              tsc_total := u64 (T.tsc_total + sub64 (tsc 1) T.tsc_started)
              state :=
                if T.state = task_state_t.RUNNING ∧ T.tid ≠ (if T.tid = (s.cpus cpu).idle_tid
                  then end_idle (s.cpus cpu) (tsc 0) else s.cpus cpu).idle_tid
                then task_state_t.READY else T.state }
            else dynarray_getelem s.tasks j := by
          intro j
          rw [← h]
          exact dynarray_getelem_write_live _ _ _ _ _ hT
        have hcpus : s1.cpus = Function.update s.cpus cpu
            (if T.tid = (s.cpus cpu).idle_tid then end_idle (s.cpus cpu) (tsc 0)
              else s.cpus cpu) := by
          rw [← h]
        refine ⟨?_, ?_, ?_⟩
        · intro c
          rw [hcpus]
          by_cases hc : c = cpu
          · subst hc
            rw [Function.update_same]
            exact ⟨hcurr, hidle⟩
          · rw [Function.update_noteq hc]
            exact ⟨rfl, rfl⟩
        · intro hn; cases hn
        · intro slot2 hs2
          cases hs2
          have hT1 := htasks slot
          rw [if_pos rfl] at hT1
          refine ⟨T, _, hT, hT1, rfl, ?_, rfl, ?_⟩
          · simp only [hidle]
          · intro j hj
            rw [htasks, if_neg hj]

/-- What the second half of `schedule` leaves behind when it returns: the
target slot (the picked one, or the CPU's idle task for -1) was live; it is
the CPU's current thread afterwards; the frame holds its saved registers; its
record keeps its id and registers and is `RUNNING` when it was picked; every
other slot and every other CPU is untouched. -/
theorem schedule_switch_ret (s : kernel_t) (cpu : Nat) (r : int_reg_t) (tsc : Nat → Nat)
    (tid_run : Int) (s2 : kernel_t) (r2 : int_reg_t)
    (h : schedule_switch s cpu r tsc tid_run = Run.ret (s2, r2)) :
    ∃ T T2, dynarray_getelem s.tasks
        (if tid_run = -1 then (s.cpus cpu).idle_tid else tid_run) = some T ∧
      (s2.cpus cpu).current_thread =
        some (if tid_run = -1 then (s.cpus cpu).idle_tid else tid_run) ∧
      (∀ c, (s2.cpus c).idle_tid = (s.cpus c).idle_tid) ∧
      (∀ c, c ≠ cpu → s2.cpus c = s.cpus c) ∧
      frame_regs r2 = saved_regs T.regs ∧
      dynarray_getelem s2.tasks
        (if tid_run = -1 then (s.cpus cpu).idle_tid else tid_run) = some T2 ∧
      T2.tid = T.tid ∧ T2.regs = T.regs ∧
      T2.state = (if tid_run ≠ -1 then task_state_t.RUNNING else T.state) ∧
      (∀ j, j ≠ (if tid_run = -1 then (s.cpus cpu).idle_tid else tid_run) →
        dynarray_getelem s2.tasks j = dynarray_getelem s.tasks j) ∧
      s2.scheduler_lock = 0 := by
  unfold schedule_switch at h
  simp only [] at h
  rcases hT : dynarray_getelem s.tasks
      (if tid_run = -1 then (s.cpus cpu).idle_tid else tid_run) with _ | T
  · rw [hT] at h; cases h
  · rw [hT] at h
    simp only [Run.ret.injEq, Prod.mk.injEq] at h
    obtain ⟨hs, hr⟩ := h
    have htasks : ∀ j, dynarray_getelem s2.tasks j =
        if j = (if tid_run = -1 then (s.cpus cpu).idle_tid else tid_run) then
          some { (if tid_run ≠ -1 then { T with state := task_state_t.RUNNING } else T) with
            tsc_started := tsc 2 }
        else dynarray_getelem s.tasks j := by
      intro j
      rw [← hs]
      exact dynarray_getelem_write_live _ _ _ _ _ hT
    refine ⟨T, { (if tid_run ≠ -1 then { T with state := task_state_t.RUNNING } else T) with
      tsc_started := tsc 2 }, rfl, ?_, ?_, ?_, ?_, ?_, ?_, ?_, ?_, ?_, ?_⟩
    · rw [← hs]
      simp only [Function.update_same]
      by_cases hrun : tid_run = -1
      · simp [hrun, start_idle]
      · simp [hrun]
    · intro c
      rw [← hs]
      by_cases hc : c = cpu
      · subst hc
        simp only [Function.update_same]
        by_cases hrun : tid_run = -1
        · simp [hrun, start_idle]
        · simp [hrun]
      · simp only [Function.update_noteq hc]
    · intro c hc
      rw [← hs]
      simp only [Function.update_noteq hc]
    · rw [← hr]
      by_cases hrun : tid_run = -1
      · simp [hrun, frame_regs_load_frame]
      · simp [hrun, frame_regs_load_frame, saved_regs]
    · rw [htasks, if_pos rfl]
    · by_cases hrun : tid_run = -1
      · simp [hrun]
      · simp [hrun]
    · by_cases hrun : tid_run = -1
      · simp [hrun]
      · simp [hrun]
    · by_cases hrun : tid_run = -1
      · simp [hrun]
      · simp [hrun]
    · intro j hj
      rw [htasks, if_neg hj]
    · rw [← hs]

/-- A call of `schedule` that returns is its first half followed by its second
half on the picked id. -/
theorem schedule_ret (s : kernel_t) (cpu : Nat) (r : int_reg_t) (tsc : Nat → Nat)
    (s2 : kernel_t) (r2 : int_reg_t) (h : schedule s cpu r tsc = Run.ret (s2, r2)) :
    ∃ s1, schedule_save s cpu r tsc = Run.ret s1 ∧
      schedule_switch s1 cpu r tsc (schedule_pick s1 cpu) = Run.ret (s2, r2) := by
  unfold schedule at h
  cases hsave : schedule_save s cpu r tsc with
  | ret s1 => rw [hsave] at h; exact ⟨s1, rfl, h⟩
  | trap => rw [hsave] at h; cases h
  | out_of_fuel => rw [hsave] at h; cases h

/-- A value returned by one loop of `pick_task` is the `tid` field of a live
`READY` task. -/
theorem pick_task_scan_ready (tasks : dynarray_t task_t) :
    ∀ (n : Nat) (t r : Int), pick_task_scan tasks n t = some r →
      ∃ slot T, dynarray_getelem tasks slot = some T ∧ T.state = task_state_t.READY ∧
        T.tid = r := by
  intro n
  induction n with
  | zero => intro t r h; simp [pick_task_scan] at h
  | succ n ih =>
    intro t r h
    rw [pick_task_scan] at h
    cases hget : dynarray_getelem tasks t with
    | none => rw [hget] at h; exact ih _ _ h
    | some T =>
      rw [hget] at h
      by_cases hready : T.state = task_state_t.READY
      · simp only [hready, if_true, Option.some.injEq] at h
        exact ⟨t, T, hget, hready, h⟩
      · simp only [hready, if_false] at h
        exact ih _ _ h

/-- Under the invariant `tasks[t].tid == t`, an id other than -1 returned by
`pick_task` is the id of a live `READY` task. -/
theorem pick_task_ready (tasks : dynarray_t task_t) (cur : Option task_t) (p : Int)
    (hinv : ∀ (t : Int) (task : task_t), dynarray_getelem tasks t = some task → task.tid = t)
    (hp : pick_task tasks cur = p) (hne : p ≠ -1) :
    ∃ T, dynarray_getelem tasks p = some T ∧ T.state = task_state_t.READY := by
  unfold pick_task at hp
  cases cur with
  | none => exact absurd hp.symm hne
  | some c =>
    simp only [] at hp
    cases h1 : pick_task_scan tasks ((tasks.length : Int) - (c.tid + 1)).toNat (c.tid + 1) with
    | some r =>
      rw [h1] at hp
      simp only [] at hp
      obtain ⟨slot, T, hget, hst, htid⟩ := pick_task_scan_ready tasks _ _ _ h1
      have := hinv slot T hget
      subst hp
      rw [← htid, this]
      exact ⟨T, hget, hst⟩
    | none =>
      rw [h1] at hp
      simp only [] at hp
      cases h2 : pick_task_scan tasks (c.tid + 1).toNat 0 with
      | some r =>
        rw [h2] at hp
        simp only [] at hp
        obtain ⟨slot, T, hget, hst, htid⟩ := pick_task_scan_ready tasks _ _ _ h2
        have := hinv slot T hget
        subst hp
        rw [← htid, this]
        exact ⟨T, hget, hst⟩
      | none =>
        rw [h2] at hp
        exact absurd hp.symm hne

/-! ## Theorems: register save and restore -/

/-- After a call of `schedule` that returns, the record of the thread that was
current on the calling CPU holds the registers of the interrupted frame. -/
theorem schedule_saves_frame (s s1 : kernel_t) (c : Nat) (r r1 : int_reg_t)
    (tsc : Nat → Nat) (t : Int) (hcur : (s.cpus c).current_thread = some t)
    (h1 : schedule s c r tsc = Run.ret (s1, r1)) :
    (∃ T1, dynarray_getelem s1.tasks t = some T1 ∧ saved_regs T1.regs = frame_regs r) ∧
    ((s1.cpus c).current_thread = some t → frame_regs r1 = frame_regs r) := by
  obtain ⟨sm, hsave, hswitch⟩ := schedule_ret s c r tsc s1 r1 h1
  obtain ⟨_, _, _, hslot⟩ := schedule_save_ret s c r tsc sm hsave
  obtain ⟨T, Tm, _, hTm, _, _, hregs, _⟩ := hslot t hcur
  obtain ⟨U, U2, hU, hcur2, _, _, hframe, hU2, _, hU2regs, _, hother, _⟩ :=
    schedule_switch_ret sm c r tsc (schedule_pick sm c) s1 r1 hswitch
  constructor
  · by_cases ht : t = (if schedule_pick sm c = -1 then (sm.cpus c).idle_tid
        else schedule_pick sm c)
    · rw [← ht] at hU hU2
      rw [hTm] at hU
      cases hU
      exact ⟨U2, hU2, by rw [hU2regs]; exact hregs⟩
    · exact ⟨Tm, by rw [hother t ht]; exact hTm, hregs⟩
  · intro hsel
    rw [hcur2] at hsel
    have ht := Option.some.inj hsel
    rw [ht] at hU
    rw [hTm] at hU
    cases hU
    rw [hframe]; exact hregs

/-- After a call of `schedule` that returns with thread `t` current, `t` not
having been the calling CPU's current thread before, the frame holds the
registers saved in `t`'s record. -/
theorem schedule_loads_frame (s2 s3 : kernel_t) (c2 : Nat) (r2 r3 : int_reg_t)
    (tsc2 : Nat → Nat) (t : Int) (hnot : (s2.cpus c2).current_thread ≠ some t)
    (h2 : schedule s2 c2 r2 tsc2 = Run.ret (s3, r3))
    (hsel : (s3.cpus c2).current_thread = some t) :
    ∃ T, dynarray_getelem s2.tasks t = some T ∧ frame_regs r3 = saved_regs T.regs := by
  obtain ⟨sm, hsave, hswitch⟩ := schedule_ret s2 c2 r2 tsc2 s3 r3 h2
  obtain ⟨_, _, hnone, hslot⟩ := schedule_save_ret s2 c2 r2 tsc2 sm hsave
  obtain ⟨U, U2, hU, hcur2, _, _, hframe, _, _, _, _, _, _⟩ :=
    schedule_switch_ret sm c2 r2 tsc2 (schedule_pick sm c2) s3 r3 hswitch
  rw [hcur2] at hsel
  have ht := Option.some.inj hsel
  rw [ht] at hU
  have hsame : dynarray_getelem sm.tasks t = dynarray_getelem s2.tasks t := by
    cases hc : (s2.cpus c2).current_thread with
    | none => rw [hnone hc]
    | some o =>
      obtain ⟨_, _, _, _, _, _, _, hother⟩ := hslot o hc
      have hne : t ≠ o := fun h => hnot (by rw [hc, h])
      exact hother t hne
  exact ⟨U, by rw [← hsame]; exact hU, hframe⟩

/-- C12: if `schedule` is called on a CPU whose current thread is `t` while the
frame holds the registers `F` (rax, rbx, rcx, rdx, rbp, rdi, rsi, r8 to r15,
rip, rsp, rflags, cs, ss), and a later call of `schedule`, made in a state in
which `t`'s task record is as the first call left it and `t` is not the
current thread of the calling CPU (so that the later call does not save a
newer frame into the record), selects `t`, then the frame after the later
call holds `F` in those registers; and when the first call itself re-selects
`t`, it leaves those registers of the frame unchanged. -/
theorem schedule_register_round_trip (s s1 s2 s3 : kernel_t) (c c2 : Nat)
    (r r1 r2 r3 : int_reg_t) (tsc tsc2 : Nat → Nat) (t : Int)
    (hcur : (s.cpus c).current_thread = some t)
    (h1 : schedule s c r tsc = Run.ret (s1, r1))
    (hsame : dynarray_getelem s2.tasks t = dynarray_getelem s1.tasks t)
    (hnot : (s2.cpus c2).current_thread ≠ some t)
    (h2 : schedule s2 c2 r2 tsc2 = Run.ret (s3, r3))
    (hsel : (s3.cpus c2).current_thread = some t) :
    frame_regs r3 = frame_regs r ∧
    ((s1.cpus c).current_thread = some t → frame_regs r1 = frame_regs r) := by
  obtain ⟨⟨T1, hT1, hregs⟩, himm⟩ := schedule_saves_frame s s1 c r r1 tsc t hcur h1
  obtain ⟨T, hT, hframe⟩ := schedule_loads_frame s2 s3 c2 r2 r3 tsc2 t hnot h2 hsel
  rw [hsame, hT1] at hT
  cases hT
  exact ⟨by rw [hframe]; exact hregs, himm⟩

/-- C12, at a concrete state: the thread of slot 1 is preempted with the frame
`frame_with 100` in favour of the thread of slot 2, and the next call, made
with the frame `frame_with 200`, selects it again and restores the first
frame's registers. -/
theorem schedule_register_round_trip_witness :
    (two_thread_state.cpus 0).current_thread = some 1 ∧
    ((ret_state (schedule two_thread_state 0 (frame_with 100) (fun _ => 0))
      two_thread_state).cpus 0).current_thread = some 2 ∧
    frame_regs (ret_frame (schedule
      (ret_state (schedule two_thread_state 0 (frame_with 100) (fun _ => 0)) two_thread_state)
      0 (frame_with 200) (fun _ => 0)) (frame_with 200)) = frame_regs (frame_with 100) :=
  ⟨rfl, rfl,
    (schedule_register_round_trip two_thread_state
      (ret_state (schedule two_thread_state 0 (frame_with 100) (fun _ => 0)) two_thread_state)
      (ret_state (schedule two_thread_state 0 (frame_with 100) (fun _ => 0)) two_thread_state)
      (ret_state (schedule
        (ret_state (schedule two_thread_state 0 (frame_with 100) (fun _ => 0)) two_thread_state)
        0 (frame_with 200) (fun _ => 0)) two_thread_state)
      0 0 (frame_with 100)
      (ret_frame (schedule two_thread_state 0 (frame_with 100) (fun _ => 0)) (frame_with 100))
      (frame_with 200)
      (ret_frame (schedule
        (ret_state (schedule two_thread_state 0 (frame_with 100) (fun _ => 0)) two_thread_state)
        0 (frame_with 200) (fun _ => 0)) (frame_with 200))
      (fun _ => 0) (fun _ => 0) 1 rfl rfl rfl (by decide) rfl rfl).1⟩

/-! ## Theorems: scheduler invariants -/

/-- The facts about one returning call of `schedule` that the invariants rest
on: `sm` is the state between the two halves and `g` the slot made current. -/
theorem schedule_step (s s2 : kernel_t) (cpu : Nat) (r r2 : int_reg_t) (tsc : Nat → Nat)
    (hinv : tid_invariant s.tasks) (h : schedule s cpu r tsc = Run.ret (s2, r2)) :
    ∃ sm g, schedule_save s cpu r tsc = Run.ret sm ∧
      g = (if schedule_pick sm cpu = -1 then (s.cpus cpu).idle_tid else schedule_pick sm cpu) ∧
      tid_invariant sm.tasks ∧ tid_invariant s2.tasks ∧
      (∀ c, (s2.cpus c).idle_tid = (s.cpus c).idle_tid) ∧
      (∀ c, c ≠ cpu → (s2.cpus c).current_thread = (s.cpus c).current_thread) ∧
      (s2.cpus cpu).current_thread = some g ∧
      (∀ j, (s.cpus cpu).current_thread ≠ some j →
        dynarray_getelem sm.tasks j = dynarray_getelem s.tasks j) ∧
      (∀ o, (s.cpus cpu).current_thread = some o →
        ∃ T Tm, dynarray_getelem s.tasks o = some T ∧ dynarray_getelem sm.tasks o = some Tm ∧
          Tm.state = (if T.state = task_state_t.RUNNING ∧ o ≠ (s.cpus cpu).idle_tid
            then task_state_t.READY else T.state)) ∧
      (∀ j, j ≠ g → dynarray_getelem s2.tasks j = dynarray_getelem sm.tasks j) ∧
      (∃ U U2, dynarray_getelem sm.tasks g = some U ∧ dynarray_getelem s2.tasks g = some U2 ∧
        U2.state = (if schedule_pick sm cpu ≠ -1 then task_state_t.RUNNING else U.state)) ∧
      (schedule_pick sm cpu ≠ -1 →
        ∃ P, dynarray_getelem sm.tasks (schedule_pick sm cpu) = some P ∧
          P.state = task_state_t.READY) := by
  obtain ⟨sm, hsave, hswitch⟩ := schedule_ret s cpu r tsc s2 r2 h
  obtain ⟨_, hcpus, hnone, hslot⟩ := schedule_save_ret s cpu r tsc sm hsave
  obtain ⟨U, U2, hU, hcur2, hidle2, hcpus2, _, hU2, hU2tid, _, hU2state, hother2, _⟩ :=
    schedule_switch_ret sm cpu r tsc (schedule_pick sm cpu) s2 r2 hswitch
  have hidle_sm : (sm.cpus cpu).idle_tid = (s.cpus cpu).idle_tid := (hcpus cpu).2
  rw [hidle_sm] at hU hcur2 hU2 hother2
  have hsm_other : ∀ j, (s.cpus cpu).current_thread ≠ some j →
      dynarray_getelem sm.tasks j = dynarray_getelem s.tasks j := by
    intro j hj
    cases hc : (s.cpus cpu).current_thread with
    | none => rw [hnone hc]
    | some o =>
      obtain ⟨_, _, _, _, _, _, _, hother⟩ := hslot o hc
      exact hother j (fun hjo => hj (by rw [hc, hjo]))
  have hsm_inv : tid_invariant sm.tasks := by
    intro j tk hj
    by_cases hcj : (s.cpus cpu).current_thread = some j
    · obtain ⟨T, Tm, hT, hTm, htid, _, _, _⟩ := hslot j hcj
      rw [hTm] at hj
      cases hj
      rw [htid]; exact hinv j T hT
    · rw [hsm_other j hcj] at hj
      exact hinv j tk hj
  have hs2_inv : tid_invariant s2.tasks := by
    intro j tk hj
    by_cases hjg : j = (if schedule_pick sm cpu = -1 then (s.cpus cpu).idle_tid
        else schedule_pick sm cpu)
    · rw [hjg] at hj ⊢
      rw [hU2] at hj
      cases hj
      rw [hU2tid]; exact hsm_inv _ U hU
    · rw [hother2 j hjg] at hj
      exact hsm_inv j tk hj
  refine ⟨sm, _, hsave, rfl, hsm_inv, hs2_inv, ?_, ?_, hcur2, hsm_other, ?_, hother2,
    ⟨U, U2, hU, hU2, hU2state⟩, ?_⟩
  · intro c
    rw [hidle2 c]; exact (hcpus c).2
  · intro c hc
    rw [hcpus2 c hc]; exact (hcpus c).1
  · intro o ho
    obtain ⟨T, Tm, hT, hTm, _, hstate, _, _⟩ := hslot o ho
    refine ⟨T, Tm, hT, hTm, ?_⟩
    rw [hstate, hinv o T hT]
  · intro hp
    exact pick_task_ready sm.tasks (current_task sm cpu) (schedule_pick sm cpu) hsm_inv rfl hp

/-- One returning call of `schedule` keeps every idle task `BLOCKED`, never
picks an idle task, and makes an idle task current only through the fallback
for -1, and then the calling CPU's own. -/
theorem schedule_keeps_idle (ncpu : Nat) (s s2 : kernel_t) (cpu : Nat) (r r2 : int_reg_t)
    (tsc : Nat → Nat) (hinv : tid_invariant s.tasks) (hidle : idle_blocked ncpu s)
    (h : schedule s cpu r tsc = Run.ret (s2, r2)) :
    tid_invariant s2.tasks ∧ idle_blocked ncpu s2 ∧
    (∀ c, (s2.cpus c).idle_tid = (s.cpus c).idle_tid) ∧
    ∃ sm, schedule_save s cpu r tsc = Run.ret sm ∧
      (∀ c, c < ncpu → schedule_pick sm cpu ≠ (s.cpus c).idle_tid) ∧
      (∀ c, c < ncpu → (s2.cpus cpu).current_thread = some (s.cpus c).idle_tid →
        schedule_pick sm cpu = -1 ∧ (s.cpus c).idle_tid = (s.cpus cpu).idle_tid) := by
  obtain ⟨sm, g, hsave, hg, _, hs2inv, hidle2, _, hcur2, hsm_other, hsm_cur, hs2_other,
    ⟨U, U2, hU, hU2, hU2state⟩, hpick⟩ := schedule_step s s2 cpu r r2 tsc hinv h
  have hidle_sm : ∀ c, c < ncpu → ∃ task,
      dynarray_getelem sm.tasks (s.cpus c).idle_tid = some task ∧
        task.state = task_state_t.BLOCKED := by
    intro c hc
    obtain ⟨B, hB, hBst⟩ := hidle c hc
    by_cases hcur : (s.cpus cpu).current_thread = some (s.cpus c).idle_tid
    · obtain ⟨T, Tm, hT, hTm, hst⟩ := hsm_cur _ hcur
      rw [hB] at hT
      cases hT
      refine ⟨Tm, hTm, ?_⟩
      rw [hst, hBst]
      simp
    · exact ⟨B, by rw [hsm_other _ hcur]; exact hB, hBst⟩
  have hpick_not_idle : ∀ c, c < ncpu → schedule_pick sm cpu ≠ (s.cpus c).idle_tid := by
    intro c hc hpc
    obtain ⟨B, hB, hBst⟩ := hidle_sm c hc
    by_cases hp : schedule_pick sm cpu = -1
    · have := (dynarray_getelem_live sm.tasks _ B hB).1
      rw [← hpc, hp] at this
      omega
    · obtain ⟨P, hP, hPst⟩ := hpick hp
      rw [hpc, hB] at hP
      cases hP
      rw [hBst] at hPst
      cases hPst
  refine ⟨hs2inv, ?_, hidle2, sm, hsave, hpick_not_idle, ?_⟩
  · intro c hc
    rw [hidle2 c]
    obtain ⟨B, hB, hBst⟩ := hidle_sm c hc
    by_cases hcg : (s.cpus c).idle_tid = g
    · rw [hcg]
      refine ⟨U2, hU2, ?_⟩
      rw [hcg, hU] at hB
      cases hB
      rw [hU2state]
      by_cases hp : schedule_pick sm cpu = -1
      · simp [hp, hBst]
      · exfalso
        apply hpick_not_idle c hc
        rw [hcg, hg, if_neg hp]
    · exact ⟨B, by rw [hs2_other _ hcg]; exact hB, hBst⟩
  · intro c hc hsel
    rw [hcur2] at hsel
    have hgc : g = (s.cpus c).idle_tid := Option.some.inj hsel
    by_cases hp : schedule_pick sm cpu = -1
    · refine ⟨hp, ?_⟩
      rw [← hgc, hg, if_pos hp]
    · exfalso
      apply hpick_not_idle c hc
      rw [← hgc, hg, if_neg hp]

/-- Calls of `schedule` keep the thread-id invariant, keep the idle tasks
`BLOCKED` and leave every CPU's `idle_tid` as it was. -/
theorem schedule_calls_keep_idle (ncpu : Nat) (s0 s : kernel_t)
    (hinv : tid_invariant s0.tasks) (hidle : idle_blocked ncpu s0)
    (hreach : schedule_calls ncpu s0 s) :
    tid_invariant s.tasks ∧ idle_blocked ncpu s ∧
    ∀ c, (s.cpus c).idle_tid = (s0.cpus c).idle_tid := by
  induction hreach with
  | start => exact ⟨hinv, hidle, fun _ => rfl⟩
  | call s1 s2 cpu r r2 tsc _ _ hcall ih =>
    obtain ⟨hinv1, hidle1, hsame1⟩ := ih
    obtain ⟨hinv2, hidle2, hsame2, _⟩ :=
      schedule_keeps_idle ncpu s1 s2 cpu r r2 tsc hinv1 hidle1 hcall
    exact ⟨hinv2, hidle2, fun c => by rw [hsame2 c, hsame1 c]⟩

/-- The thread table of `two_thread_state` satisfies the thread-id invariant. -/
theorem two_thread_state_tid_invariant : tid_invariant two_thread_state.tasks := by
  intro t task h
  obtain ⟨h0, hlt⟩ := dynarray_getelem_live _ t task h
  have h3 : t < 3 := by
    have : two_thread_state.tasks.length = 3 := rfl
    omega
  interval_cases t
  · have : task = task_with 0 task_state_t.BLOCKED := (Option.some.inj h).symm
    rw [this]; rfl
  · have : task = task_with 1 task_state_t.RUNNING := (Option.some.inj h).symm
    rw [this]; rfl
  · have : task = task_with 2 task_state_t.READY := (Option.some.inj h).symm
    rw [this]; rfl

/-- C13: from a state whose thread table satisfies `tasks[t].tid == t` and in
which every CPU's idle task is live and `BLOCKED`, after any sequence of
returning `schedule` calls every CPU's idle task is still `BLOCKED` (and
`idle_tid` is unchanged); and in every further returning call the id returned
by `pick_task` differs from every CPU's `idle_tid`, and the thread made current
is an idle task only when `pick_task` returned -1, and then it is the calling
CPU's own idle task. -/
theorem idle_tasks_stay_blocked (ncpu : Nat) (s0 s : kernel_t)
    (hinv : tid_invariant s0.tasks) (hidle : idle_blocked ncpu s0)
    (hreach : schedule_calls ncpu s0 s) :
    idle_blocked ncpu s ∧ (∀ c, (s.cpus c).idle_tid = (s0.cpus c).idle_tid) ∧
    ∀ (cpu : Nat) (r r2 : int_reg_t) (tsc : Nat → Nat) (s2 : kernel_t),
      schedule s cpu r tsc = Run.ret (s2, r2) →
      idle_blocked ncpu s2 ∧
      ∃ sm, schedule_save s cpu r tsc = Run.ret sm ∧
        (∀ c, c < ncpu → schedule_pick sm cpu ≠ (s.cpus c).idle_tid) ∧
        (∀ c, c < ncpu → (s2.cpus cpu).current_thread = some (s.cpus c).idle_tid →
          schedule_pick sm cpu = -1 ∧ (s.cpus c).idle_tid = (s.cpus cpu).idle_tid) := by
  obtain ⟨hinv1, hidle1, hsame1⟩ := schedule_calls_keep_idle ncpu s0 s hinv hidle hreach
  refine ⟨hidle1, hsame1, ?_⟩
  intro cpu r r2 tsc s2 hcall
  obtain ⟨_, hidle2, _, hrest⟩ := schedule_keeps_idle ncpu s s2 cpu r r2 tsc hinv1 hidle1 hcall
  exact ⟨hidle2, hrest⟩

/-- C13 at a concrete input: one CPU with the idle task of slot 0, the
`RUNNING` task of slot 1 and the `READY` task of slot 2; after one call of
`schedule` the idle task is still `BLOCKED`. -/
theorem idle_tasks_stay_blocked_witness :
    tid_invariant two_thread_state.tasks ∧ idle_blocked 1 two_thread_state ∧
    schedule_calls 1 two_thread_state
      (ret_state (schedule two_thread_state 0 (frame_with 100) (fun _ => 0)) two_thread_state) ∧
    idle_blocked 1
      (ret_state (schedule two_thread_state 0 (frame_with 100) (fun _ => 0)) two_thread_state) :=
  have hidle : idle_blocked 1 two_thread_state :=
    fun _ _ => ⟨task_with 0 task_state_t.BLOCKED, rfl, rfl⟩
  have hreach : schedule_calls 1 two_thread_state
      (ret_state (schedule two_thread_state 0 (frame_with 100) (fun _ => 0)) two_thread_state) :=
    schedule_calls.call two_thread_state two_thread_state _ 0 (frame_with 100)
      (ret_frame (schedule two_thread_state 0 (frame_with 100) (fun _ => 0)) (frame_with 100))
      (fun _ => 0) (schedule_calls.start _) (by decide) rfl
  ⟨two_thread_state_tid_invariant, hidle, hreach,
    (idle_tasks_stay_blocked 1 two_thread_state _ two_thread_state_tid_invariant hidle hreach).1⟩

/-- What a returning call of `add_new_child_thread` does to the thread table:
nothing on the failure path, and on the success path one slot that was not
live receives the task with its id set. -/
theorem add_new_child_thread_tasks (s s2 : kernel_t) (task task2 : task_t) (pid tid : Int)
    (h : add_new_child_thread s task pid = Run.ret (s2, tid, task2)) :
    s2.cpus = s.cpus ∧
    (s2.tasks = s.tasks ∨
      (dynarray_getelem s.tasks tid = none ∧
        ∃ T, dynarray_getelem s2.tasks tid = some T ∧ T.tid = tid ∧ T.state = task.state ∧
          ∀ j, j ≠ tid → dynarray_getelem s2.tasks j = dynarray_getelem s.tasks j)) := by
  by_cases hlock : s.scheduler_lock = 0
  · cases hp : dynarray_getelem s.processes pid with
    | none =>
      have hl : ¬ (s.scheduler_lock ≠ 0) := by simp [hlock]
      unfold add_new_child_thread at h
      simp only [if_neg hl, hp] at h
      cases h
      exact ⟨rfl, Or.inl rfl⟩
    | some parent =>
      obtain ⟨s3, task3, heq, htasks, _, _, _, hcpus⟩ :=
        add_new_child_thread_eq s task pid parent hlock hp
      rw [heq] at h
      cases h
      refine ⟨hcpus, Or.inr ⟨dynarray_add_slot_free s.tasks task, ?_⟩⟩
      have hlive : dynarray_getelem (dynarray_add s.tasks task).1 (dynarray_add s.tasks task).2
          = some task := by
        rw [dynarray_getelem_add, if_pos rfl]
      refine ⟨{ task with
        tid := (dynarray_add s.tasks task).2
        regs := { task.regs with cr3 := parent.cr3 }
        parent_pid := pid }, ?_, rfl, rfl, ?_⟩
      · rw [htasks, dynarray_getelem_write_live _ _ _ task _ hlive, if_pos rfl]
      · intro j hj
        rw [htasks, dynarray_getelem_write_live _ _ _ task _ hlive, if_neg hj,
          dynarray_getelem_add, if_neg hj]
  · have hl : s.scheduler_lock ≠ 0 := hlock
    unfold add_new_child_thread at h
    rw [if_pos hl] at h
    cases h

/-- The initial state satisfies the scheduler invariant. -/
theorem initial_state_invariant (ncpu : Nat) (s : kernel_t) (h : initial_state ncpu s) :
    sched_invariant ncpu s := by
  obtain ⟨hinv, hidle, hdist, hnone, hnorun⟩ := h
  refine ⟨hinv, hidle, hdist, ?_, ?_, ?_⟩
  · intro c t hc hcur
    rw [hnone c hc] at hcur
    cases hcur
  · intro t task hlive hrun
    exact absurd hrun (hnorun t task hlive)
  · intro c c2 t hc _ hcur _
    rw [hnone c hc] at hcur
    cases hcur

/-- A returning call of `schedule` on one of the CPUs keeps the scheduler
invariant. -/
theorem schedule_keeps_invariant (ncpu : Nat) (s s2 : kernel_t) (cpu : Nat) (r r2 : int_reg_t)
    (tsc : Nat → Nat) (hcpu : cpu < ncpu) (hI : sched_invariant ncpu s)
    (h : schedule s cpu r tsc = Run.ret (s2, r2)) : sched_invariant ncpu s2 := by
  obtain ⟨hinv, hidle, hdist, hvalid, hrun, huniq⟩ := hI
  obtain ⟨hinv2, hidle2, hsame, _⟩ := schedule_keeps_idle ncpu s s2 cpu r r2 tsc hinv hidle h
  obtain ⟨sm, g, _, hg, _, _, _, hcur_other, hcur2, hsm_other, hsm_cur, hs2_other,
    ⟨U, U2, hU, hU2, hU2state⟩, hpick⟩ := schedule_step s s2 cpu r r2 tsc hinv h
  -- the slot the calling CPU had is not `RUNNING` between the two halves
  have hsm_old : ∀ o Tm, (s.cpus cpu).current_thread = some o →
      dynarray_getelem sm.tasks o = some Tm → Tm.state ≠ task_state_t.RUNNING := by
    intro o Tm ho hTm hst
    obtain ⟨T, Tm2, hT, hTm2, hstate⟩ := hsm_cur o ho
    rw [hTm] at hTm2
    cases hTm2
    obtain ⟨T2, hT2, hor⟩ := hvalid cpu o hcpu ho
    rw [hT] at hT2
    cases hT2
    by_cases hoi : o = (s.cpus cpu).idle_tid
    · obtain ⟨B, hB, hBst⟩ := hidle cpu hcpu
      rw [← hoi, hT] at hB
      cases hB
      rw [hstate, hBst] at hst
      simp at hst
    · rcases hor with hr | hr
      · rw [hstate, if_pos ⟨hr, hoi⟩] at hst
        cases hst
      · exact hoi hr
  -- the thread of another CPU keeps its slot through the call
  have hkeep : ∀ c t, c < ncpu → c ≠ cpu → (s.cpus c).current_thread = some t →
      t ≠ g ∧ dynarray_getelem s2.tasks t = dynarray_getelem s.tasks t := by
    intro c t hc hne hcur
    obtain ⟨T, hT, hor⟩ := hvalid c t hc hcur
    have hnot : (s.cpus cpu).current_thread ≠ some t := fun hx => hne (huniq c cpu t hc hcpu hcur hx)
    have hsm : dynarray_getelem sm.tasks t = some T := by rw [hsm_other t hnot]; exact hT
    have htg : t ≠ g := by
      intro htg
      by_cases hp : schedule_pick sm cpu = -1
      · rw [hg, if_pos hp] at htg
        obtain ⟨B, hB, hBst⟩ := hidle cpu hcpu
        rw [← htg, hT] at hB
        cases hB
        rcases hor with hr | hr
        · rw [hBst] at hr; cases hr
        · exact hne (hdist c cpu hc hcpu (by rw [← hr, htg]))
      · rw [hg, if_neg hp] at htg
        obtain ⟨P, hP, hPst⟩ := hpick hp
        rw [← htg, hsm] at hP
        cases hP
        rcases hor with hr | hr
        · rw [hPst] at hr; cases hr
        · obtain ⟨B, hB, hBst⟩ := hidle c hc
          rw [← hr, hT] at hB
          cases hB
          rw [hBst] at hPst; cases hPst
    exact ⟨htg, by rw [hs2_other t htg, hsm_other t hnot]⟩
  refine ⟨hinv2, hidle2, ?_, ?_, ?_, ?_⟩
  · intro c c2 hc hc2 heq
    rw [hsame c, hsame c2] at heq
    exact hdist c c2 hc hc2 heq
  · intro c t hc hcur
    by_cases hca : c = cpu
    · subst hca
      rw [hcur2] at hcur
      cases hcur
      refine ⟨U2, hU2, ?_⟩
      by_cases hp : schedule_pick sm c = -1
      · right
        rw [hsame c, hg, if_pos hp]
      · left
        rw [hU2state, if_pos hp]
    · rw [hcur_other c hca] at hcur
      obtain ⟨T, hT, hor⟩ := hvalid c t hc hcur
      refine ⟨T, by rw [(hkeep c t hc hca hcur).2]; exact hT, ?_⟩
      rw [hsame c]
      exact hor
  · intro t task hlive hst
    by_cases htg : t = g
    · exact ⟨cpu, hcpu, by rw [hcur2, htg]⟩
    · rw [hs2_other t htg] at hlive
      by_cases hto : (s.cpus cpu).current_thread = some t
      · exact absurd hst (hsm_old t task hto hlive)
      · rw [hsm_other t hto] at hlive
        obtain ⟨c, hc, hcur⟩ := hrun t task hlive hst
        have hca : c ≠ cpu := fun hx => hto (by rw [← hx]; exact hcur)
        exact ⟨c, hc, by rw [hcur_other c hca]; exact hcur⟩
  · intro c c2 t hc hc2 h1 h2
    by_cases hca : c = cpu
    · by_cases hca2 : c2 = cpu
      · rw [hca, hca2]
      · exfalso
        subst hca
        rw [hcur2] at h1
        cases h1
        rw [hcur_other c2 hca2] at h2
        exact (hkeep c2 g hc2 hca2 h2).1 rfl
    · by_cases hca2 : c2 = cpu
      · exfalso
        subst hca2
        rw [hcur2] at h2
        cases h2
        rw [hcur_other c hca] at h1
        exact (hkeep c g hc hca h1).1 rfl
      · rw [hcur_other c hca] at h1
        rw [hcur_other c2 hca2] at h2
        exact huniq c c2 t hc hc2 h1 h2

/-- What a returning call of `new_thread` does to the thread table and the
per-CPU blocks: the blocks are untouched, and the table is either untouched or
gains a `READY` task in a slot that was not live. -/
theorem new_thread_tasks (s s2 : kernel_t)
    (base_kernel_cr3 kernel_stack_block thread_info_addr : Nat) (name : List Nat)
    (main rsp : Nat) (pid : Int) (ring : Nat) (tid : Int)
    (h : new_thread s base_kernel_cr3 kernel_stack_block thread_info_addr name main rsp pid ring
      = Run.ret (s2, tid)) :
    s2.cpus = s.cpus ∧
    (s2.tasks = s.tasks ∨
      (dynarray_getelem s.tasks tid = none ∧
        ∃ T, dynarray_getelem s2.tasks tid = some T ∧ T.tid = tid ∧
          T.state = task_state_t.READY ∧
          ∀ j, j ≠ tid → dynarray_getelem s2.tasks j = dynarray_getelem s.tasks j)) := by
  unfold new_thread at h
  simp only [] at h
  split at h
  · rename_i s3 tid3 task3 hadd
    simp only [Run.ret.injEq, Prod.mk.injEq] at h
    obtain ⟨hs, ht⟩ := h
    subst hs
    subst ht
    exact add_new_child_thread_tasks _ _ _ _ _ _ hadd
  · cases h
  · cases h

/-- A returning call of `new_thread` keeps the scheduler invariant. -/
theorem new_thread_keeps_invariant (ncpu : Nat) (s s2 : kernel_t)
    (base_kernel_cr3 kernel_stack_block thread_info_addr : Nat) (name : List Nat)
    (main rsp : Nat) (pid : Int) (ring : Nat) (tid : Int) (hI : sched_invariant ncpu s)
    (h : new_thread s base_kernel_cr3 kernel_stack_block thread_info_addr name main rsp pid ring
      = Run.ret (s2, tid)) : sched_invariant ncpu s2 := by
  obtain ⟨hinv, hidle, hdist, hvalid, hrun, huniq⟩ := hI
  obtain ⟨hcpus, htasks⟩ := new_thread_tasks s s2 base_kernel_cr3 kernel_stack_block
    thread_info_addr name main rsp pid ring tid h
  rcases htasks with hsame | ⟨hfree, T, hT, hTtid, hTst, hother⟩
  · unfold sched_invariant idle_blocked idle_distinct current_valid running_is_current
      current_unique
    rw [hcpus, hsame]
    exact ⟨hinv, hidle, hdist, hvalid, hrun, huniq⟩
  · have hlive : ∀ j task, dynarray_getelem s.tasks j = some task →
        dynarray_getelem s2.tasks j = some task := by
      intro j task hj
      have hne : j ≠ tid := by
        intro hx
        rw [hx, hfree] at hj
        cases hj
      rw [hother j hne]; exact hj
    refine ⟨?_, ?_, ?_, ?_, ?_, ?_⟩
    · intro j task hj
      by_cases hjt : j = tid
      · rw [hjt, hT] at hj
        cases hj
        rw [hjt]; exact hTtid
      · rw [hother j hjt] at hj
        exact hinv j task hj
    · intro c hc
      rw [hcpus]
      obtain ⟨B, hB, hBst⟩ := hidle c hc
      exact ⟨B, hlive _ B hB, hBst⟩
    · intro c c2 hc hc2 heq
      rw [hcpus] at heq
      exact hdist c c2 hc hc2 heq
    · intro c t hc hcur
      rw [hcpus] at hcur ⊢
      obtain ⟨task, htask, hor⟩ := hvalid c t hc hcur
      exact ⟨task, hlive t task htask, hor⟩
    · intro t task hlive2 hst
      rw [hcpus]
      by_cases htt : t = tid
      · rw [htt, hT] at hlive2
        cases hlive2
        rw [hTst] at hst
        cases hst
      · rw [hother t htt] at hlive2
        exact hrun t task hlive2 hst
    · intro c c2 t hc hc2 h1 h2
      rw [hcpus] at h1 h2
      exact huniq c c2 t hc hc2 h1 h2

/-- Every state reached from the initial state by calls of `schedule` and
`new_thread` satisfies the scheduler invariant. -/
theorem kernel_calls_invariant (ncpu : Nat) (s0 s : kernel_t) (h0 : sched_invariant ncpu s0)
    (hreach : kernel_calls ncpu s0 s) : sched_invariant ncpu s := by
  induction hreach with
  | start => exact h0
  | schedule s1 s2 cpu r r2 tsc _ hcpu hcall ih =>
    exact schedule_keeps_invariant ncpu s1 s2 cpu r r2 tsc hcpu ih hcall
  | new_thread s1 s2 base_kernel_cr3 kernel_stack_block thread_info_addr name main rsp pid ring
      tid _ hcall ih =>
    exact new_thread_keeps_invariant ncpu s1 s2 base_kernel_cr3 kernel_stack_block
      thread_info_addr name main rsp pid ring tid ih hcall

/-- The thread table of `two_cpu_state` satisfies the thread-id invariant. -/
theorem two_cpu_state_tid_invariant : tid_invariant two_cpu_state.tasks := by
  intro t task h
  obtain ⟨h0, hlt⟩ := dynarray_getelem_live _ t task h
  have h3 : t < 3 := by
    have : two_cpu_state.tasks.length = 3 := rfl
    omega
  interval_cases t
  · have : task = task_with 0 task_state_t.BLOCKED := (Option.some.inj h).symm
    rw [this]; rfl
  · have : task = task_with 1 task_state_t.BLOCKED := (Option.some.inj h).symm
    rw [this]; rfl
  · have : task = task_with 2 task_state_t.READY := (Option.some.inj h).symm
    rw [this]; rfl

/-- The state `two_cpu_state` is an initial state of two CPUs. -/
theorem two_cpu_state_initial : initial_state 2 two_cpu_state := by
  refine ⟨two_cpu_state_tid_invariant, ?_, ?_, fun _ _ => rfl, ?_⟩
  · intro c hc
    interval_cases c
    · exact ⟨task_with 0 task_state_t.BLOCKED, rfl, rfl⟩
    · exact ⟨task_with 1 task_state_t.BLOCKED, rfl, rfl⟩
  · intro c c2 _ _ heq
    have : (c : Int) = (c2 : Int) := heq
    omega
  · intro t task h
    obtain ⟨h0, hlt⟩ := dynarray_getelem_live _ t task h
    have h3 : t < 3 := by
      have : two_cpu_state.tasks.length = 3 := rfl
      omega
    interval_cases t
    · have : task = task_with 0 task_state_t.BLOCKED := (Option.some.inj h).symm
      rw [this]; decide
    · have : task = task_with 1 task_state_t.BLOCKED := (Option.some.inj h).symm
      rw [this]; decide
    · have : task = task_with 2 task_state_t.READY := (Option.some.inj h).symm
      rw [this]; decide

/-- C11: in every state reached from an initial state (a thread table with
`tasks[t].tid == t`, no current thread on any CPU, no `RUNNING` task, and for
each CPU its own live `BLOCKED` idle task) by any sequence of returning
`schedule` calls on any CPUs and returning `new_thread` calls, every `RUNNING`
task is the current thread of exactly one CPU, and no task is the current
thread of two CPUs. -/
theorem running_task_on_one_cpu (ncpu : Nat) (s0 s : kernel_t)
    (hinit : initial_state ncpu s0) (hreach : kernel_calls ncpu s0 s) :
    (∀ (t : Int) (task : task_t), dynarray_getelem s.tasks t = some task →
      task.state = task_state_t.RUNNING →
      ∃ c, c < ncpu ∧ (s.cpus c).current_thread = some t ∧
        ∀ c2, c2 < ncpu → (s.cpus c2).current_thread = some t → c2 = c) ∧
    (∀ c c2 t, c < ncpu → c2 < ncpu → (s.cpus c).current_thread = some t →
      (s.cpus c2).current_thread = some t → c = c2) := by
  obtain ⟨_, _, _, _, hrun, huniq⟩ :=
    kernel_calls_invariant ncpu s0 s (initial_state_invariant ncpu s0 hinit) hreach
  refine ⟨?_, huniq⟩
  intro t task hlive hst
  obtain ⟨c, hc, hcur⟩ := hrun t task hlive hst
  exact ⟨c, hc, hcur, fun c2 hc2 hcur2 => huniq c2 c t hc2 hc hcur2 hcur⟩

/-- C11 at a concrete input: two CPUs, CPU 0 calls `schedule` twice; the task
of slot 2 is then `RUNNING` and is the current thread of CPU 0 alone. -/
theorem running_task_on_one_cpu_witness :
    initial_state 2 two_cpu_state ∧ kernel_calls 2 two_cpu_state two_cpu_second ∧
    (two_cpu_second.cpus 0).current_thread = some 2 ∧
    ∃ c, c < 2 ∧ (two_cpu_second.cpus c).current_thread = some 2 ∧
      ∀ c2, c2 < 2 → (two_cpu_second.cpus c2).current_thread = some 2 → c2 = c :=
  have hreach : kernel_calls 2 two_cpu_state two_cpu_second :=
    kernel_calls.schedule two_cpu_state two_cpu_first two_cpu_second 0 (frame_with 200)
      (ret_frame (schedule two_cpu_first 0 (frame_with 200) (fun _ => 0)) (frame_with 200))
      (fun _ => 0)
      (kernel_calls.schedule two_cpu_state two_cpu_state two_cpu_first 0 (frame_with 100)
        (ret_frame (schedule two_cpu_state 0 (frame_with 100) (fun _ => 0)) (frame_with 100))
        (fun _ => 0) (kernel_calls.start _) (by decide) rfl)
      (by decide) rfl
  ⟨two_cpu_state_initial, hreach, rfl,
    (running_task_on_one_cpu 2 two_cpu_state two_cpu_second two_cpu_state_initial hreach).1 2
      ((dynarray_getelem two_cpu_second.tasks 2).getD (task_with 0 task_state_t.BLOCKED))
      rfl rfl⟩

/-! ## Theorems: the failure path of `add_new_child_thread` -/

/-- Every operation that takes the scheduler lock spins for ever in a state in
which the lock is held. -/
theorem scheduler_lock_held_spins (s : kernel_t) (h : s.scheduler_lock ≠ 0) :
    (∀ task, add_new_thread s task = Run.out_of_fuel) ∧
    (∀ task pid, add_new_child_thread s task pid = Run.out_of_fuel) ∧
    (∀ name new_cr3, new_process s name new_cr3 = Run.out_of_fuel) ∧
    (∀ cpu tid, kill_task s cpu tid = Run.out_of_fuel) ∧
    (∀ cpu r tsc, schedule s cpu r tsc = Run.out_of_fuel) := by
  refine ⟨?_, ?_, ?_, ?_, ?_⟩
  · intro task
    unfold add_new_thread
    rw [if_pos h]
  · intro task pid
    unfold add_new_child_thread
    rw [if_pos h]
  · intro name new_cr3
    unfold new_process
    rw [if_pos h]
  · intro cpu tid
    unfold kill_task
    rw [if_pos h]
  · intro cpu r tsc
    unfold schedule schedule_save
    rw [if_pos h]

/-- C21 (the code on the failing path): called with the scheduler lock free
and a `pid` that names no live process, `add_new_child_thread` returns -1 and
adds no thread, but returns with the scheduler lock still held and with its
`interrupt_lock` not matched by an `interrupt_unlock`; in the state it leaves,
every later `add_new_thread`, `add_new_child_thread`, `new_process`,
`kill_task` and `schedule` spins on the lock for ever. -/
theorem add_new_child_thread_leaves_lock_held (s : kernel_t) (task : task_t) (pid : Int)
    (hlock : s.scheduler_lock = 0) (hdead : dynarray_getelem s.processes pid = none) :
    ∃ s2, add_new_child_thread s task pid = Run.ret (s2, -1, task) ∧
      s2.tasks = s.tasks ∧ s2.processes = s.processes ∧
      s2.scheduler_lock = 1 ∧ s2.interrupt_locks = s.interrupt_locks + 1 ∧
      (∀ task2, add_new_thread s2 task2 = Run.out_of_fuel) ∧
      (∀ task2 pid2, add_new_child_thread s2 task2 pid2 = Run.out_of_fuel) ∧
      (∀ name new_cr3, new_process s2 name new_cr3 = Run.out_of_fuel) ∧
      (∀ cpu tid, kill_task s2 cpu tid = Run.out_of_fuel) ∧
      (∀ cpu r tsc, schedule s2 cpu r tsc = Run.out_of_fuel) := by
  have hl : ¬ (s.scheduler_lock ≠ 0) := by simp [hlock]
  refine ⟨{ s with interrupt_locks := s.interrupt_locks + 1, scheduler_lock := 1 }, ?_,
    rfl, rfl, rfl, rfl, ?_⟩
  · unfold add_new_child_thread
    simp only [if_neg hl, hdead]
  · exact scheduler_lock_held_spins _ (by simp)

/-- C21, at a concrete state: the process table of `three_thread_state` has the
live slots 0 and 1 only; attaching a thread to process 7 returns -1 with the
lock held, and the next `schedule` on CPU 0 does not return. -/
theorem add_new_child_thread_leaves_lock_held_witness :
    three_thread_state.scheduler_lock = 0 ∧
    dynarray_getelem three_thread_state.processes 7 = none ∧
    ∃ s2, add_new_child_thread three_thread_state (task_with 0 task_state_t.READY) 7
        = Run.ret (s2, -1, task_with 0 task_state_t.READY) ∧
      s2.scheduler_lock = 1 ∧ s2.interrupt_locks = 1 ∧
      schedule s2 0 (frame_with 100) (fun _ => 0) = Run.out_of_fuel := by
  obtain ⟨s2, hret, _, _, hl, hi, _, _, _, _, hsched⟩ :=
    add_new_child_thread_leaves_lock_held three_thread_state
      (task_with 0 task_state_t.READY) 7 rfl (by decide)
  exact ⟨rfl, by decide, s2, hret, hl, hi, hsched 0 (frame_with 100) (fun _ => 0)⟩

/-! ## Theorems: `kill_process` and thread ids that are used again -/

/-- C22 (the code at the failing input): process 0 gets the thread 1, the
thread is killed with `kill_task`, which leaves its id in the thread-id list
of process 0, and the next thread, attached to process 1, receives the id 1
again.  In that state thread 1 is live with `parent_pid == 1`, and
`kill_process(0)` returns 0 and removes it, while process 1 is still live. -/
theorem kill_process_kills_foreign_thread :
    new_process boot_state [65] 4096
      = Run.ret ((ret_or (new_process boot_state [65] 4096) (boot_state, -1)).1, 0) ∧
    new_process (ret_or (new_process boot_state [65] 4096) (boot_state, -1)).1 [66] 8192
      = Run.ret (two_processes, 1) ∧
    (∃ task, add_new_child_thread two_processes (task_with 0 task_state_t.READY) 0
      = Run.ret (thread_of_first, 1, task)) ∧
    kill_task thread_of_first 0 1 = Run.ret (thread_killed, 0) ∧
    (dynarray_getelem thread_killed.processes 0).map (fun p => p.threads) = some [some 1] ∧
    (∃ task, add_new_child_thread thread_killed (task_with 0 task_state_t.READY) 1
      = Run.ret (thread_of_second, 1, task)) ∧
    (dynarray_getelem thread_of_second.tasks 1).map (fun t => t.parent_pid) = some 1 ∧
    kill_process thread_of_second 0 0 = Run.ret (first_process_killed, 0) ∧
    dynarray_getelem first_process_killed.tasks 1 = none ∧
    (dynarray_getelem first_process_killed.processes 1).map (fun p => p.pid) = some 1 :=
  ⟨rfl, rfl, ⟨_, rfl⟩, rfl, rfl, ⟨_, rfl⟩, rfl, rfl, rfl, rfl⟩

/-! ## Theorems: building the VFS tree -/

/-- Once the loop of `echfs_create_vfs_tree` stands at or before a deleted entry
that no end marker precedes, it does not return, whatever the budget. -/
theorem echfs_create_vfs_tree_loop_stuck (DELETED_ENTRY ROOT_DIR_ID : Nat) (dir : Directory)
    (mountpoint_path : List Nat) (d : Nat) (hne : DELETED_ENTRY ≠ 0)
    (hdel : (dir d).parent_id = DELETED_ENTRY) (hlive : ∀ k, k < d → (dir k).parent_id ≠ 0) :
    ∀ (fuel entry_n : Nat) (nodes v : List (Nat × List (List Nat))), entry_n ≤ d →
      echfs_create_vfs_tree_loop DELETED_ENTRY ROOT_DIR_ID dir mountpoint_path fuel entry_n nodes
        ≠ Run.ret v := by
  intro fuel
  induction fuel with
  | zero =>
    intro entry_n nodes v _ h
    simp [echfs_create_vfs_tree_loop] at h
  | succ fuel ih =>
    intro entry_n nodes v hle
    rw [echfs_create_vfs_tree_loop]
    have hnz : ¬ (dir entry_n).parent_id = 0 := by
      rcases Nat.lt_or_eq_of_le hle with hlt | heq
      · exact hlive entry_n hlt
      · rw [heq, hdel]; exact hne
    simp only [if_neg hnz]
    by_cases hd : (dir entry_n).parent_id = DELETED_ENTRY
    · rw [if_pos hd]
      exact ih entry_n nodes v hle
    · rw [if_neg hd]
      have hlt : entry_n < d := by
        rcases Nat.lt_or_eq_of_le hle with hlt | heq
        · exact hlt
        · exact absurd (by rw [heq]; exact hdel) hd
      cases hpath : echfs_get_full_path ROOT_DIR_ID dir fuel mountpoint_path (dir entry_n) with
      | ret full_path => exact ih (entry_n + 1) _ v hlt
      | trap => intro h; cases h
      | out_of_fuel => intro h; cases h

/-- On `deleted_dir` the loop of `echfs_create_vfs_tree` never leaves entry 1. -/
theorem echfs_create_vfs_tree_loop_deleted_dir (nodes : List (Nat × List (List Nat))) :
    ∀ fuel, echfs_create_vfs_tree_loop DELETED_VALUE ROOT_VALUE deleted_dir mount_path fuel 1
      nodes = Run.out_of_fuel := by
  intro fuel
  induction fuel with
  | zero => rfl
  | succ fuel ih =>
    rw [echfs_create_vfs_tree_loop]
    have h0 : ¬ (deleted_dir 1).parent_id = 0 := by decide
    have h1 : (deleted_dir 1).parent_id = DELETED_VALUE := by decide
    simp only [if_neg h0, if_pos h1]
    exact ih

/-- C23 (the code at the failing input): on the directory `deleted_dir`, whose
entries are the top-level file `a`, a deleted entry, the top-level file `b`
and the end marker, `echfs_create_vfs_tree` does not return for any budget of
iterations: after the node for entry 0 it reads the deleted entry 1 again and
again.  The same holds for every directory with a deleted entry that no end
marker precedes, whatever non-zero value `ECHFS_DELETED_ENTRY` has.  On
`live_dir`, which has no deleted entry, the call returns after one node for
each of the entries 0 and 1. -/
theorem echfs_create_vfs_tree_stuck_on_deleted (fuel : Nat) :
    ((deleted_dir 0).parent_id = ROOT_VALUE ∧ (deleted_dir 1).parent_id = DELETED_VALUE ∧
      (deleted_dir 2).parent_id = ROOT_VALUE ∧ (deleted_dir 3).parent_id = 0) ∧
    echfs_create_vfs_tree DELETED_VALUE ROOT_VALUE deleted_dir fuel mount_path
      = Run.out_of_fuel ∧
    (∀ (DELETED_ENTRY ROOT_DIR_ID : Nat) (dir : Directory) (mountpoint_path : List Nat)
      (d : Nat), DELETED_ENTRY ≠ 0 → (dir d).parent_id = DELETED_ENTRY →
      (∀ k, k < d → (dir k).parent_id ≠ 0) →
      ∀ v, echfs_create_vfs_tree DELETED_ENTRY ROOT_DIR_ID dir fuel mountpoint_path
        ≠ Run.ret v) ∧
    echfs_create_vfs_tree DELETED_VALUE ROOT_VALUE live_dir 4 mount_path
      = Run.ret [(0, [[47, 109], [97]]), (1, [[47, 109], [97], [98]])] := by
  refine ⟨by decide, ?_, ?_, by decide⟩
  · unfold echfs_create_vfs_tree
    cases fuel with
    | zero => rfl
    | succ fuel =>
      rw [echfs_create_vfs_tree_loop]
      have h0 : ¬ (deleted_dir 0).parent_id = 0 := by decide
      have h1 : ¬ (deleted_dir 0).parent_id = DELETED_VALUE := by decide
      simp only [if_neg h0, if_neg h1]
      cases fuel with
      | zero => rfl
      | succ fuel =>
        have hpath : echfs_get_full_path ROOT_VALUE deleted_dir (fuel + 1) mount_path
            (deleted_dir 0) = Run.ret [[47, 109], [97]] := by
          unfold echfs_get_full_path
          rw [echfs_get_full_path_loop]
          have hroot : (deleted_dir 0).parent_id = ROOT_VALUE := by decide
          simp only [if_pos hroot]
          decide
        rw [hpath]
        exact echfs_create_vfs_tree_loop_deleted_dir _ (fuel + 1)
  · intro DELETED_ENTRY ROOT_DIR_ID dir mountpoint_path d hne hdel hlive v
    exact echfs_create_vfs_tree_loop_stuck DELETED_ENTRY ROOT_DIR_ID dir mountpoint_path d hne
      hdel hlive fuel 0 [] v (Nat.zero_le d)

/-! ## Theorems: `kill_process` before the first call of `schedule` -/

end DripOS
